import Mathlib

/-!
# managed-tg-gpt-chat: the filter router (`pkg/tgrouter`)

A shallow embedding of the Go package `pkg/tgrouter` (files `filters.go`,
`route.go`, `group.go`, `router.go`, `config.go`) and theorems about it.

Modelling conventions

* A Go call that may mutate shared state and may panic is a function
  `σ → Res α × σ` (type `M σ α`): the state after the call is kept also when
  the call panics, which is what a deferred `recover()` observes.
* Go interfaces (`FilterMatcher`, `Handler`, `Route`) are records of closures.
  A nil interface value or nil func value is `none`.
* `context.Context` is handed on unchanged by every function of the package and
  is never inspected, so handlers are taken as already closed over it.
* What the router calls, and in which order, is observed the way the package's
  tests do it: every collaborator is wrapped in a spy which appends an
  `Event` to a log before running the collaborator.
-/

namespace TgRouter

/-! ## Errors, panics and the call monad -/

/-- Go `error` values. `ErrRouteNotFound` is the package sentinel
`var ErrRouteNotFound = errors.New("route not found")`, `errorString` is any
other error made by `errors.New` or `fmt.Errorf` without `%w`, and `wrapError`
is an error made by `fmt.Errorf` with `%w` around `inner`. -/
inductive GoError where
  | ErrRouteNotFound
  | errorString (msg : String)
  | wrapError (msg : String) (inner : GoError)
  deriving DecidableEq, Repr

/-- The call `errors.Is(err, ErrRouteNotFound)`: the sentinel itself, or an error
whose `Unwrap` chain reaches it. -/
def GoError.isRouteNotFound : GoError → Bool
  | .ErrRouteNotFound => true
  | .errorString _ => false
  | .wrapError _ inner => inner.isRouteNotFound

/-- The method `Error()` of an error value. -/
def GoError.Error : GoError → String
  | .ErrRouteNotFound => "route not found"
  | .errorString msg => msg
  | .wrapError msg _ => msg

/-- A value given to `panic`: either an `error`, or a value of another type,
kept by its `%v` rendering `repr`. -/
inductive PanicValue where
  | error (err : GoError)
  | value (repr : String)
  deriving DecidableEq, Repr

/-- Outcome of a Go call: a normal return, or a panic that unwinds. -/
inductive Res (α : Type) where
  | ok (a : α)
  | panicked (p : PanicValue)
  deriving DecidableEq, Repr

/-- A Go call over mutable state `σ`. -/
def M (σ α : Type) : Type := σ → Res α × σ

/-- Normal return. -/
def M.ret {σ α : Type} (a : α) : M σ α := fun s => (.ok a, s)

/-- Sequencing: a panic in the first call skips the rest. -/
def M.andThen {σ α β : Type} (m : M σ α) (f : α → M σ β) : M σ β := fun s =>
  match m s with
  | (.ok a, s1) => f a s1
  | (.panicked p, s1) => (.panicked p, s1)

/-- The statement `panic(p)`. -/
def M.raise {σ α : Type} (p : PanicValue) : M σ α := fun s => (.panicked p, s)

instance {σ : Type} : Monad (M σ) where
  pure := M.ret
  bind := M.andThen

/-- The run-time panic of dereferencing a nil pointer. -/
def nilDereference : PanicValue :=
  .error (.errorString "runtime error: invalid memory address or nil pointer dereference")

/-- The run-time panic of indexing a slice out of range. -/
def indexOutOfRange : PanicValue :=
  .error (.errorString "runtime error: index out of range")

/-! ## Updates

The declarations of `tgrouter.Update`, `echotron.Message` and `echotron.User`
are not among the sources; the fields below are the ones `filters.go` reads. -/

/-- Modelled from the spec: `echotron.Message`, of which only `Text` is read. -/
structure Message where
  Text : String
  deriving DecidableEq, Repr

/-- Modelled from the spec: `echotron.User`, of which only `UserName` is read. -/
structure User where
  UserName : String
  deriving DecidableEq, Repr

/-- Modelled from the spec: `tgrouter.Update`. `Message` is the pointer
`u.Message` (nil when the update is of another kind), `BotSelf` the pointer
`u.BotSelf` to the bot's own account, `Other` stands for all remaining
fields. -/
structure Update where
  Message : Option Message
  BotSelf : Option User
  Other : Nat
  deriving DecidableEq, Repr

/-! ## filters.go -/

/-- The interface `FilterMatcher` (and the func type `FilterFunc`, whose `Match`
calls the function). -/
abbrev FilterMatcher (σ : Type) : Type := Update → M σ Bool

/-- A filter that only inspects the update. -/
def FilterFunc.ofPred {σ : Type} (p : Update → Bool) : FilterMatcher σ :=
  fun u => M.ret (p u)

/-- Source `Any`. -/
def Any {σ : Type} : FilterMatcher σ := fun _ => M.ret true

/-- Source `IsMessage`: `u.Message != nil`. -/
def IsMessage {σ : Type} : FilterMatcher σ := fun u => M.ret u.Message.isSome

/-- Source `And`: the loop returns false at the first filter that does not match. -/
def And {σ : Type} : List (FilterMatcher σ) → FilterMatcher σ
  | [], _ => M.ret true
  | filter :: filters, u =>
    M.andThen (filter u) fun b =>
      if !b then M.ret false else And filters u

/-- Source `Or`: the loop returns true at the first filter that matches. -/
def Or {σ : Type} : List (FilterMatcher σ) → FilterMatcher σ
  | [], _ => M.ret false
  | filter :: filters, u =>
    M.andThen (filter u) fun b =>
      if b then M.ret true else Or filters u

/-- Source `Not`. -/
def Not {σ : Type} (filter : FilterMatcher σ) : FilterMatcher σ :=
  fun u => M.andThen (filter u) fun b => M.ret (!b)

/-- The character class `[0-9a-zA-Z_]`. -/
def isWordChar (c : Char) : Bool :=
  c.isDigit || c.isLower || c.isUpper || c == '_'

/-- The call `commandRegex.FindStringSubmatch(text)` for
`commandRegex = "^/([0-9a-zA-Z_]+)(@[0-9a-zA-Z_]{3,})?"`, by the leftmost-first
rules of Go's `regexp`: the match is anchored at the start, group 1 is the
longest run of word characters after the slash (at least one), group 2 is
taken when an `@` and at least three word characters follow, and then is the
`@` with the longest such run; a group that did not take part is the empty
string. The result is nil (the empty list) when there is no match, and
otherwise whole match, group 1, group 2. -/
def commandRegex.FindStringSubmatch (text : String) : List String :=
  match text.data with
  | '/' :: rest =>
    let g1 := rest.takeWhile isWordChar
    if g1.isEmpty then []
    else
      match rest.dropWhile isWordChar with
      | '@' :: rest2 =>
        let name := rest2.takeWhile isWordChar
        if 3 ≤ name.length then
          [String.mk ('/' :: g1 ++ '@' :: name), String.mk g1, String.mk ('@' :: name)]
        else [String.mk ('/' :: g1), String.mk g1, ""]
      | _ => [String.mk ('/' :: g1), String.mk g1, ""]
  | _ => []

/-- Indexing `matches[i]` of a Go slice, which panics when out of range. -/
def sliceIndex {σ : Type} (xs : List String) (i : Nat) : M σ String :=
  match xs[i]? with
  | some x => M.ret x
  | none => M.raise indexOutOfRange

/-- The second conjunct of `IsAnyCommandMessage`. It reads `u.Message.Text`
and, when the command names a bot, `u.BotSelf.UserName`. -/
def anyCommandCheck {σ : Type} : FilterMatcher σ := fun u =>
  match u.Message with
  | none => M.raise nilDereference
  | some msg =>
    let submatches := commandRegex.FindStringSubmatch msg.Text
    if submatches.length == 0 then M.ret false
    else
      M.andThen (sliceIndex submatches 2) fun botName =>
        if botName != "" then
          match u.BotSelf with
          | none => M.raise nilDereference
          | some self =>
            if botName != "@" ++ self.UserName then M.ret false else M.ret true
        else M.ret true

/-- Source `IsAnyCommandMessage`. -/
def IsAnyCommandMessage {σ : Type} : FilterMatcher σ :=
  And [IsMessage, anyCommandCheck]

/-- The second conjunct of `IsCommandMessage(cmd)`. -/
def commandNameCheck {σ : Type} (cmd : String) : FilterMatcher σ := fun u =>
  match u.Message with
  | none => M.raise nilDereference
  | some msg =>
    let submatches := commandRegex.FindStringSubmatch msg.Text
    M.andThen (sliceIndex submatches 1) fun actualCmd =>
      M.ret (actualCmd == cmd)

/-- Source `IsCommandMessage`. -/
def IsCommandMessage {σ : Type} (cmd : String) : FilterMatcher σ :=
  And [IsAnyCommandMessage, commandNameCheck cmd]

/-! ## route.go, group.go, config.go, router.go -/

/-- The interface `Handler` (and the func type `HandlerFunc`): `Handle(ctx, u)`
returns an error, `none` being the nil error. -/
abbrev Handler (σ : Type) : Type := Update → M σ (Option GoError)

/-- Source `Middleware`: `func(handler Handler) Handler`. -/
abbrev Middleware (σ : Type) : Type := Handler σ → Handler σ

/-- The interface `Route`: a `FilterMatcher` and a `Handler`. -/
structure Route (σ : Type) where
  Match : FilterMatcher σ
  Handle : Handler σ

/-- The loop shared by `routeHandler.wrap` and `routeGroup.wrap`,
`for i := len(middlewares) - 1; i >= 0; i-- { handler = middlewares[i](handler) }`,
with the counter kept as `i + 1`. -/
def wrapLoop {σ : Type} (middlewares : List (Middleware σ)) : Nat → Handler σ → Handler σ
  | 0, handler => handler
  | i + 1, handler =>
    match middlewares[i]? with
    | some m => wrapLoop middlewares i (m handler)
    | none => handler

/-- The loop of `matchRoute`, `for _, route := range routes { if route.Match(u) { return route } }`,
followed by `return fallback`. -/
def matchLoop {σ : Type} (fallback : Option (Handler σ)) :
    List (Route σ) → Update → M σ (Option (Handler σ))
  | [], _ => M.ret fallback
  | route :: routes, u =>
    M.andThen (route.Match u) fun b =>
      if b then M.ret (some route.Handle) else matchLoop fallback routes u

/-- Source `routeHandler`. -/
structure routeHandler (σ : Type) where
  filter : FilterMatcher σ
  handler : Handler σ
  middlewares : List (Middleware σ)

/-- Source `routeHandler.wrap`. -/
def routeHandler.wrap {σ : Type} (h : routeHandler σ) (handler : Handler σ) : Handler σ :=
  wrapLoop h.middlewares h.middlewares.length handler

/-- Source `routeHandler.Handle`. -/
def routeHandler.Handle {σ : Type} (h : routeHandler σ) : Handler σ :=
  fun u => (h.wrap h.handler) u

/-- Source `routeHandler.Match`. -/
def routeHandler.Match {σ : Type} (h : routeHandler σ) : FilterMatcher σ :=
  fun u => h.filter u

/-- Source `routeHandler.Use`. -/
def routeHandler.Use {σ : Type} (h : routeHandler σ) (middlewares : List (Middleware σ)) :
    routeHandler σ :=
  { h with middlewares := h.middlewares ++ middlewares }

/-- A `routeHandler` seen through the interface `Route`. -/
def routeHandler.toRoute {σ : Type} (h : routeHandler σ) : Route σ :=
  ⟨h.Match, h.Handle⟩

/-- Source `NewRoute`: a nil filter stands for `Any()`. -/
def NewRoute {σ : Type} (filter : Option (FilterMatcher σ)) (handler : Handler σ)
    (middlewares : List (Middleware σ)) : routeHandler σ :=
  match filter with
  | none => ⟨Any, handler, middlewares⟩
  | some f => ⟨f, handler, middlewares⟩

/-- Source `routeGroup`. -/
structure routeGroup (σ : Type) where
  filter : FilterMatcher σ
  routes : List (Route σ)
  middlewares : List (Middleware σ)

/-- Source `NewGroup`. -/
def NewGroup {σ : Type} (filter : FilterMatcher σ) (routes : List (Route σ)) : routeGroup σ :=
  ⟨filter, routes, []⟩

/-- Source `routeGroup.Use`. -/
def routeGroup.Use {σ : Type} (g : routeGroup σ) (middlewares : List (Middleware σ)) :
    routeGroup σ :=
  { g with middlewares := g.middlewares ++ middlewares }

/-- Source `routeGroup.wrap`. -/
def routeGroup.wrap {σ : Type} (g : routeGroup σ) (handler : Handler σ) : Handler σ :=
  wrapLoop g.middlewares g.middlewares.length handler

/-- Source `routeGroup.matchRoute`. -/
def routeGroup.matchRoute {σ : Type} (g : routeGroup σ) (u : Update) :
    M σ (Option (Handler σ)) :=
  matchLoop none g.routes u

/-- Source `routeGroup.Handle`. -/
def routeGroup.Handle {σ : Type} (g : routeGroup σ) : Handler σ := fun u =>
  M.andThen (g.matchRoute u) fun route =>
    match route with
    | none => M.ret (some GoError.ErrRouteNotFound)
    | some route => (g.wrap route) u

/-- Source `routeGroup.Match`. -/
def routeGroup.Match {σ : Type} (g : routeGroup σ) : FilterMatcher σ :=
  fun u => g.filter u

/-- A `routeGroup` seen through the interface `Route`. -/
def routeGroup.toRoute {σ : Type} (g : routeGroup σ) : Route σ :=
  ⟨g.Match, g.Handle⟩

/-- Source `Config`. `RecoverHandler` and `ErrorHandler` are funcs without
result, `NotFoundHandler` a `Handler`, `GlobalFilter` a `FilterFunc`; each may
be nil. -/
structure Config (σ : Type) where
  RecoverHandler : Option (Update → GoError → M σ Unit)
  ErrorHandler : Option (Update → GoError → M σ Unit)
  NotFoundHandler : Option (Handler σ)
  GlobalFilter : Option (FilterMatcher σ)

/-- Source `Router`, without the `api` and `botSelf` fields, which `Handle`
does not read. -/
structure Router (σ : Type) where
  routes : List (Route σ)
  cfg : Config σ

/-- Source `Router.Mount`. -/
def Router.Mount {σ : Type} (r : Router σ) (routes : List (Route σ)) : Router σ :=
  { r with routes := r.routes ++ routes }

/-- Source `Router.Match`: `r.cfg.GlobalFilter != nil && r.cfg.GlobalFilter(u)`. -/
def Router.Match {σ : Type} (r : Router σ) : FilterMatcher σ := fun u =>
  match r.cfg.GlobalFilter with
  | none => M.ret false
  | some g => g u

/-- Source `Router.matchRoute`: the first mounted route that matches, and
`r.cfg.NotFoundHandler` when none does. -/
def Router.matchRoute {σ : Type} (r : Router σ) (u : Update) : M σ (Option (Handler σ)) :=
  matchLoop r.cfg.NotFoundHandler r.routes u

/-- The statements of `Router.Handle` after `err := route.Handle(ctx, u)`:
a nil error is returned; an error for which `errors.Is(err, ErrRouteNotFound)`
holds goes to the not-found handler when one is configured, whose result is
returned; any other error goes to the error handler when one is configured,
and nil is returned. -/
def Router.afterRoute {σ : Type} (r : Router σ) (u : Update) (err : Option GoError) :
    M σ (Option GoError) :=
  match err with
  | none => M.ret none
  | some e =>
    match e.isRouteNotFound, r.cfg.NotFoundHandler with
    | true, some nf => nf u
    | _, _ =>
      match r.cfg.ErrorHandler with
      | some eh => M.andThen (eh u e) fun _ => M.ret none
      | none => M.ret none

/-- The statements of `Router.Handle` from `route := r.matchRoute(u)` on. -/
def Router.dispatch {σ : Type} (r : Router σ) : Handler σ := fun u =>
  M.andThen (r.matchRoute u) fun route =>
    match route with
    | none =>
      match r.cfg.NotFoundHandler with
      | some nf => nf u
      | none => M.ret (some GoError.ErrRouteNotFound)
    | some route => M.andThen (route u) (r.afterRoute u)

/-- The body of `Router.Handle` below the `defer`. -/
def Router.handleBody {σ : Type} (r : Router σ) : Handler σ := fun u =>
  match r.cfg.GlobalFilter with
  | some _ =>
    M.andThen (r.Match u) fun passed =>
      if !passed then M.ret none else r.dispatch u
  | none => r.dispatch u

/-- The first statements of `Router.tryRecover`,
`err, ok := p.(error); if !ok { err = fmt.Errorf("%v", p) }`. -/
def PanicValue.toError : PanicValue → GoError
  | .error e => e
  | .value repr => .errorString repr

/-- Source `Router.tryRecover`, run with the non-nil value `p` that `recover()`
returned: the error made of `p` is given to the recover handler, after which
`Handle` returns the zero value of its result; without a recover handler the
error is panicked again. -/
def Router.tryRecover {σ : Type} (r : Router σ) (u : Update) (p : PanicValue) :
    M σ (Option GoError) :=
  let err := p.toError
  match r.cfg.RecoverHandler with
  | some rh => M.andThen (rh u err) fun _ => M.ret none
  | none => M.raise (.error err)

/-- Source `Router.Handle`: the body runs under `defer r.tryRecover(u)`; when the
body returns normally `recover()` is nil and `tryRecover` does nothing. -/
def Router.Handle {σ : Type} (r : Router σ) : Handler σ := fun u s =>
  match r.handleBody u s with
  | (.ok err, s1) => (.ok err, s1)
  | (.panicked p, s1) => r.tryRecover u p s1

/-- A `Router` seen through the interface `Route`. -/
def Router.toRoute {σ : Type} (r : Router σ) : Route σ :=
  ⟨r.Match, r.Handle⟩

/-- The call `strings.Split(s, " ")`: the pieces of `s` between single spaces;
one empty piece for the empty string. -/
def strings.SplitSpace (s : String) : List String :=
  (s.data.splitOn ' ').map String.mk

/-- The call `strings.TrimPrefix(s, "/")`. -/
def strings.TrimSlash (s : String) : String :=
  match s.data with
  | '/' :: rest => String.mk rest
  | _ => s

/-- Source `NewMessageRoute`. -/
def NewMessageRoute {σ : Type} (filter : Option (FilterMatcher σ)) (handler : Handler σ) :
    routeHandler σ :=
  let newFilter : FilterMatcher σ :=
    match filter with
    | some f => And [IsMessage, f]
    | none => IsMessage
  NewRoute (some newFilter) handler []

/-- Source `NewCommandRoute`: one `IsCommandMessage` filter per piece of
`command`, a leading slash of the piece removed; their disjunction, joined with
`filter` when that is not nil, is given to `NewMessageRoute`. -/
def NewCommandRoute {σ : Type} (command : String) (filter : Option (FilterMatcher σ))
    (handler : Handler σ) : routeHandler σ :=
  let commandFilters : List (FilterMatcher σ) :=
    (strings.SplitSpace command).map fun variant => IsCommandMessage (strings.TrimSlash variant)
  let newFilter : FilterMatcher σ :=
    match filter with
    | some f => And [Or commandFilters, f]
    | none => Or commandFilters
  NewMessageRoute (some newFilter) handler

/-! ## route.go: conversation routes

The declarations of `PersistenceKey`, `PersistenceContext`,
`ConversationPersistence` and of the methods `EffectiveUser` and `EffectiveChat`
of `Update` are not among the sources; they are given here by what
`NewConversationRoute` reads and writes. -/

/-- Modelled from the spec: `PersistenceKey`, the triple (conversation id, user
id, chat id) built as `PersistenceKey{conversationID, user.ID, chat.ID}`. -/
structure PersistenceKey where
  ConversationID : String
  UserID : Int
  ChatID : Int
  deriving DecidableEq, Repr

/-- Modelled from the spec: `PersistenceContext`, with the key `PK` and the
pointer `NewState`, nil until a handler asks for a new state. Its field
`Persistence` always holds the store given to `NewConversationRoute` and is
left out. -/
structure PersistenceContext where
  PK : PersistenceKey
  NewState : Option String
  deriving DecidableEq, Repr

/-- The state a conversation route works on: the field `u.PersistenceContext`
of the update being dispatched, which the route writes through the pointer
`u`, and everything else (`world`): the store, what handlers keep. -/
structure ConvState (τ : Type) where
  PersistenceContext : Option PersistenceContext
  world : τ
  deriving DecidableEq, Repr

/-- Modelled from the spec: the interface `ConversationPersistence`, of which
`NewConversationRoute` calls `GetState` only. -/
structure ConversationPersistence (τ : Type) where
  GetState : PersistenceKey → M (ConvState τ) String

/-- Modelled from the spec: the methods `u.EffectiveUser()` and
`u.EffectiveChat()`, each given by the `ID` of the user or chat it returns,
`none` when it returns nil. -/
structure UpdateMethods where
  EffectiveUser : Update → Option Int
  EffectiveChat : Update → Option Int

/-- Source `StateMap`, `map[string]Route`: `none` for a key that is not in the
map. -/
abbrev StateMap (σ : Type) : Type := String → Option (Route σ)

/-- Source `NewAnyRoute`. -/
def NewAnyRoute {σ : Type} (handlers : Handler σ) : routeHandler σ :=
  NewRoute (some Any) handlers []

/-- The filter given to `NewRoute` by `NewConversationRoute`. Without effective
user or chat it returns false. Otherwise it reads the state, takes the route
registered for it, sets `u.PersistenceContext`, and returns `route.Match(u)`;
the deferred function sets `u.PersistenceContext` back to nil, also when the
call panics, as it does on a nil `route`. -/
def conversationFilter {τ : Type} (m : UpdateMethods) (conversationID : String)
    (persistence : ConversationPersistence τ) (states : StateMap (ConvState τ)) :
    FilterMatcher (ConvState τ) := fun u =>
  match m.EffectiveUser u, m.EffectiveChat u with
  | some user, some chat =>
    let pk : PersistenceKey := ⟨conversationID, user, chat⟩
    M.andThen (persistence.GetState pk) fun state =>
      let route := states state
      fun s =>
        let s1 : ConvState τ := { s with PersistenceContext := some ⟨pk, none⟩ }
        let body : M (ConvState τ) Bool :=
          match route with
          | some rt => rt.Match u
          | none => M.raise nilDereference
        match body s1 with
        | (res, s2) => (res, { s2 with PersistenceContext := none })
  | _, _ => M.ret false

/-- The second deferred function of the conversation handler, run with the
outcome `res` of the statements before it: when `u.PersistenceContext.NewState`
is set and a route is registered under that state followed by `:enter`, that
route handles the update and its error replaces the result. A panic of the
deferred function replaces the outcome; a panic under way is kept otherwise. -/
def enterHook {τ : Type} (states : StateMap (ConvState τ)) (u : Update)
    (res : Res (Option GoError)) : M (ConvState τ) (Option GoError) := fun s =>
  match s.PersistenceContext with
  | none => (.panicked nilDereference, s)
  | some pc =>
    match pc.NewState with
    | none => (res, s)
    | some newState =>
      match states (newState ++ ":enter") with
      | none => (res, s)
      | some nextRoute =>
        match nextRoute.Handle u s with
        | (.ok err, s1) =>
          match res with
          | .ok _ => (.ok err, s1)
          | .panicked p => (.panicked p, s1)
        | (.panicked q, s1) => (.panicked q, s1)

/-- The handler given to `NewRoute` by `NewConversationRoute`. It reads the
state and takes the route registered for it, or `NewAnyRoute(defaultHandler)`
when there is none; sets `u.PersistenceContext` when it is nil, deferring its
reset; defers the enter hook; and returns `route.Handle(ctx, u)`. Deferred
functions run last registered first: the enter hook, then the reset. -/
def conversationHandler {τ : Type} (m : UpdateMethods) (conversationID : String)
    (persistence : ConversationPersistence τ) (states : StateMap (ConvState τ))
    (defaultHandler : Handler (ConvState τ)) : Handler (ConvState τ) := fun u =>
  match m.EffectiveUser u, m.EffectiveChat u with
  | some user, some chat =>
    let pk : PersistenceKey := ⟨conversationID, user, chat⟩
    M.andThen (persistence.GetState pk) fun state =>
      let route : Route (ConvState τ) :=
        match states state with
        | some rt => rt
        | none => (NewAnyRoute defaultHandler).toRoute
      fun s =>
        let fresh := s.PersistenceContext.isNone
        let s1 : ConvState τ := if fresh then { s with PersistenceContext := some ⟨pk, none⟩ } else s
        match route.Handle u s1 with
        | (res, s2) =>
          match enterHook states u res s2 with
          | (res2, s3) => (res2, if fresh then { s3 with PersistenceContext := none } else s3)
  | _, _ => M.raise nilDereference

/-- Source `NewConversationRoute`. -/
def NewConversationRoute {τ : Type} (m : UpdateMethods) (conversationID : String)
    (persistence : ConversationPersistence τ) (states : StateMap (ConvState τ))
    (defaultHandler : Handler (ConvState τ)) : routeHandler (ConvState τ) :=
  NewRoute (some (conversationFilter m conversationID persistence states))
    (conversationHandler m conversationID persistence states defaultHandler) []

/-! ## Observing calls -/

/-- A call made by the code under observation. -/
inductive Event where
  | globalFilter
  | routeMatch (i : Nat)
  | routeHandle (i : Nat)
  | notFoundHandler
  | errorHandler (u : Update) (err : GoError)
  | recoverHandler (u : Update) (err : GoError)
  deriving DecidableEq, Repr

/-- Whether the event is the invocation of a mounted route (its filter or its
handler). -/
def Event.isRoute : Event → Bool
  | .routeMatch _ => true
  | .routeHandle _ => true
  | _ => false

/-- Whether the event is the invocation of a mounted route's handler. -/
def Event.isRouteHandle : Event → Bool
  | .routeHandle _ => true
  | _ => false

/-- The call `m` preceded by a record of `e` in the log. The observed call
itself cannot see the log. -/
def spied {σ α : Type} (e : Event) (m : M σ α) : M (σ × List Event) α := fun st =>
  match m st.1 with
  | (res, s1) => (res, (s1, st.2 ++ [e]))

/-- Route number `i` under observation. -/
def Route.spy {σ : Type} (i : Nat) (route : Route σ) : Route (σ × List Event) :=
  ⟨fun u => spied (.routeMatch i) (route.Match u), fun u => spied (.routeHandle i) (route.Handle u)⟩

/-- The routes under observation, numbered in mount order from `n`. -/
def spyRoutes {σ : Type} : Nat → List (Route σ) → List (Route (σ × List Event))
  | _, [] => []
  | n, route :: routes => route.spy n :: spyRoutes (n + 1) routes

/-- The configured handlers under observation. -/
def Config.spy {σ : Type} (cfg : Config σ) : Config (σ × List Event) where
  RecoverHandler := cfg.RecoverHandler.map fun rh u err => spied (.recoverHandler u err) (rh u err)
  ErrorHandler := cfg.ErrorHandler.map fun eh u err => spied (.errorHandler u err) (eh u err)
  NotFoundHandler := cfg.NotFoundHandler.map fun nf u => spied .notFoundHandler (nf u)
  GlobalFilter := cfg.GlobalFilter.map fun g u => spied .globalFilter (g u)

/-- The router with every route and every configured handler under observation. -/
def Router.spy {σ : Type} (r : Router σ) : Router (σ × List Event) :=
  ⟨spyRoutes 0 r.routes, r.cfg.spy⟩

/-- The call `m` run on the observed state without a record. -/
def unobserved {σ α : Type} (m : M σ α) : M (σ × List Event) α := fun st =>
  match m st.1 with
  | (res, s1) => (res, (s1, st.2))

/-- The route group with every child route under observation; the group
middlewares `mws` act on the observed state directly. -/
def routeGroup.spy {σ : Type} (g : routeGroup σ) (mws : List (Middleware (σ × List Event))) :
    routeGroup (σ × List Event) :=
  ⟨fun u => unobserved (g.filter u), spyRoutes 0 g.routes, mws⟩

/-! ## Reference forms used in the statements -/

/-- The Go expression `x && y` on calls: `y` is evaluated only when `x` is true. -/
def M.andAlso {σ : Type} (x y : M σ Bool) : M σ Bool :=
  M.andThen x fun a => if a then y else M.ret false

/-- The Go expression `x || y` on calls: `y` is evaluated only when `x` is false. -/
def M.orElse {σ : Type} (x y : M σ Bool) : M σ Bool :=
  M.andThen x fun a => if a then M.ret true else y

/-- The Go expression `!x` on a call. -/
def M.negate {σ : Type} (x : M σ Bool) : M σ Bool :=
  M.andThen x fun a => M.ret (!a)

/-- A filter that reads the update and the state, changes nothing and does
not panic. -/
def FilterFunc.ofRead {σ : Type} (p : Update → σ → Bool) : FilterMatcher σ :=
  fun u s => (.ok (p u s), s)

/-- The record left by the global filter, which is called only when one is
configured. -/
def Config.globalFilterEvents {σ : Type} (cfg : Config σ) : List Event :=
  match cfg.GlobalFilter with
  | some _ => [Event.globalFilter]
  | none => []

/-- The records `routeMatch n, ..., routeMatch (n + k - 1)`: the filters of `k`
consecutive routes, from route `n` on, called in mount order. -/
def routeMatchEvents (n k : Nat) : List Event :=
  (List.range k).map fun i => Event.routeMatch (n + i)

/-- A route over the empty state whose filter answers `hit` and whose handler
ends with `result`. -/
def constRoute (hit : Bool) (result : Res (Option GoError)) : Route Unit :=
  ⟨fun _ => M.ret hit, fun _ s => (result, s)⟩

/-- A handler over the empty state that ends with `result`. -/
def constHandler (result : Res (Option GoError)) : Handler Unit :=
  fun _ s => (result, s)

/-- An error or recover handler over the empty state that ends with `result`. -/
def constCallback (result : Res Unit) : Update → GoError → M Unit Unit :=
  fun _ _ s => (result, s)

/-- A configuration with every handler set: the global filter accepts every
update, the not-found handler ends with `notFound`. -/
def fullConfig (notFound : Res (Option GoError)) : Config Unit :=
  ⟨some (constCallback (.ok ())), some (constCallback (.ok ())), some (constHandler notFound),
    some Any⟩

/-- A configuration with nothing set. -/
def emptyConfig : Config Unit := ⟨none, none, none, none⟩

/-- A configuration with nothing set, over the state `σ`. -/
def emptyConfigOf (σ : Type) : Config σ := ⟨none, none, none, none⟩

/-- The error `errors.New("boom")`. -/
def boom : GoError := .errorString "boom"

/-- The methods of an update sent by user 13 in chat 37, as in the package
tests. -/
def testMethods : UpdateMethods := ⟨fun _ => some 13, fun _ => some 37⟩

/-- The methods of an update that has a chat but no user. -/
def noUserMethods : UpdateMethods := ⟨fun _ => none, fun _ => some 37⟩

/-- A store whose `GetState` answers `state` for every key. -/
def constPersistence (state : String) : ConversationPersistence (List String) :=
  ⟨fun _ => M.ret state⟩

/-- A handler that writes `tag` to the world and, when `newState` is given, asks
for that state as `u.PersistenceContext.SetState` does, by setting `NewState`. -/
def logHandler (tag : String) (newState : Option String) : Handler (ConvState (List String)) :=
  fun _ s =>
    (.ok none,
      ⟨match newState with
        | some n => s.PersistenceContext.map fun pc => { pc with NewState := some n }
        | none => s.PersistenceContext,
       s.world ++ [tag]⟩)

/-- A state table in the manner of the package tests: in state `ask_name` the
command `/name` is accepted and asks for the state `ask_age`, whose enter
route is registered. -/
def testStates : StateMap (ConvState (List String)) := fun state =>
  if state = "ask_name" then
    some (NewCommandRoute "name" none (logHandler "name" (some "ask_age"))).toRoute
  else if state = "ask_age:enter" then
    some (NewRoute none (logHandler "enter" none) []).toRoute
  else if state = "ask_age" then
    some (NewCommandRoute "age" none (logHandler "age" none)).toRoute
  else none

/-- The conversation route of the tests in state `state`, with a default
handler that writes `default`. -/
def testConversation (state : String) : routeHandler (ConvState (List String)) :=
  NewConversationRoute testMethods "test" (constPersistence state) testStates
    (logHandler "default" none)

/-- A text message to the bot `testbot`. -/
def textUpdate (text : String) : Update := ⟨some ⟨text⟩, some ⟨"testbot"⟩, 0⟩

/-- A handler that writes `tag` to the world, asks for the state `newState` and
fails with `err`. -/
def failHandler (tag : String) (newState : String) (err : GoError) :
    Handler (ConvState (List String)) :=
  fun _ s =>
    (.ok (some err),
      ⟨s.PersistenceContext.map fun pc => { pc with NewState := some newState },
       s.world ++ [tag]⟩)

/-- A state table in which the handler of state `ask_name` asks for the state
`ask_age` and fails with `boom`, and the enter route of `ask_age` is
registered. -/
def failingStates : StateMap (ConvState (List String)) := fun state =>
  if state = "ask_name" then
    some (NewRoute none (failHandler "name" "ask_age" boom) []).toRoute
  else if state = "ask_age:enter" then
    some (NewRoute none (logHandler "enter" none) []).toRoute
  else none

/-- A route over a list of marks whose filter answers `hit` and whose handler
writes the mark `0` and returns nil. -/
def markRoute (hit : Bool) : Route (List Nat) :=
  ⟨fun _ => M.ret hit, fun _ s => (.ok none, s ++ [0])⟩

/-- A group middleware on the observed state that writes the mark `n` on entry
and then calls the next handler. -/
def markMiddleware (n : Nat) : Middleware (List Nat × List Event) :=
  fun next u st => next u (st.1 ++ [n], st.2)

/-- A middleware that records `n` on entry and then calls the next handler. -/
def tagMiddleware (n : Nat) : Middleware (List Nat) :=
  fun next u s => next u (s ++ [n])

/-- A handler that records `0` and returns nil. -/
def tagHandler : Handler (List Nat) :=
  fun _ s => (.ok none, s ++ [0])

/-- An update without message. -/
def emptyUpdate : Update := ⟨none, none, 0⟩

/-- Every route of `routes` is asked in order, from state `s`, and rejects the
update; `s1` is the state after the last answer. -/
def allReject {σ : Type} : List (Route σ) → Update → σ → σ → Prop
  | [], _, s, s1 => s1 = s
  | route :: routes, u, s, s1 =>
    ∃ s0, route.Match u s = (.ok false, s0) ∧ allReject routes u s0 s1

/-- The update passes the global filter of `r` from state `s`, or none is
configured; `s0` is the state after the filter. -/
def Router.passesGlobalFilter {σ : Type} (r : Router σ) (u : Update) (s s0 : σ) : Prop :=
  match r.cfg.GlobalFilter with
  | none => s0 = s
  | some g => g u s = (.ok true, s0)

end TgRouter

/-!
# managed-tg-gpt-chat: transport and dispatcher (`pkg/echotron`)

A shallow embedding of `client.wait` (`network.go`) and of the session and
polling functions of `Dispatcher` (`dispatcher.go`).

* What the functions get from outside (how a `Wait` on a limiter ends, what a
  fetch returns, whether the context is done) is an argument of the model.
* A critical section under `d.mu` is one step; a call that can be overtaken
  between two critical sections is a sequence of steps.
-/

namespace Echotron

/-! ## network.go: the rate-limited transport -/

/-- A `*rate.Limiter` of the library `golang.org/x/time/rate`, kept by the
number of tokens taken from its bucket so far. -/
structure Limiter where
  taken : Nat
  deriving DecidableEq, Repr

/-- How a call `l.Wait(ctx)` ends. This is decided by the bucket, by time and
by the context, which `client.wait` does not inspect: either a token is
granted, or the call fails with the error of the context. -/
inductive WaitOutcome where
  | granted
  | failed (err : String)
  deriving DecidableEq, Repr

/-- The call `l.Wait(ctx)` by the contract of the library: a granted call
takes one token from the bucket, a failed call takes none. -/
def Limiter.Wait (l : Limiter) : WaitOutcome → Option String × Limiter
  | .granted => (none, { taken := l.taken + 1 })
  | .failed err => (some err, l)

/-- Source `client`, without the embedded HTTP client and lock: the per-chat
limiters `cl`, the global limiter `gl`, and the limiter that a call of
`climiter` returns. -/
structure client where
  cl : String → Option Limiter
  gl : Limiter
  climiter : Limiter

/-- The statement `c.cl[chatID] = l`. -/
def client.setLimiter (c : client) (chatID : String) (l : Limiter) : client :=
  { c with cl := fun k => if k = chatID then some l else c.cl k }

/-- Source `client.wait`. `chatOutcome` is how the wait on the per-chat limiter
ends and `globalOutcome` how the wait on the global limiter ends, when they
are reached. -/
def client.wait (c : client) (chatID : String) (chatOutcome globalOutcome : WaitOutcome) :
    Option String × client :=
  if chatID ≠ "" then
    let l : Limiter :=
      match c.cl chatID with
      | some l => l
      | none => c.climiter
    match l.Wait chatOutcome with
    | (some err, l1) => (some err, c.setLimiter chatID l1)
    | (none, l1) =>
      let c1 := c.setLimiter chatID l1
      match c1.gl.Wait globalOutcome with
      | (err, g1) => (err, { c1 with gl := g1 })
  else
    match c.gl.Wait globalOutcome with
    | (err, g1) => (err, { c with gl := g1 })

/-- The per-chat bucket of `chatID`: its limiter, or the new limiter it would
get on first use. -/
def client.chatBucket (c : client) (chatID : String) : Limiter :=
  match c.cl chatID with
  | some l => l
  | none => c.climiter

/-- Source `newClient`: no per-chat limiter yet, and no token taken from the
global bucket or from a new per-chat bucket. -/
def newClient : client := ⟨fun _ => none, ⟨0⟩, ⟨0⟩⟩

/-! ## dispatcher.go: sessions -/

/-- Source `NewSessionFactory`: the factory makes a handler for a chat id; `σ`
is what it works on. -/
abbrev NewSessionFactory (H σ : Type) : Type := Int → σ → H × σ

/-- Source `Dispatcher`, by the session map, the session factory and the state
`env` the factory works on. `H` is the type of `SessionHandler` values. -/
structure Dispatcher (H σ : Type) where
  sessionMap : Int → Option H
  newSession : NewSessionFactory H σ
  env : σ

/-- The statement `d.sessionMap[chatID] = bot`. -/
def Dispatcher.store {H σ : Type} (d : Dispatcher H σ) (chatID : Int) (bot : H) :
    Dispatcher H σ :=
  { d with sessionMap := fun k => if k = chatID then some bot else d.sessionMap k }

/-- Source `Dispatcher.DeleteSession`. -/
def Dispatcher.DeleteSession {H σ : Type} (d : Dispatcher H σ) (chatID : Int) :
    Dispatcher H σ :=
  { d with sessionMap := fun k => if k = chatID then none else d.sessionMap k }

/-- Source `Dispatcher.AddSession`, one critical section under `d.mu.Lock()`. -/
def Dispatcher.AddSession {H σ : Type} (d : Dispatcher H σ) (chatID : Int) : Dispatcher H σ :=
  match d.sessionMap chatID with
  | some _ => d
  | none =>
    match d.newSession chatID d.env with
    | (bot, env1) => ({ d with env := env1 }).store chatID bot

/-- Where a call of `Dispatcher.instance` stands: before the lookup, after a
lookup that found nothing, after the factory has made `bot`, or returned. -/
inductive InstanceCall (H : Type) where
  | start
  | missed
  | created (bot : H)
  | returned (bot : H)
  deriving DecidableEq, Repr

/-- One step of a call of `Dispatcher.instance(chatID)`: the lookup under
`d.mu.RLock()`; the call `d.newSession(chatID)`, under no lock; the store under
`d.mu.Lock()`, after which the call returns `bot`. -/
def Dispatcher.instanceStep {H σ : Type} (chatID : Int) :
    InstanceCall H × Dispatcher H σ → InstanceCall H × Dispatcher H σ
  | (.start, d) =>
    match d.sessionMap chatID with
    | some bot => (.returned bot, d)
    | none => (.missed, d)
  | (.missed, d) =>
    match d.newSession chatID d.env with
    | (bot, env1) => (.created bot, { d with env := env1 })
  | (.created bot, d) => (.returned bot, d.store chatID bot)
  | (.returned bot, d) => (.returned bot, d)

/-- Source `Dispatcher.instance`, run without interruption. -/
def Dispatcher.sessionInstance {H σ : Type} (d : Dispatcher H σ) (chatID : Int) :
    H × Dispatcher H σ :=
  match d.sessionMap chatID with
  | some bot => (bot, d)
  | none =>
    match d.newSession chatID d.env with
    | (bot, env1) => (bot, ({ d with env := env1 }).store chatID bot)

/-- A call on the sessions of a dispatcher. -/
inductive SessionOp where
  | lookup (chatID : Int)
  | add (chatID : Int)
  | delete (chatID : Int)
  deriving DecidableEq, Repr

/-- The calls `ops` run one after the other; the result lists, for every
`instance` call, the chat id and the handler it returned. -/
def Dispatcher.run {H σ : Type} : List SessionOp → Dispatcher H σ → List (Int × H) × Dispatcher H σ
  | [], d => ([], d)
  | .lookup chatID :: ops, d =>
    match d.sessionInstance chatID with
    | (bot, d1) =>
      match Dispatcher.run ops d1 with
      | (out, d2) => ((chatID, bot) :: out, d2)
  | .add chatID :: ops, d => Dispatcher.run ops (d.AddSession chatID)
  | .delete chatID :: ops, d => Dispatcher.run ops (d.DeleteSession chatID)

/-- The factory `f` under observation: every call is recorded by its chat id. -/
def spyFactory {H σ : Type} (f : NewSessionFactory H σ) : NewSessionFactory H (σ × List Int) :=
  fun chatID st =>
    match f chatID st.1 with
    | (bot, e1) => (bot, (e1, st.2 ++ [chatID]))

/-- Who takes the next step when calls overlap: the first or the second call
of `instance(chatID)`, or a goroutine that runs `AddSession(chatID)`. -/
inductive Turn where
  | first
  | second
  | add
  deriving DecidableEq, Repr

/-- Two overlapping calls of `instance(chatID)` and the dispatcher they share. -/
structure Race (H σ : Type) where
  first : InstanceCall H
  second : InstanceCall H
  d : Dispatcher H σ

/-- The steps of `schedule` taken in order. -/
def Race.run {H σ : Type} (chatID : Int) : List Turn → Race H σ → Race H σ
  | [], r => r
  | .first :: rest, r =>
    match Dispatcher.instanceStep chatID (r.first, r.d) with
    | (c, d1) => Race.run chatID rest { r with first := c, d := d1 }
  | .second :: rest, r =>
    match Dispatcher.instanceStep chatID (r.second, r.d) with
    | (c, d1) => Race.run chatID rest { r with second := c, d := d1 }
  | .add :: rest, r => Race.run chatID rest { r with d := r.d.AddSession chatID }

/-- A factory that makes a new handler at every call: handler number `n` at
the `n`-th call. -/
def freshFactory : NewSessionFactory Nat Nat := fun _ n => (n, n + 1)

/-- A dispatcher without sessions whose factory is `freshFactory` under
observation. -/
def emptyDispatcher : Dispatcher Nat (Nat × List Int) := ⟨fun _ => none, spyFactory freshFactory, (0, [])⟩

/-! ## dispatcher.go: the polling loop -/

/-- Modelled from the spec: `echotron.Update`, of which `PollOptions` reads the
field `ID` only; `payload` stands for all other fields. -/
structure Update where
  ID : Int
  payload : Nat
  deriving DecidableEq, Repr

/-- Modelled from the spec: `echotron.UpdateOptions`, of which `PollOptions`
reads and writes `Timeout` and `Offset`; `rest` stands for the other fields. -/
structure UpdateOptions where
  Timeout : Int
  Offset : Int
  rest : Nat
  deriving DecidableEq, Repr

/-- The value of a Go `int` (64 bit, two's complement) for the exact result `n`. -/
def wrapInt (n : Int) : Int :=
  (n + 2 ^ 63) % 2 ^ 64 - 2 ^ 63

/-- One pass of the loop of `PollOptions` as seen from outside: `ctxErr` is
`ctx.Err()` if `ctx.Done()` is closed when the pass starts, and `response` is
what `d.api.GetUpdates` gives, an error or `response.Result`. -/
structure Round where
  ctxErr : Option String
  response : Except String (List Update)

/-- What `PollOptions` has done: the updates sent on `d.updates`, in order; the
options of every `GetUpdates` call, in order; and the error it returned, or
`none` while it is still in the loop. -/
structure PollResult where
  pushed : List Update
  fetches : List UpdateOptions
  returned : Option String
  deriving Repr

/-- The loop of source `PollOptions` over the passes `rounds`, from the loop
variables `opts` and `isFirstRun`. Every send `d.updates <- u` is taken by the
receiver. -/
def pollLoop (timeout : Int) (dropPendingUpdates : Bool) :
    List Round → UpdateOptions → Bool → PollResult
  | [], _, _ => ⟨[], [], none⟩
  | r :: rounds, opts, isFirstRun =>
    match r.ctxErr with
    | some err => ⟨[], [], some err⟩
    | none =>
      let opts1 : UpdateOptions := if isFirstRun then { opts with Timeout := 0 } else opts
      match r.response with
      | .error err => ⟨[], [opts1], some err⟩
      | .ok result =>
        let sent : List Update := if !dropPendingUpdates || !isFirstRun then result else []
        let opts2 : UpdateOptions :=
          match result.getLast? with
          | some u => { opts1 with Offset := wrapInt (u.ID + 1) }
          | none => opts1
        let opts3 : UpdateOptions := if isFirstRun then { opts2 with Timeout := timeout } else opts2
        let after := pollLoop timeout dropPendingUpdates rounds opts3 false
        ⟨sent ++ after.pushed, opts1 :: after.fetches, after.returned⟩

/-- Source `Dispatcher.PollOptions`. `deleteWebhook` is the error of
`d.api.DeleteWebhook`, if any. -/
def Dispatcher.PollOptions (deleteWebhook : Option String) (rounds : List Round)
    (dropPendingUpdates : Bool) (opts : UpdateOptions) : PollResult :=
  match deleteWebhook with
  | some err => ⟨[], [], some err⟩
  | none => pollLoop opts.Timeout dropPendingUpdates rounds opts true

/-- The passes in which the context is not done and the fetch gives `batch`. -/
def fetched (batches : List (List Update)) : List Round :=
  batches.map fun batch => ⟨none, .ok batch⟩

/-- The timeouts a poll of `n` fetches is to use: 0, then `timeout`. -/
def pollTimeouts (timeout : Int) : Nat → List Int
  | 0 => []
  | n + 1 => 0 :: List.replicate n timeout

/-- The cursor to hold after `batch`, from the cursor `offset` held before it:
the id of the last update of the batch plus one, and `offset` itself when the
batch is empty. -/
def nextOffset (offset : Int) (batch : List Update) : Int :=
  match batch.getLast? with
  | some u => u.ID + 1
  | none => offset

/-- The cursor at the start and after each of `batches`, in order. -/
def pollOffsets (offset : Int) (batches : List (List Update)) : List Int :=
  List.scanl nextOffset offset batches

/-- The id of `u` is a value of a Go `int` other than the largest one, so that
`u.ID + 1` does not wrap. -/
def Update.idBelowMax (u : Update) : Prop :=
  -2 ^ 63 ≤ u.ID ∧ u.ID < 2 ^ 63 - 1

instance (u : Update) : Decidable u.idBelowMax := by
  unfold Update.idBelowMax
  exact inferInstance

/-! ## dispatcher.go: session handlers -/

/-- Source `SessionHandler`, by its method `HandleUpdate`, a call without
result on the state `σ` of the program. -/
abbrev SessionHandler (σ : Type) : Type := Update → TgRouter.M σ Unit

/-- Source `NoopSessionHandler`, `func(ctx context.Context, upd *Update) {}`. -/
def NoopSessionHandler {σ : Type} : SessionHandler σ := fun _ => TgRouter.M.ret ()

end Echotron

/-!
# managed-tg-gpt-chat: splitting a response into messages (`internal/app/workflows`)

A shallow embedding of `splitMaxLimitMessages` and `closeOpenTags`
(`chatgpt_session.go`).

* A Go string is the list of its characters; `len` counts the bytes of their
  UTF-8 encoding. The characters `<`, `>`, `/` and the newline are one byte
  each, so cutting at their byte index is cutting at their place in the list.
* The functions of the packages `strings` and `unicode` are given by what
  their documentation says.
-/

namespace Workflows

open TgRouter (Res PanicValue)

/-- Source `MaxTelegramMessageSize`. -/
def MaxTelegramMessageSize : Nat := 4096 - 128

/-- The length `len(s)` of a string in bytes. -/
def byteLen (s : List Char) : Nat :=
  (s.map Char.utf8Size).sum

/-- The function `unicode.IsSpace`: the Latin-1 spaces `\t`, `\n`, `\v`, `\f`,
`\r`, the space, U+0085 and U+00A0, and the characters of category Z and
property Pattern_White_Space beyond Latin-1. -/
def isSpace (c : Char) : Bool :=
  c = '\t' || c = '\n' || c.toNat = 0x0B || c.toNat = 0x0C || c = '\r' || c = ' ' ||
  c.toNat = 0x85 || c.toNat = 0xA0 || c.toNat = 0x1680 ||
  (0x2000 ≤ c.toNat && c.toNat ≤ 0x200A) ||
  c.toNat = 0x2028 || c.toNat = 0x2029 || c.toNat = 0x202F || c.toNat = 0x205F ||
  c.toNat = 0x3000

/-- The function `strings.TrimSpace`: the string without leading and trailing
white space. -/
def TrimSpace (s : List Char) : List Char :=
  ((s.dropWhile isSpace).reverse.dropWhile isSpace).reverse

/-- The function `strings.Fields`: the pieces of the string between runs of
white space; none for a string of white space only. -/
def Fields (s : List Char) : List (List Char) :=
  (s.splitOnP isSpace).filter fun field => !field.isEmpty

/-- The function `strings.HasPrefix`. -/
def HasPrefix (s start : List Char) : Bool :=
  start.isPrefixOf s

/-- The function `strings.HasSuffix`. -/
def HasSuffix (s ending : List Char) : Bool :=
  ending.isSuffixOf s

/-- The body of the tag loop of `splitMaxLimitMessages` from `tagContent` on:
a closing tag takes its name off the stack when it is the last one there, an
opening tag puts its name on the stack unless it ends in `/` or starts with
`!--` or `?`. The name is `strings.Fields(...)[0]`, an index out of range when
there is no field. -/
def tagStep (tagContent : List Char) (openTagStack : List (List Char)) :
    Res (List (List Char)) :=
  if HasPrefix tagContent ['/'] then
    match Fields (TrimSpace (tagContent.drop 1)) with
    | [] => .panicked TgRouter.indexOutOfRange
    | tagName :: _ =>
      if openTagStack.length > 0 ∧ openTagStack.getLast? = some tagName then
        .ok openTagStack.dropLast
      else .ok openTagStack
  else
    match Fields (TrimSpace tagContent) with
    | [] => .panicked TgRouter.indexOutOfRange
    | tagName :: _ =>
      if !HasSuffix tagContent ['/'] && !HasPrefix tagContent ['!', '-', '-'] &&
          !HasPrefix tagContent ['?'] then
        .ok (openTagStack ++ [tagName])
      else .ok openTagStack

/-- The tag loop of `splitMaxLimitMessages`, `for i := 0; i < len(line); ...`, on
the rest `line[i:]` of the line: the next `<` is looked for, then the next `>`
from there; without either the loop ends; otherwise the tag between them is
handled and the loop goes on behind the `>`. Every turn takes at least two
characters, so `fuel` turns suffice for a rest of `fuel` characters. -/
def scanTags : Nat → List Char → List (List Char) → Res (List (List Char))
  | 0, _, openTagStack => .ok openTagStack
  | fuel + 1, rest, openTagStack =>
    match rest.dropWhile (· ≠ '<') with
    | [] => .ok openTagStack
    | _ :: afterOpen =>
      if '>' ∈ afterOpen then
        match tagStep (afterOpen.takeWhile (· ≠ '>')) openTagStack with
        | .panicked p => .panicked p
        | .ok stack => scanTags fuel ((afterOpen.dropWhile (· ≠ '>')).drop 1) stack
      else .ok openTagStack

/-- The text `fmt.Sprintf("<%s>", tag)` for every tag of the stack, first to
last. -/
def reopenTags (openTagStack : List (List Char)) : List Char :=
  (openTagStack.map fun tag => '<' :: tag ++ ['>']).flatten

/-- The text `fmt.Sprintf("</%s>", tag)` for every tag of the stack, last to
first. -/
def closingTags (openTagStack : List (List Char)) : List Char :=
  (openTagStack.reverse.map fun tag => '<' :: '/' :: tag ++ ['>']).flatten

/-- Source `closeOpenTags`, by the part it returns; the caller's builder is
empty afterwards. -/
def closeOpenTags (currentPart : List Char) (openTagStack : List (List Char)) : List Char :=
  currentPart ++ closingTags openTagStack

/-- The variables of `splitMaxLimitMessages`. -/
structure SplitState where
  parts : List (List Char)
  currentPart : List Char
  openTagStack : List (List Char)
  deriving DecidableEq, Repr

/-- One turn of the loop over the lines. -/
def splitLine (st : SplitState) (line : List Char) : Res SplitState :=
  let cut : Bool := decide (byteLen st.currentPart + byteLen line > MaxTelegramMessageSize)
  let parts := if cut then st.parts ++ [closeOpenTags st.currentPart st.openTagStack] else st.parts
  let line1 := if cut then TrimSpace line else line
  let start := if cut then reopenTags st.openTagStack else st.currentPart
  match scanTags line1.length line1 st.openTagStack with
  | .panicked p => .panicked p
  | .ok stack => .ok ⟨parts, start ++ line1 ++ ['\n'], stack⟩

/-- The loop over the lines. -/
def splitLines : List (List Char) → SplitState → Res SplitState
  | [], st => .ok st
  | line :: lines, st =>
    match splitLine st line with
    | .panicked p => .panicked p
    | .ok st1 => splitLines lines st1

/-- The statements after the loop: the last part is added when the builder is
not empty. -/
def lastPart (st : SplitState) : List (List Char) :=
  if byteLen st.currentPart > 0 then
    st.parts ++ [closeOpenTags st.currentPart st.openTagStack]
  else st.parts

/-- Source `splitMaxLimitMessages`. -/
def splitMaxLimitMessages (text : String) : Res (List String) :=
  match splitLines (text.data.splitOn '\n') ⟨[], [], []⟩ with
  | .panicked p => .panicked p
  | .ok st => .ok ((lastPart st).map String.mk)

/-! ### Reference forms used in the statements -/

/-- The tags the tag loop finds in the rest of a line, each by its content
between `<` and `>`, in order. -/
def lineTags : Nat → List Char → List (List Char)
  | 0, _ => []
  | fuel + 1, rest =>
    match rest.dropWhile (· ≠ '<') with
    | [] => []
    | _ :: afterOpen =>
      if '>' ∈ afterOpen then
        afterOpen.takeWhile (· ≠ '>') ::
          lineTags fuel ((afterOpen.dropWhile (· ≠ '>')).drop 1)
      else []

/-- The tags of a line. -/
def tagsOfLine (line : List Char) : List (List Char) :=
  lineTags line.length line

/-- The tags of a text, as `splitMaxLimitMessages` finds them line by line. -/
def textTags (text : List Char) : List (List Char) :=
  ((text.splitOn '\n').map tagsOfLine).flatten

/-- The tag handling of the loop over a list of tags. -/
def runTags : List (List Char) → List (List Char) → Res (List (List Char))
  | [], openTagStack => .ok openTagStack
  | tagContent :: tags, openTagStack =>
    match tagStep tagContent openTagStack with
    | .panicked p => .panicked p
    | .ok stack => runTags tags stack

/-- The name `name`, written as the tag `<name>`, is read as an opening tag:
it neither starts with `/`, `!--` or `?` nor ends with `/`. -/
def regularName (name : List Char) : Bool :=
  !HasPrefix name ['/'] && !HasSuffix name ['/'] && !HasPrefix name ['!', '-', '-'] &&
    !HasPrefix name ['?']

/-- One tag of a properly nested text, from the stack of the names of the open
tags: a closing tag `</name>` closes the tag opened last, whose name is `name`;
an opening tag `<name ...>` has a name, which is regular; a tag that ends in
`/` or starts with `!--` or `?` has a name and opens nothing. -/
def nestStep (tagContent : List Char) (openTagStack : List (List Char)) :
    Option (List (List Char)) :=
  if HasPrefix tagContent ['/'] then
    match Fields (TrimSpace (tagContent.drop 1)) with
    | [] => none
    | tagName :: _ =>
      if openTagStack.getLast? = some tagName then some openTagStack.dropLast else none
  else
    match Fields (TrimSpace tagContent) with
    | [] => none
    | tagName :: _ =>
      if !HasSuffix tagContent ['/'] && !HasPrefix tagContent ['!', '-', '-'] &&
          !HasPrefix tagContent ['?'] then
        if regularName tagName then some (openTagStack ++ [tagName]) else none
      else some openTagStack

/-- The names of the tags left open by a list of properly nested tags. -/
def nestTags : List (List Char) → List (List Char) → Option (List (List Char))
  | [], openTagStack => some openTagStack
  | tagContent :: tags, openTagStack =>
    match nestStep tagContent openTagStack with
    | none => none
    | some stack => nestTags tags stack

/-- The tags of the text are properly nested, and `tagsNest` gives the names of
those left open at its end, first opened first. -/
def tagsNest (text : List Char) : Option (List (List Char)) :=
  nestTags (textTags text) []

/-- A part as `splitMaxLimitMessages` puts it together: the tags re-opened at
its start, by name; the lines it holds, each with its newline; the tags closed
at its end, by name in the order of opening. -/
structure Piece where
  reopened : List (List Char)
  body : List Char
  closed : List (List Char)
  deriving DecidableEq, Repr

/-- The text of a part. -/
def Piece.render (p : Piece) : List Char :=
  reopenTags p.reopened ++ p.body ++ closingTags p.closed

/-- The variables of `splitMaxLimitMessages`, with the builder kept as the
tags re-opened at the last cut and the lines written since. -/
structure PieceState where
  pieces : List Piece
  reopened : List (List Char)
  body : List Char
  openTagStack : List (List Char)
  deriving DecidableEq, Repr

/-- The variables of `splitMaxLimitMessages` that a `PieceState` stands for. -/
def PieceState.toSplitState (ps : PieceState) : SplitState :=
  ⟨ps.pieces.map Piece.render, reopenTags ps.reopened ++ ps.body, ps.openTagStack⟩

/-- One turn of the loop over the lines, on a `PieceState`. -/
def pieceLine (ps : PieceState) (line : List Char) : Res PieceState :=
  let cut : Bool :=
    decide (byteLen (reopenTags ps.reopened ++ ps.body) + byteLen line > MaxTelegramMessageSize)
  let pieces := if cut then ps.pieces ++ [⟨ps.reopened, ps.body, ps.openTagStack⟩] else ps.pieces
  let line1 := if cut then TrimSpace line else line
  match scanTags line1.length line1 ps.openTagStack with
  | .panicked p => .panicked p
  | .ok stack =>
    .ok ⟨pieces, if cut then ps.openTagStack else ps.reopened,
      (if cut then [] else ps.body) ++ line1 ++ ['\n'], stack⟩

/-- The loop over the lines, on a `PieceState`. -/
def pieceLines : List (List Char) → PieceState → Res PieceState
  | [], ps => .ok ps
  | line :: lines, ps =>
    match pieceLine ps line with
    | .panicked p => .panicked p
    | .ok ps1 => pieceLines lines ps1

/-- The parts of `splitMaxLimitMessages` as pieces. -/
def splitPieces (text : String) : Res (List Piece) :=
  match pieceLines (text.data.splitOn '\n') ⟨[], [], [], []⟩ with
  | .panicked p => .panicked p
  | .ok ps =>
    .ok (if byteLen (reopenTags ps.reopened ++ ps.body) > 0 then
      ps.pieces ++ [⟨ps.reopened, ps.body, ps.openTagStack⟩]
    else ps.pieces)

/-- What holds of the pieces while the lines are read, when no line is longer
than `MaxTelegramMessageSize`: every piece holds lines, of at most
`MaxTelegramMessageSize + 1` bytes; so do the lines written since the last
cut, once a line is written. -/
def sizeInvariant (ps : PieceState) : Prop :=
  (∀ p ∈ ps.pieces, p.body ≠ [] ∧ byteLen p.body ≤ MaxTelegramMessageSize + 1) ∧
  byteLen ps.body ≤ MaxTelegramMessageSize + 1 ∧
  (ps.body = [] → ps.reopened = [])

/-- A text of one line of 4097 letters. -/
def longLine : List Char := List.replicate 4097 'a'

/-- A tag whose name has 130 letters. -/
def longTag : List Char := '<' :: List.replicate 130 'b' ++ ['>']

/-- A text of two lines: a tag of 132 bytes, and 3900 letters. -/
def taggedText : List Char := longTag ++ '\n' :: List.replicate 3900 'a'

/-- What holds of every name on the stack for a properly nested text: it is a
field of a tag, so it is not empty and holds neither white space nor `>`, and
it is regular. -/
def goodName (name : List Char) : Prop :=
  name ≠ [] ∧ (∀ c ∈ name, isSpace c = false ∧ c ≠ '>') ∧ regularName name = true

/-- The lines `lines`, each followed by its newline, as the loop writes them. -/
def withNewlines (lines : List (List Char)) : List Char :=
  (lines.map fun line => line ++ ['\n']).flatten

/-- The piece the loop is writing. -/
def PieceState.current (ps : PieceState) : Piece :=
  ⟨ps.reopened, ps.body, ps.openTagStack⟩

/-- What holds of the pieces while the lines of a properly nested text are
read: the names re-opened and the names open are good; the lines written
since the last cut lead from the names re-opened to the names open; every
piece cut off is properly nested; and every piece re-opens what the piece
before it has closed, the first one nothing. -/
def nestInvariant (ps : PieceState) : Prop :=
  (∀ name ∈ ps.reopened, goodName name) ∧
  (∀ name ∈ ps.openTagStack, goodName name) ∧
  (∃ lines : List (List Char), ps.body = withNewlines lines ∧ (∀ line ∈ lines, '\n' ∉ line) ∧
    nestTags (lines.map tagsOfLine).flatten ps.reopened = some ps.openTagStack) ∧
  (∀ p ∈ ps.pieces, tagsNest p.render = some []) ∧
  List.Chain' (fun p q : Piece => q.reopened = p.closed) (ps.pieces ++ [ps.current]) ∧
  (∀ p, (ps.pieces ++ [ps.current]).head? = some p → p.reopened = [])

/-- One tag of a text whose tags match, from the stack of the names of the
open tags: as `nestStep`, but any name may be opened. -/
def matchStep (tagContent : List Char) (openTagStack : List (List Char)) :
    Option (List (List Char)) :=
  if HasPrefix tagContent ['/'] then
    match Fields (TrimSpace (tagContent.drop 1)) with
    | [] => none
    | tagName :: _ =>
      if openTagStack.getLast? = some tagName then some openTagStack.dropLast else none
  else
    match Fields (TrimSpace tagContent) with
    | [] => none
    | tagName :: _ =>
      if !HasSuffix tagContent ['/'] && !HasPrefix tagContent ['!', '-', '-'] &&
          !HasPrefix tagContent ['?'] then
        some (openTagStack ++ [tagName])
      else some openTagStack

/-- The names of the tags left open by a list of tags that match. -/
def matchTags : List (List Char) → List (List Char) → Option (List (List Char))
  | [], openTagStack => some openTagStack
  | tagContent :: tags, openTagStack =>
    match matchStep tagContent openTagStack with
    | none => none
    | some stack => matchTags tags stack

/-- The tags of the text match as the tag loop reads them, every closing tag
closing the name opened last, and `tagsMatch` gives the names left open. -/
def tagsMatch (text : List Char) : Option (List (List Char)) :=
  matchTags (textTags text) []

/-- The second line of `oddText`: 3970 letters and a tag that closes the name
`/a`. -/
def oddLine : List Char := List.replicate 3970 'a' ++ ['<', '/', '/', 'a', '>']

/-- A text of two lines: a tag that the tag loop reads as opening the name
`/a`, and `oddLine`. -/
def oddText : List Char := ['<', ' ', '/', 'a', '>'] ++ '\n' :: oddLine

end Workflows

/-!
# managed-tg-gpt-chat: approval callbacks (`internal/app`, `internal/adapters`)

A shallow embedding of `makeCallbackData` (`activities/get_request_approval.go`),
`Service.parseCallbackData` (`service.go`) and `InMemoryTokenStorage`
(`adapters/token_storage.go`). The package `github.com/google/uuid` is a
library outside the repository and is an argument of the model.
-/

namespace App

open TgRouter (Res GoError PanicValue)

/-- Source `domain.RequestStatus`, a string type. -/
abbrev RequestStatus : Type := String

/-- Source `domain.RequestStatusApproved`. -/
def RequestStatusApproved : RequestStatus := "approved"

/-- Source `domain.RequestStatusRejected`. -/
def RequestStatusRejected : RequestStatus := "rejected"

/-- Source `domain.RequestStatusPending`. -/
def RequestStatusPending : RequestStatus := "pending"

/-- Source `domain.RequestStatusCanceled`. -/
def RequestStatusCanceled : RequestStatus := "canceled"

/-- What the code uses of the library `uuid` over the type `U` of UUIDs: the
method `String` and the function `MustParse`, which panics on a string that is
not a UUID. -/
structure UUIDLib (U : Type) where
  UUIDString : U → String
  MustParse : String → Res U

/-- A `[]byte`; the nil slice is the empty list. -/
abbrev Token : Type := List Nat

/-- Source `InMemoryTokenStorage`, by its map `tokens`. -/
structure InMemoryTokenStorage (U : Type) where
  tokens : U → Option Token

/-- Source `NewInMemoryTokenStorage`. -/
def NewInMemoryTokenStorage {U : Type} : InMemoryTokenStorage U := ⟨fun _ => none⟩

/-- Source `InMemoryTokenStorage.Store`; `id` is the value of `uuid.New()`. -/
def InMemoryTokenStorage.Store {U : Type} [DecidableEq U] (ts : InMemoryTokenStorage U) (id : U)
    (token : Token) : U × InMemoryTokenStorage U :=
  (id, ⟨fun k => if k = id then some token else ts.tokens k⟩)

/-- Source `InMemoryTokenStorage.Pop`. -/
def InMemoryTokenStorage.Pop {U : Type} [DecidableEq U] (ts : InMemoryTokenStorage U) (token : U) :
    (Token × Bool) × InMemoryTokenStorage U :=
  match ts.tokens token with
  | some data => ((data, true), ⟨fun k => if k = token then none else ts.tokens k⟩)
  | none => (([], false), ts)

/-- The run-time panic of slicing beyond the length. -/
def sliceBoundsOutOfRange : PanicValue :=
  .error (.errorString "runtime error: slice bounds out of range")

/-- Source `makeCallbackData`, `tokenID.String() + ":" + string(action[:1])`;
the first byte of `action` is taken as its first character. -/
def makeCallbackData {U : Type} (lib : UUIDLib U) (tokenID : U) (action : RequestStatus) :
    Res String :=
  match action.data with
  | [] => .panicked sliceBoundsOutOfRange
  | c :: _ => .ok (lib.UUIDString tokenID ++ ":" ++ String.mk [c])

/-- The call `strings.Split(s, ":")`. -/
def splitColon (s : String) : List String :=
  (s.data.splitOn ':').map String.mk

/-- Source `Service.parseCallbackData`, on the token storage of the service:
the result is the triple (token, status, error) or a panic. -/
def Service.parseCallbackData {U : Type} [DecidableEq U] (lib : UUIDLib U)
    (tokenStorage : InMemoryTokenStorage U) (data : String) :
    Res (Token × RequestStatus × Option GoError) × InMemoryTokenStorage U :=
  match splitColon data with
  | [] => (.panicked TgRouter.indexOutOfRange, tokenStorage)
  | part0 :: rest =>
    match lib.MustParse part0 with
    | .panicked p => (.panicked p, tokenStorage)
    | .ok uid =>
      match tokenStorage.Pop uid with
      | ((_, false), ts1) =>
        (.ok ([], RequestStatusRejected,
          some (.errorString ("activity token not found for callback ID " ++ part0))), ts1)
      | ((activityToken, true), ts1) =>
        match rest with
        | [] => (.panicked TgRouter.indexOutOfRange, ts1)
        | part1 :: _ =>
          if part1 = "a" then (.ok (activityToken, RequestStatusApproved, none), ts1)
          else if part1 = "r" then (.ok (activityToken, RequestStatusRejected, none), ts1)
          else
            (.ok ([], RequestStatusRejected,
              some (.errorString ("unknown callback data " ++ part1))), ts1)

/-- Two UUIDs, the nil UUID and the largest one. -/
inductive TestUUID where
  | zero
  | max
  deriving DecidableEq, Repr

/-- The library `uuid` on the two UUIDs of `TestUUID`: their canonical text,
and a parse that accepts these two texts and panics on any other string. -/
def testUUIDLib : UUIDLib TestUUID where
  UUIDString
    | .zero => "00000000-0000-0000-0000-000000000000"
    | .max => "ffffffff-ffff-ffff-ffff-ffffffffffff"
  MustParse s :=
    if s = "00000000-0000-0000-0000-000000000000" then .ok .zero
    else if s = "ffffffff-ffff-ffff-ffff-ffffffffffff" then .ok .max
    else .panicked (.error (.errorString ("uuid: Parse(" ++ s ++ "): invalid UUID format")))

end App

/-!
# managed-tg-gpt-chat: the bot server (`internal/ports`)

A shallow embedding of `BotServer.newBotSession` (`bot_server.go`).
-/

namespace Ports

open Echotron (SessionHandler NoopSessionHandler Dispatcher)

/-- The map `allowedChats` that `newBotSession` builds,
`for _, chat := range allowedChatIDs { allowedChats[chat] = struct{}{} }`,
by its membership test. -/
def allowedChatsMap (allowedChatIDs : List Int) : Int → Bool :=
  allowedChatIDs.foldl (fun allowedChats chat => fun k => if k = chat then true else allowedChats k)
    (fun _ => false)

/-- Source `BotServer.newBotSession`. `router` is `b.router` seen through the
interface `SessionHandler`. -/
def BotServer.newBotSession {σ : Type} (router : SessionHandler σ) (allowedChatIDs : List Int) :
    Int → SessionHandler σ :=
  let allowedChats := allowedChatsMap allowedChatIDs
  fun chatID =>
    if !allowedChats chatID then NoopSessionHandler
    else router

/-- The dispatcher that source `NewBotServer` makes,
`echotron.NewDispatcher(token, b.newBotSession(allowedChats))`: no session yet,
and `newBotSession` as session factory. -/
def NewBotServer {σ : Type} (router : SessionHandler σ) (allowedChats : List Int) :
    Dispatcher (SessionHandler σ) Unit :=
  ⟨fun _ => none, fun chatID env => (BotServer.newBotSession router allowedChats chatID, env), ()⟩

/-- A session handler that records the id of every update it gets, standing
for a router whose handlers leave a trace. -/
def tracingRouter : SessionHandler (List Int) :=
  fun upd log => (.ok (), log ++ [upd.ID])

end Ports

/-! # Theorems -/

namespace TgRouter

/-! ## Middleware order -/

theorem wrapLoop_eq_foldr {σ : Type} (ms : List (Middleware σ)) :
    ∀ (n : Nat) (h : Handler σ), n ≤ ms.length →
      wrapLoop ms n h = (ms.take n).foldr (fun m inner => m inner) h := by
  intro n
  induction n with
  | zero => intro h _; simp [wrapLoop]
  | succ n ih =>
    intro h hn
    have hlt : n < ms.length := hn
    have hget : ms[n]? = some ms[n] := List.getElem?_eq_getElem hlt
    have htake : List.take (n + 1) ms = List.take n ms ++ [ms[n]] := by
      rw [List.take_succ, hget]; rfl
    rw [wrapLoop, hget]
    simp only
    rw [ih (ms[n] h) (Nat.le_of_lt hlt), htake, List.foldr_append]
    rfl

theorem wrapLoop_length {σ : Type} (ms : List (Middleware σ)) (h : Handler σ) :
    wrapLoop ms ms.length h = ms.foldr (fun m inner => m inner) h := by
  rw [wrapLoop_eq_foldr ms ms.length h (Nat.le_refl _), List.take_length]

/-- C5 (as amended): for middlewares registered in the order `m1, ..., mn` the
wrapped handler of a route and of a route group is `m1 (m2 (... (mn h)))`: the
first-registered middleware is outermost, and the last-registered one is the
wrapper that receives `h` itself. -/
theorem wrap_first_registered_outermost {σ : Type} (filter : FilterMatcher σ)
    (handler : Handler σ) (routes : List (Route σ)) (ms : List (Middleware σ))
    (mn : Middleware σ) (h : Handler σ) :
    routeHandler.wrap ⟨filter, handler, ms⟩ h = ms.foldr (fun m inner => m inner) h
    ∧ routeGroup.wrap ⟨filter, routes, ms⟩ h = ms.foldr (fun m inner => m inner) h
    ∧ routeHandler.Handle ⟨filter, handler, ms⟩ = ms.foldr (fun m inner => m inner) handler
    ∧ routeHandler.wrap (routeHandler.Use ⟨filter, handler, ms⟩ [mn]) h
        = routeHandler.wrap ⟨filter, handler, ms⟩ (mn h)
    ∧ routeGroup.wrap (routeGroup.Use ⟨filter, routes, ms⟩ [mn]) h
        = routeGroup.wrap ⟨filter, routes, ms⟩ (mn h) := by
  refine ⟨wrapLoop_length ms h, wrapLoop_length ms h, ?_, ?_, ?_⟩
  · funext u
    simp [routeHandler.Handle, routeHandler.wrap, wrapLoop_length]
  · simp only [routeHandler.wrap, routeHandler.Use]
    rw [wrapLoop_length, wrapLoop_length, List.foldr_append]
    rfl
  · simp only [routeGroup.wrap, routeGroup.Use]
    rw [wrapLoop_length, wrapLoop_length, List.foldr_append]
    rfl

/-- C5 (counterexample): with `m1 = tagMiddleware 1` registered before
`m2 = tagMiddleware 2`, handling enters `m1` first, then `m2`, then the handler,
which is not what the composition `m2 (m1 h)` of the claim does. -/
theorem wrap_last_registered_not_outermost :
    routeHandler.Handle ⟨Any, tagHandler, [tagMiddleware 1, tagMiddleware 2]⟩ emptyUpdate []
      = (.ok none, [1, 2, 0])
    ∧ (tagMiddleware 2 (tagMiddleware 1 tagHandler)) emptyUpdate [] = (.ok none, [2, 1, 0])
    ∧ routeHandler.Handle ⟨Any, tagHandler, [tagMiddleware 1, tagMiddleware 2]⟩ emptyUpdate []
      ≠ (tagMiddleware 2 (tagMiddleware 1 tagHandler)) emptyUpdate []
    ∧ routeGroup.wrap ⟨Any, [], [tagMiddleware 1, tagMiddleware 2]⟩ tagHandler emptyUpdate []
      ≠ (tagMiddleware 2 (tagMiddleware 1 tagHandler)) emptyUpdate [] := by
  decide

/-! ## Filter combinators -/

theorem And_ofRead {σ : Type} (ps : List (Update → σ → Bool)) (u : Update) (s : σ) :
    And (ps.map FilterFunc.ofRead) u s = (.ok (ps.all fun p => p u s), s) := by
  induction ps with
  | nil => simp [And, M.ret]
  | cons p ps ih =>
    cases hp : p u s <;>
      simp [And, M.andThen, M.ret, FilterFunc.ofRead, hp, ih]

theorem Or_ofRead {σ : Type} (ps : List (Update → σ → Bool)) (u : Update) (s : σ) :
    Or (ps.map FilterFunc.ofRead) u s = (.ok (ps.any fun p => p u s), s) := by
  induction ps with
  | nil => simp [Or, M.ret]
  | cons p ps ih =>
    cases hp : p u s <;>
      simp [Or, M.andThen, M.ret, FilterFunc.ofRead, hp, ih]

theorem Not_Not {σ : Type} (A : FilterMatcher σ) : Not (Not A) = A := by
  funext u s
  simp only [Not, M.andThen, M.ret]
  rcases h : A u s with ⟨res, s1⟩
  cases res <;> simp

/-- C9: `And(A,B)`, `Or(A,B)` and `Not(A)` evaluate as the Go expressions
`A(u) && B(u)`, `A(u) || B(u)` and `!A(u)`, with their short circuit; on filters
that only read, `And` over a list is the conjunction of all results (true for
the empty list), `Or` the disjunction (false for the empty list); and
`Not(Not(A))` is `A`. -/
theorem combinators_are_boolean_connectives {σ : Type} (A B : FilterMatcher σ)
    (p q : Update → σ → Bool) (ps : List (Update → σ → Bool)) (u : Update) (s : σ) :
    And [A, B] u = M.andAlso (A u) (B u)
    ∧ Or [A, B] u = M.orElse (A u) (B u)
    ∧ Not A u = M.negate (A u)
    ∧ And [FilterFunc.ofRead p, FilterFunc.ofRead q] u s = (.ok (p u s && q u s), s)
    ∧ Or [FilterFunc.ofRead p, FilterFunc.ofRead q] u s = (.ok (p u s || q u s), s)
    ∧ Not (FilterFunc.ofRead p) u s = (.ok (!p u s), s)
    ∧ And (ps.map FilterFunc.ofRead) u s = (.ok (ps.all fun f => f u s), s)
    ∧ Or (ps.map FilterFunc.ofRead) u s = (.ok (ps.any fun f => f u s), s)
    ∧ And ([] : List (FilterMatcher σ)) u s = (.ok true, s)
    ∧ Or ([] : List (FilterMatcher σ)) u s = (.ok false, s)
    ∧ Not (Not A) = A := by
  refine ⟨?_, ?_, rfl, ?_, ?_, rfl, And_ofRead ps u s, Or_ofRead ps u s, rfl, rfl, Not_Not A⟩
  · funext s1
    simp only [And, M.andAlso, M.andThen, M.ret]
    rcases h : A u s1 with ⟨res, s2⟩
    rcases h2 : B u s2 with ⟨res2, s3⟩
    cases res with
    | ok a =>
      cases a <;> cases res2 with
      | ok b => cases b <;> simp [M.andThen, M.ret, h2]
      | panicked _ => simp [M.andThen, M.ret, h2]
    | panicked _ => simp
  · funext s1
    simp only [Or, M.orElse, M.andThen, M.ret]
    rcases h : A u s1 with ⟨res, s2⟩
    rcases h2 : B u s2 with ⟨res2, s3⟩
    cases res with
    | ok a =>
      cases a <;> cases res2 with
      | ok b => cases b <;> simp [M.andThen, M.ret, h2]
      | panicked _ => simp [M.andThen, M.ret, h2]
    | panicked _ => simp
  · have := And_ofRead [p, q] u s
    simpa using this
  · have := Or_ofRead [p, q] u s
    simpa using this

/-! ## Command filters -/

theorem takeWhile_dropWhile_run (p : Char → Bool) (l rest : List Char)
    (hl : ∀ c ∈ l, p c = true) (hr : ∀ c ∈ rest.head?, p c = false) :
    (l ++ rest).takeWhile p = l ∧ (l ++ rest).dropWhile p = rest := by
  induction l with
  | nil =>
    cases rest with
    | nil => simp
    | cons c cs =>
      have hc : p c = false := hr c (by simp)
      simp [List.takeWhile, List.dropWhile, hc]
  | cons a l ih =>
    have ha : p a = true := hl a (by simp)
    have ih2 := ih (fun c hc => hl c (by simp [hc]))
    simp [List.takeWhile, List.dropWhile, ha, ih2.1, ih2.2]

theorem find_plain (cmd tail : String) (hne : cmd.data ≠ [])
    (hall : ∀ c ∈ cmd.data, isWordChar c = true)
    (htail : ∀ c ∈ tail.data.head?, isWordChar c = false ∧ c ≠ '@') :
    commandRegex.FindStringSubmatch ("/" ++ cmd ++ tail)
      = [String.mk ('/' :: cmd.data), cmd, ""] := by
  have hrun := takeWhile_dropWhile_run isWordChar cmd.data tail.data hall
    (fun c hc => (htail c hc).1)
  have hdata : ("/" ++ cmd ++ tail).data = '/' :: (cmd.data ++ tail.data) := by
    simp [String.data_append]
  unfold commandRegex.FindStringSubmatch
  rw [hdata]
  simp only [hrun.1, hrun.2]
  have hemp : cmd.data.isEmpty = false := by
    cases h : cmd.data with
    | nil => exact absurd h hne
    | cons _ _ => rfl
  simp only [hemp]
  cases ht : tail.data with
  | nil => simp
  | cons c cs =>
    have hc := (htail c (by simp [ht])).2
    simp
    split
    · rename_i heq
      simp at heq
      exact absurd heq.1 hc
    · rfl


theorem find_bot (cmd self tail : String) (hne : cmd.data ≠ [])
    (hall : ∀ c ∈ cmd.data, isWordChar c = true)
    (hlen : 3 ≤ self.data.length) (hself : ∀ c ∈ self.data, isWordChar c = true)
    (htail : ∀ c ∈ tail.data.head?, isWordChar c = false) :
    commandRegex.FindStringSubmatch ("/" ++ cmd ++ "@" ++ self ++ tail)
      = [String.mk ('/' :: cmd.data ++ '@' :: self.data), cmd, "@" ++ self] := by
  have hrun := takeWhile_dropWhile_run isWordChar cmd.data ('@' :: (self.data ++ tail.data)) hall
    (fun c hc => by simp at hc; subst hc; decide)
  have hrun2 := takeWhile_dropWhile_run isWordChar self.data tail.data hself htail
  have hdata : ("/" ++ cmd ++ "@" ++ self ++ tail).data
      = '/' :: (cmd.data ++ '@' :: (self.data ++ tail.data)) := by
    simp [String.data_append]
  have hemp : cmd.data.isEmpty = false := by
    cases h : cmd.data with
    | nil => exact absurd h hne
    | cons _ _ => rfl
  have hat : "@" ++ self = String.mk ('@' :: self.data) := by
    apply String.ext
    simp [String.data_append]
  unfold commandRegex.FindStringSubmatch
  rw [hdata]
  simp only [hrun.1, hrun.2, hemp, hrun2.1, hlen, hat]
  simp

/-- C10: for a command name `cmd` of one or more word characters and a bot
whose username `self` has at least three word characters, `IsCommandMessage(cmd)`
matches the texts `/cmd`, `/cmd@self`, `/cmd args` and `/cmd@self args` for any
`args`, and rejects `/cmd` followed directly by a non-empty run `x` of word
characters. -/
theorem IsCommandMessage_accepts_own_commands {σ : Type} (cmd self args x : String)
    (other : Nat) (s : σ)
    (hcmd : cmd.data ≠ [] ∧ ∀ c ∈ cmd.data, isWordChar c = true)
    (hself : 3 ≤ self.length ∧ ∀ c ∈ self.data, isWordChar c = true)
    (hx : x.data ≠ [] ∧ ∀ c ∈ x.data, isWordChar c = true) :
    IsCommandMessage cmd ⟨some ⟨"/" ++ cmd⟩, some ⟨self⟩, other⟩ s = (.ok true, s)
    ∧ IsCommandMessage cmd ⟨some ⟨"/" ++ cmd ++ "@" ++ self⟩, some ⟨self⟩, other⟩ s = (.ok true, s)
    ∧ IsCommandMessage cmd ⟨some ⟨"/" ++ cmd ++ " " ++ args⟩, some ⟨self⟩, other⟩ s
        = (.ok true, s)
    ∧ IsCommandMessage cmd ⟨some ⟨"/" ++ cmd ++ "@" ++ self ++ " " ++ args⟩, some ⟨self⟩, other⟩ s
        = (.ok true, s)
    ∧ IsCommandMessage cmd ⟨some ⟨"/" ++ cmd ++ x⟩, some ⟨self⟩, other⟩ s = (.ok false, s) := by
  obtain ⟨hne, hall⟩ := hcmd
  obtain ⟨hlen, hsall⟩ := hself
  obtain ⟨hxne, hxall⟩ := hx
  have hsp : ∀ c ∈ (" " ++ args).data.head?, isWordChar c = false ∧ c ≠ '@' := by
    intro c hc
    simp [String.data_append] at hc
    subst hc
    decide
  have h1 := find_plain cmd "" hne hall (by simp)
  have h2 := find_bot cmd self "" hne hall hlen hsall (by simp)
  have h3 := find_plain cmd (" " ++ args) hne hall hsp
  have h4 := find_bot cmd self (" " ++ args) hne hall hlen hsall (fun c hc => (hsp c hc).1)
  have h5 := find_plain (cmd ++ x) "" (by simp [String.data_append, hne])
    (by
      intro c hc
      simp [String.data_append] at hc
      rcases hc with hc | hc
      · exact hall c hc
      · exact hxall c hc) (by simp)
  have hxs : cmd ++ x ≠ cmd := by
    intro h
    have := congrArg String.data h
    simp [String.data_append] at this
    exact hxne this
  simp only [String.append_empty] at h1 h2 h5
  rw [← String.append_assoc] at h3 h4 h5
  refine ⟨?_, ?_, ?_, ?_, ?_⟩
  · simp [IsCommandMessage, IsAnyCommandMessage, And, IsMessage, anyCommandCheck,
      commandNameCheck, sliceIndex, M.andThen, M.ret, h1]
  · simp [IsCommandMessage, IsAnyCommandMessage, And, IsMessage, anyCommandCheck,
      commandNameCheck, sliceIndex, M.andThen, M.ret, h2]
  · simp [IsCommandMessage, IsAnyCommandMessage, And, IsMessage, anyCommandCheck,
      commandNameCheck, sliceIndex, M.andThen, M.ret, h3]
  · simp [IsCommandMessage, IsAnyCommandMessage, And, IsMessage, anyCommandCheck,
      commandNameCheck, sliceIndex, M.andThen, M.ret, h4]
  · simp [IsCommandMessage, IsAnyCommandMessage, And, IsMessage, anyCommandCheck,
      commandNameCheck, sliceIndex, M.andThen, M.ret, h5, hxs]

/-- C10 at the command `foo` and the bot `testbot` of the package tests. -/
theorem IsCommandMessage_accepts_own_commands_witness :
    (IsCommandMessage "foo" ⟨some ⟨"/" ++ "foo"⟩, some ⟨"testbot"⟩, 0⟩ () = (.ok true, ())
    ∧ IsCommandMessage "foo" ⟨some ⟨"/" ++ "foo" ++ "@" ++ "testbot"⟩, some ⟨"testbot"⟩, 0⟩ ()
        = (.ok true, ())
    ∧ IsCommandMessage "foo" ⟨some ⟨"/" ++ "foo" ++ " " ++ "bar"⟩, some ⟨"testbot"⟩, 0⟩ ()
        = (.ok true, ())
    ∧ IsCommandMessage "foo"
        ⟨some ⟨"/" ++ "foo" ++ "@" ++ "testbot" ++ " " ++ "bar"⟩, some ⟨"testbot"⟩, 0⟩ ()
        = (.ok true, ())
    ∧ IsCommandMessage "foo" ⟨some ⟨"/" ++ "foo" ++ "x"⟩, some ⟨"testbot"⟩, 0⟩ ()
        = (.ok false, ())) :=
  IsCommandMessage_accepts_own_commands "foo" "testbot" "bar" "x" 0 ()
    ⟨by decide, by decide⟩ ⟨by decide, by decide⟩ ⟨by decide, by decide⟩

/-! ## Router dispatch -/

theorem routeMatchEvents_succ (n k : Nat) :
    routeMatchEvents n (k + 1) = Event.routeMatch n :: routeMatchEvents (n + 1) k := by
  simp [routeMatchEvents, List.range_succ_eq_map, List.map_map, Function.comp_def,
    Nat.add_assoc, Nat.add_comm 1]

theorem matchLoop_spy_miss {σ : Type} (fallback : Option (Handler (σ × List Event)))
    (u : Update) (s : σ) (rs : List (Route σ)) :
    (∀ r ∈ rs, r.Match u s = (.ok false, s)) → ∀ (n : Nat) (tr : List Event),
      matchLoop fallback (spyRoutes n rs) u (s, tr)
        = (.ok fallback, (s, tr ++ routeMatchEvents n rs.length)) := by
  induction rs with
  | nil => intro _ n tr; simp [matchLoop, spyRoutes, M.ret, routeMatchEvents]
  | cons r rs ih =>
    intro h n tr
    have hr : r.Match u s = (.ok false, s) := h r (by simp)
    have ih2 := ih (fun r2 h2 => h r2 (by simp [h2])) (n + 1) (tr ++ [Event.routeMatch n])
    simp [matchLoop, spyRoutes, Route.spy, spied, M.andThen, hr, ih2, routeMatchEvents_succ]

theorem matchLoop_spy_hit {σ : Type} (fallback : Option (Handler (σ × List Event)))
    (u : Update) (s : σ) (rt : Route σ) (rs : List (Route σ)) :
    ∀ (k : Nat), rs[k]? = some rt →
      (∀ i r, i < k → rs[i]? = some r → r.Match u s = (.ok false, s)) →
      rt.Match u s = (.ok true, s) → ∀ (n : Nat) (tr : List Event),
      matchLoop fallback (spyRoutes n rs) u (s, tr)
        = (.ok (some (rt.spy (n + k)).Handle), (s, tr ++ routeMatchEvents n (k + 1))) := by
  induction rs with
  | nil => intro k hk; simp at hk
  | cons r rs ih =>
    intro k hk hbefore hmatch n tr
    cases k with
    | zero =>
      simp at hk
      subst hk
      simp [matchLoop, spyRoutes, Route.spy, spied, M.andThen, M.ret, hmatch, routeMatchEvents,
        List.range_succ]
    | succ k =>
      have hr : r.Match u s = (.ok false, s) := hbefore 0 r (Nat.succ_pos k) (by simp)
      have hk2 : rs[k]? = some rt := by simpa using hk
      have ih2 := ih k hk2
        (fun i r2 hi h2 => hbefore (i + 1) r2 (Nat.succ_lt_succ hi) (by simpa using h2))
        hmatch (n + 1) (tr ++ [Event.routeMatch n])
      rw [routeMatchEvents_succ n (k + 1)]
      simp [matchLoop, spyRoutes, Route.spy, spied, M.andThen, hr]
      rw [ih2]
      simp [Route.spy, Nat.add_assoc, Nat.add_comm 1]


theorem dispatch_spy_hit {σ : Type} (r : Router σ) (u : Update) (s : σ) (k : Nat)
    (route : Route σ) (tr : List Event)
    (hroute : r.routes[k]? = some route)
    (hbefore : ∀ i rt, i < k → r.routes[i]? = some rt → rt.Match u s = (.ok false, s))
    (hmatch : route.Match u s = (.ok true, s)) :
    r.spy.dispatch u (s, tr)
      = M.andThen ((route.spy k).Handle u) (r.spy.afterRoute u)
          (s, tr ++ routeMatchEvents 0 (k + 1)) := by
  have h := matchLoop_spy_hit r.spy.cfg.NotFoundHandler u s route r.routes k hroute hbefore
    hmatch 0 tr
  simp only [Nat.zero_add] at h
  simp only [Router.dispatch, Router.matchRoute, M.andThen]
  have h2 : matchLoop r.spy.cfg.NotFoundHandler r.spy.routes u (s, tr)
      = (.ok (some (route.spy k).Handle), (s, tr ++ routeMatchEvents 0 (k + 1))) := h
  rw [h2]
  simp only [M.andThen]

theorem handleBody_spy_hit {σ : Type} (r : Router σ) (u : Update) (s : σ) (k : Nat)
    (route : Route σ)
    (hglobal : ∀ g, r.cfg.GlobalFilter = some g → g u s = (.ok true, s))
    (hroute : r.routes[k]? = some route)
    (hbefore : ∀ i rt, i < k → r.routes[i]? = some rt → rt.Match u s = (.ok false, s))
    (hmatch : route.Match u s = (.ok true, s)) :
    r.spy.handleBody u (s, [])
      = M.andThen ((route.spy k).Handle u) (r.spy.afterRoute u)
          (s, r.cfg.globalFilterEvents ++ routeMatchEvents 0 (k + 1)) := by
  cases hG : r.cfg.GlobalFilter with
  | none =>
    have hs : r.spy.cfg.GlobalFilter = none := by simp [Router.spy, Config.spy, hG]
    simp only [Router.handleBody, hs, Config.globalFilterEvents, hG]
    exact dispatch_spy_hit r u s k route [] hroute hbefore hmatch
  | some g =>
    have hg := hglobal g hG
    have hs : r.spy.cfg.GlobalFilter = some (fun u => spied .globalFilter (g u)) := by
      simp [Router.spy, Config.spy, hG]
    simp only [Router.handleBody, hs, Config.globalFilterEvents, hG, Router.Match, M.andThen,
      spied, hg]
    exact dispatch_spy_hit r u s k route _ hroute hbefore hmatch


theorem afterRoute_spy_isRoute {σ : Type} (r : Router σ) (u : Update) (err : Option GoError)
    (s : σ) (tr : List Event) :
    ((r.spy.afterRoute u err (s, tr)).2.2).filter Event.isRoute = tr.filter Event.isRoute := by
  have key1 : ∀ nf : Handler σ,
      ((spied Event.notFoundHandler (nf u) (s, tr)).2.2).filter Event.isRoute
        = tr.filter Event.isRoute := by
    intro nf
    simp [spied, Event.isRoute]
  have key2 : ∀ (e : GoError) (eh : Update → GoError → M σ Unit),
      ((M.andThen (spied (Event.errorHandler u e) (eh u e))
          (fun _ => (M.ret none : M (σ × List Event) (Option GoError))) (s, tr)).2.2).filter
        Event.isRoute = tr.filter Event.isRoute := by
    intro e eh
    simp only [M.andThen, spied]
    rcases eh u e s with ⟨res, s1⟩
    cases res <;> simp [M.ret, Event.isRoute]
  cases err with
  | none => simp [Router.afterRoute, M.ret]
  | some e =>
    cases hnf : r.cfg.NotFoundHandler <;> cases heh : r.cfg.ErrorHandler <;>
      cases hi : e.isRouteNotFound <;>
      simp only [Router.afterRoute, Router.spy, Config.spy, hnf, heh, hi, Option.map_none',
        Option.map_some', key1, key2] <;>
      simp [M.ret]

theorem tryRecover_spy_isRoute {σ : Type} (r : Router σ) (u : Update) (p : PanicValue)
    (s : σ) (tr : List Event) :
    ((r.spy.tryRecover u p (s, tr)).2.2).filter Event.isRoute = tr.filter Event.isRoute := by
  cases hrh : r.cfg.RecoverHandler with
  | none => simp [Router.tryRecover, Router.spy, Config.spy, hrh, M.raise]
  | some rh =>
    simp only [Router.tryRecover, Router.spy, Config.spy, hrh, Option.map_some', M.andThen, spied]
    rcases rh u p.toError s with ⟨res, s1⟩
    cases res <;> simp [M.ret, Event.isRoute]

theorem Handle_spy_isRoute {σ : Type} (r : Router σ) (u : Update) (st : σ × List Event) :
    ((r.spy.Handle u st).2.2).filter Event.isRoute
      = ((r.spy.handleBody u st).2.2).filter Event.isRoute := by
  simp only [Router.Handle]
  rcases r.spy.handleBody u st with ⟨res, s1, tr1⟩
  cases res with
  | ok _ => rfl
  | panicked p => exact tryRecover_spy_isRoute r u p s1 tr1

theorem filter_isRoute_globalFilterEvents {σ : Type} (cfg : Config σ) :
    cfg.globalFilterEvents.filter Event.isRoute = [] := by
  unfold Config.globalFilterEvents
  cases cfg.GlobalFilter <;> simp [Event.isRoute]

theorem filter_isRoute_routeMatchEvents (n k : Nat) :
    (routeMatchEvents n k).filter Event.isRoute = routeMatchEvents n k := by
  simp [routeMatchEvents, List.filter_eq_self, Event.isRoute]

theorem filter_isRouteHandle_routeMatchEvents (n k : Nat) :
    (routeMatchEvents n k).filter Event.isRouteHandle = [] := by
  simp [routeMatchEvents, List.filter_eq_nil_iff, Event.isRouteHandle]

/-- C1: when the update passes the global filter (or none is configured), the
filters of routes `0 .. k-1` reject it and the filter of route `k` accepts it,
`Router.Handle` calls the filters of routes `0 .. k` in mount order and then the
handler of route `k`, and calls no filter and no handler of any other mounted
route, whatever the handler of route `k` does and whatever later routes would
answer. -/
theorem Router_Handle_first_match_wins {σ : Type} (r : Router σ) (u : Update) (s : σ)
    (k : Nat) (route : Route σ)
    (hglobal : ∀ g, r.cfg.GlobalFilter = some g → g u s = (.ok true, s))
    (hroute : r.routes[k]? = some route)
    (hbefore : ∀ i rt, i < k → r.routes[i]? = some rt → rt.Match u s = (.ok false, s))
    (hmatch : route.Match u s = (.ok true, s)) :
    ((r.spy.Handle u (s, [])).2.2).filter Event.isRoute
        = routeMatchEvents 0 (k + 1) ++ [Event.routeHandle k]
    ∧ ((r.spy.Handle u (s, [])).2.2).filter Event.isRouteHandle = [Event.routeHandle k] := by
  have h1 : ((r.spy.Handle u (s, [])).2.2).filter Event.isRoute
      = routeMatchEvents 0 (k + 1) ++ [Event.routeHandle k] := by
    rw [Handle_spy_isRoute, handleBody_spy_hit r u s k route hglobal hroute hbefore hmatch]
    rcases hh : route.Handle u s with ⟨res, s1⟩
    have hspy : ∀ tr, (route.spy k).Handle u (s, tr) = (res, (s1, tr ++ [Event.routeHandle k])) := by
      intro tr
      simp [Route.spy, spied, hh]
    simp only [M.andThen, hspy]
    cases res with
    | ok err =>
      simp only
      rw [afterRoute_spy_isRoute]
      simp [filter_isRoute_globalFilterEvents, filter_isRoute_routeMatchEvents, Event.isRoute]
    | panicked p =>
      simp [filter_isRoute_globalFilterEvents, filter_isRoute_routeMatchEvents, Event.isRoute]
  refine ⟨h1, ?_⟩
  have h2 := congrArg (List.filter Event.isRouteHandle) h1
  rw [List.filter_filter] at h2
  have hfun : (fun a => Event.isRouteHandle a && Event.isRoute a) = Event.isRouteHandle := by
    funext a
    cases a <;> rfl
  rw [hfun] at h2
  rw [h2]
  simp [filter_isRouteHandle_routeMatchEvents, Event.isRouteHandle]


theorem Handle_spy_hit {σ : Type} (r : Router σ) (u : Update) (s : σ) (k : Nat)
    (route : Route σ) (res : Res (Option GoError)) (s1 : σ)
    (hglobal : ∀ g, r.cfg.GlobalFilter = some g → g u s = (.ok true, s))
    (hroute : r.routes[k]? = some route)
    (hbefore : ∀ i rt, i < k → r.routes[i]? = some rt → rt.Match u s = (.ok false, s))
    (hmatch : route.Match u s = (.ok true, s))
    (hhandle : route.Handle u s = (res, s1)) :
    r.spy.handleBody u (s, [])
      = match res with
        | .ok err => r.spy.afterRoute u err
            (s1, r.cfg.globalFilterEvents ++ routeMatchEvents 0 (k + 1) ++ [Event.routeHandle k])
        | .panicked p => (.panicked p,
            (s1, r.cfg.globalFilterEvents ++ routeMatchEvents 0 (k + 1) ++ [Event.routeHandle k])) := by
  rw [handleBody_spy_hit r u s k route hglobal hroute hbefore hmatch]
  have hspy : ∀ tr, (route.spy k).Handle u (s, tr) = (res, (s1, tr ++ [Event.routeHandle k])) := by
    intro tr
    simp [Route.spy, spied, hhandle]
  simp only [M.andThen, hspy]
  cases res <;> rfl

/-- C3: when the handler of the first matching route `k` returns an error `e`
for which `errors.Is(e, ErrRouteNotFound)` is false and an error handler is
configured, `Router.Handle` calls, after the filters of routes `0 .. k` and the
handler of route `k`, the error handler once with the update and `e`, and
nothing else: no further route, no not-found handler. If the error handler
returns, `Handle` returns nil; if it panics, what remains is the deferred
`tryRecover`. -/
theorem Router_Handle_error_to_ErrorHandler {σ : Type} (r : Router σ) (u : Update) (s : σ)
    (k : Nat) (route : Route σ) (e : GoError) (s1 : σ) (eh : Update → GoError → M σ Unit)
    (hglobal : ∀ g, r.cfg.GlobalFilter = some g → g u s = (.ok true, s))
    (hroute : r.routes[k]? = some route)
    (hbefore : ∀ i rt, i < k → r.routes[i]? = some rt → rt.Match u s = (.ok false, s))
    (hmatch : route.Match u s = (.ok true, s))
    (hhandle : route.Handle u s = (.ok (some e), s1))
    (hnot : e.isRouteNotFound = false)
    (heh : r.cfg.ErrorHandler = some eh) :
    r.spy.Handle u (s, [])
      = match eh u e s1 with
        | (.ok _, s2) => (.ok none,
            (s2, r.cfg.globalFilterEvents ++ routeMatchEvents 0 (k + 1)
              ++ [Event.routeHandle k, Event.errorHandler u e]))
        | (.panicked p, s2) => r.spy.tryRecover u p
            (s2, r.cfg.globalFilterEvents ++ routeMatchEvents 0 (k + 1)
              ++ [Event.routeHandle k, Event.errorHandler u e]) := by
  have hb := Handle_spy_hit r u s k route _ s1 hglobal hroute hbefore hmatch hhandle
  simp only [Router.Handle, hb, Router.afterRoute, hnot]
  simp only [Router.spy, Config.spy, heh, Option.map_some', M.andThen, spied]
  rcases eh u e s1 with ⟨res, s2⟩
  cases res <;> simp [M.ret, Router.spy, Config.spy]

/-- C4: when the handler of the first matching route `k` returns an error for
which `errors.Is(err, ErrRouteNotFound)` holds (as a route group does when none
of its children matches) and a not-found handler is configured, `Router.Handle`
calls, after the filters of routes `0 .. k` and the handler of route `k`, the
not-found handler once and nothing else: the routes after `k` are not tried,
whatever they would answer. `Handle` returns what the not-found handler
returns. -/
theorem Router_Handle_RouteNotFound_to_NotFoundHandler {σ : Type} (r : Router σ) (u : Update)
    (s : σ) (k : Nat) (route : Route σ) (e : GoError) (s1 : σ) (nf : Handler σ)
    (hglobal : ∀ g, r.cfg.GlobalFilter = some g → g u s = (.ok true, s))
    (hroute : r.routes[k]? = some route)
    (hbefore : ∀ i rt, i < k → r.routes[i]? = some rt → rt.Match u s = (.ok false, s))
    (hmatch : route.Match u s = (.ok true, s))
    (hhandle : route.Handle u s = (.ok (some e), s1))
    (his : e.isRouteNotFound = true)
    (hnf : r.cfg.NotFoundHandler = some nf) :
    r.spy.Handle u (s, [])
      = match nf u s1 with
        | (.ok res, s2) => (.ok res,
            (s2, r.cfg.globalFilterEvents ++ routeMatchEvents 0 (k + 1)
              ++ [Event.routeHandle k, Event.notFoundHandler]))
        | (.panicked p, s2) => r.spy.tryRecover u p
            (s2, r.cfg.globalFilterEvents ++ routeMatchEvents 0 (k + 1)
              ++ [Event.routeHandle k, Event.notFoundHandler]) := by
  have hb := Handle_spy_hit r u s k route _ s1 hglobal hroute hbefore hmatch hhandle
  simp only [Router.Handle, hb, Router.afterRoute, his]
  simp only [Router.spy, Config.spy, hnf, Option.map_some', spied]
  rcases nf u s1 with ⟨res, s2⟩
  cases res <;> simp [Router.spy, Config.spy]

/-- C7: when a global filter is configured and returns false on the update,
`Router.Handle` returns nil and has called the global filter only: no filter
of a mounted route, no route handler, no not-found handler, no error handler. -/
theorem Router_Handle_global_filter_rejects {σ : Type} (r : Router σ) (u : Update) (s s1 : σ)
    (g : FilterMatcher σ)
    (hG : r.cfg.GlobalFilter = some g)
    (hfalse : g u s = (.ok false, s1)) :
    r.spy.Handle u (s, []) = (.ok none, (s1, [Event.globalFilter])) := by
  have hs : r.spy.cfg.GlobalFilter = some (fun u => spied .globalFilter (g u)) := by
    simp [Router.spy, Config.spy, hG]
  simp [Router.Handle, Router.handleBody, hs, Router.Match, M.andThen, spied, hfalse, M.ret]

/-- C8: when the handler of the first matching route `k` panics with value `p`:
with a recover handler configured, it is called once with the update and the
error made of `p` (`p` itself when `p` is an error, else an error whose message
is the rendering of `p`), and `Router.Handle` returns nil when the recover
handler returns; without a recover handler, `Router.Handle` panics with that
error. -/
theorem Router_Handle_recovers_panic {σ : Type} (r : Router σ) (u : Update)
    (s : σ) (k : Nat) (route : Route σ) (p : PanicValue) (s1 : σ)
    (hglobal : ∀ g, r.cfg.GlobalFilter = some g → g u s = (.ok true, s))
    (hroute : r.routes[k]? = some route)
    (hbefore : ∀ i rt, i < k → r.routes[i]? = some rt → rt.Match u s = (.ok false, s))
    (hmatch : route.Match u s = (.ok true, s))
    (hhandle : route.Handle u s = (.panicked p, s1)) :
    (∀ rh, r.cfg.RecoverHandler = some rh →
      r.spy.Handle u (s, [])
        = match rh u p.toError s1 with
          | (.ok _, s2) => (.ok none,
              (s2, r.cfg.globalFilterEvents ++ routeMatchEvents 0 (k + 1)
                ++ [Event.routeHandle k, Event.recoverHandler u p.toError]))
          | (.panicked q, s2) => (.panicked q,
              (s2, r.cfg.globalFilterEvents ++ routeMatchEvents 0 (k + 1)
                ++ [Event.routeHandle k, Event.recoverHandler u p.toError])))
    ∧ (r.cfg.RecoverHandler = none →
      r.spy.Handle u (s, [])
        = (.panicked (.error p.toError),
            (s1, r.cfg.globalFilterEvents ++ routeMatchEvents 0 (k + 1)
              ++ [Event.routeHandle k])))
    ∧ (∀ e, p = .error e → p.toError = e)
    ∧ (∀ repr, p = .value repr → p.toError.Error = repr) := by
  have hb := Handle_spy_hit r u s k route _ s1 hglobal hroute hbefore hmatch hhandle
  refine ⟨?_, ?_, ?_, ?_⟩
  · intro rh hrh
    simp only [Router.Handle, hb, Router.tryRecover]
    simp only [Router.spy, Config.spy, hrh, Option.map_some', M.andThen, spied]
    rcases rh u p.toError s1 with ⟨res, s2⟩
    cases res <;> simp [M.ret]
  · intro hrh
    simp only [Router.Handle, hb, Router.tryRecover]
    simp [Router.spy, Config.spy, hrh, M.raise]
  · intro e he
    subst he
    rfl
  · intro repr he
    subst he
    rfl


/-- C1 on two routes: an update matching only the second runs the second, an
update matching both runs only the first. -/
theorem Router_Handle_first_match_wins_witness :
    (((Router.spy ⟨[constRoute false (.ok none), constRoute true (.ok none)],
          fullConfig (.ok none)⟩).Handle emptyUpdate ((), [])).2.2.filter Event.isRoute
        = routeMatchEvents 0 2 ++ [Event.routeHandle 1]
      ∧ ((Router.spy ⟨[constRoute false (.ok none), constRoute true (.ok none)],
          fullConfig (.ok none)⟩).Handle emptyUpdate ((), [])).2.2.filter Event.isRouteHandle
        = [Event.routeHandle 1])
    ∧ (((Router.spy ⟨[constRoute true (.ok none), constRoute true (.ok none)],
          emptyConfig⟩).Handle emptyUpdate ((), [])).2.2.filter Event.isRoute
        = routeMatchEvents 0 1 ++ [Event.routeHandle 0]
      ∧ ((Router.spy ⟨[constRoute true (.ok none), constRoute true (.ok none)],
          emptyConfig⟩).Handle emptyUpdate ((), [])).2.2.filter Event.isRouteHandle
        = [Event.routeHandle 0]) :=
  ⟨Router_Handle_first_match_wins
      ⟨[constRoute false (.ok none), constRoute true (.ok none)], fullConfig (.ok none)⟩
      emptyUpdate () 1 (constRoute true (.ok none))
      (fun g h => by cases h; rfl) rfl
      (fun i rt hi h => by
        have hi0 : i = 0 := by omega
        subst hi0
        cases h
        rfl)
      rfl,
    Router_Handle_first_match_wins
      ⟨[constRoute true (.ok none), constRoute true (.ok none)], emptyConfig⟩
      emptyUpdate () 0 (constRoute true (.ok none))
      (fun g h => by cases h) rfl
      (fun i rt hi h => absurd hi (Nat.not_lt_zero i))
      rfl⟩


/-- C3 on three routes of which the second and third match and the second fails
with `boom`. -/
theorem Router_Handle_error_to_ErrorHandler_witness :
    (Router.spy ⟨[constRoute false (.ok none), constRoute true (.ok (some boom)),
        constRoute true (.ok none)], fullConfig (.ok none)⟩).Handle emptyUpdate ((), [])
      = (.ok none, ((), [Event.globalFilter, Event.routeMatch 0, Event.routeMatch 1,
          Event.routeHandle 1, Event.errorHandler emptyUpdate boom])) :=
  Router_Handle_error_to_ErrorHandler
    ⟨[constRoute false (.ok none), constRoute true (.ok (some boom)),
      constRoute true (.ok none)], fullConfig (.ok none)⟩
    emptyUpdate () 1 (constRoute true (.ok (some boom))) boom () (constCallback (.ok ()))
    (fun g h => by cases h; rfl) rfl
    (fun i rt hi h => by
      have hi0 : i = 0 := by omega
      subst hi0
      cases h
      rfl)
    rfl rfl rfl rfl

/-- C4 on three routes of which the second and third match and the second
returns `ErrRouteNotFound`. -/
theorem Router_Handle_RouteNotFound_to_NotFoundHandler_witness :
    (Router.spy ⟨[constRoute false (.ok none),
        constRoute true (.ok (some GoError.ErrRouteNotFound)),
        constRoute true (.ok none)], fullConfig (.ok (some boom))⟩).Handle emptyUpdate ((), [])
      = (.ok (some boom), ((), [Event.globalFilter, Event.routeMatch 0, Event.routeMatch 1,
          Event.routeHandle 1, Event.notFoundHandler])) :=
  Router_Handle_RouteNotFound_to_NotFoundHandler
    ⟨[constRoute false (.ok none), constRoute true (.ok (some GoError.ErrRouteNotFound)),
      constRoute true (.ok none)], fullConfig (.ok (some boom))⟩
    emptyUpdate () 1 (constRoute true (.ok (some GoError.ErrRouteNotFound)))
    GoError.ErrRouteNotFound () (constHandler (.ok (some boom)))
    (fun g h => by cases h; rfl) rfl
    (fun i rt hi h => by
      have hi0 : i = 0 := by omega
      subst hi0
      cases h
      rfl)
    rfl rfl rfl rfl

/-- C7 on a router whose global filter rejects every update. -/
theorem Router_Handle_global_filter_rejects_witness :
    (Router.spy ⟨[constRoute true (.ok (some boom))],
        ⟨some (constCallback (.ok ())), some (constCallback (.ok ())),
          some (constHandler (.ok none)), some (Not Any)⟩⟩).Handle emptyUpdate ((), [])
      = (.ok none, ((), [Event.globalFilter])) :=
  Router_Handle_global_filter_rejects
    ⟨[constRoute true (.ok (some boom))],
      ⟨some (constCallback (.ok ())), some (constCallback (.ok ())),
        some (constHandler (.ok none)), some (Not Any)⟩⟩
    emptyUpdate () () (Not Any) rfl rfl

/-- C8 on a route that panics with the string `boom`, with and without a
recover handler. -/
theorem Router_Handle_recovers_panic_witness :
    (Router.spy ⟨[constRoute true (.panicked (.value "boom"))],
        fullConfig (.ok none)⟩).Handle emptyUpdate ((), [])
      = (.ok none, ((), [Event.globalFilter, Event.routeMatch 0, Event.routeHandle 0,
          Event.recoverHandler emptyUpdate boom]))
    ∧ (Router.spy ⟨[constRoute true (.panicked (.value "boom"))],
        emptyConfig⟩).Handle emptyUpdate ((), [])
      = (.panicked (.error boom), ((), [Event.routeMatch 0, Event.routeHandle 0])) :=
  ⟨(Router_Handle_recovers_panic
      ⟨[constRoute true (.panicked (.value "boom"))], fullConfig (.ok none)⟩
      emptyUpdate () 0 (constRoute true (.panicked (.value "boom"))) (.value "boom") ()
      (fun g h => by cases h; rfl) rfl
      (fun i rt hi h => absurd hi (Nat.not_lt_zero i)) rfl rfl).1
      (constCallback (.ok ())) rfl,
    (Router_Handle_recovers_panic
      ⟨[constRoute true (.panicked (.value "boom"))], emptyConfig⟩
      emptyUpdate () 0 (constRoute true (.panicked (.value "boom"))) (.value "boom") ()
      (fun g h => by cases h) rfl
      (fun i rt hi h => absurd hi (Nat.not_lt_zero i)) rfl rfl).2.1 rfl⟩


/-- C2 (what the code does where the claim fails): when no mounted route matches,
`Router.matchRoute` returns the configured not-found handler as if it were the
matched route; when that handler returns an error for which
`errors.Is(err, ErrRouteNotFound)` holds, `Router.Handle` calls the not-found
handler a second time and returns the result of the second call. -/
theorem Router_Handle_calls_NotFoundHandler_twice {σ : Type} (r : Router σ) (u : Update)
    (s s1 : σ) (nf : Handler σ) (e : GoError)
    (hglobal : ∀ g, r.cfg.GlobalFilter = some g → g u s = (.ok true, s))
    (hmiss : ∀ rt ∈ r.routes, rt.Match u s = (.ok false, s))
    (hnf : r.cfg.NotFoundHandler = some nf)
    (hret : nf u s = (.ok (some e), s1))
    (his : e.isRouteNotFound = true) :
    r.spy.Handle u (s, [])
      = match nf u s1 with
        | (.ok res, s2) => (.ok res,
            (s2, r.cfg.globalFilterEvents ++ routeMatchEvents 0 r.routes.length
              ++ [Event.notFoundHandler, Event.notFoundHandler]))
        | (.panicked p, s2) => r.spy.tryRecover u p
            (s2, r.cfg.globalFilterEvents ++ routeMatchEvents 0 r.routes.length
              ++ [Event.notFoundHandler, Event.notFoundHandler]) := by
  have hs : r.spy.cfg.NotFoundHandler = some (fun u => spied .notFoundHandler (nf u)) := by
    simp [Router.spy, Config.spy, hnf]
  have hloop : ∀ tr, matchLoop r.spy.cfg.NotFoundHandler r.spy.routes u (s, tr)
      = (.ok r.spy.cfg.NotFoundHandler, (s, tr ++ routeMatchEvents 0 r.routes.length)) :=
    fun tr => matchLoop_spy_miss r.spy.cfg.NotFoundHandler u s r.routes hmiss 0 tr
  rw [hs] at hloop
  have hdisp : ∀ tr, r.spy.dispatch u (s, tr)
      = match nf u s1 with
        | (.ok res, s2) => (.ok res,
            (s2, tr ++ routeMatchEvents 0 r.routes.length
              ++ [Event.notFoundHandler, Event.notFoundHandler]))
        | (.panicked p, s2) => (.panicked p,
            (s2, tr ++ routeMatchEvents 0 r.routes.length
              ++ [Event.notFoundHandler, Event.notFoundHandler])) := by
    intro tr
    simp only [Router.dispatch, Router.matchRoute, M.andThen, hloop, hs, spied, hret,
      Router.afterRoute, his]
    rcases nf u s1 with ⟨res, s2⟩
    cases res <;> simp
  cases hG : r.cfg.GlobalFilter with
  | none =>
    have hg : r.spy.cfg.GlobalFilter = none := by simp [Router.spy, Config.spy, hG]
    simp only [Router.Handle, Router.handleBody, hg, Config.globalFilterEvents, hG, hdisp]
    rcases nf u s1 with ⟨res, s2⟩
    cases res <;> simp
  | some g =>
    have hgt := hglobal g hG
    have hg : r.spy.cfg.GlobalFilter = some (fun u => spied .globalFilter (g u)) := by
      simp [Router.spy, Config.spy, hG]
    simp only [Router.Handle, Router.handleBody, hg, Config.globalFilterEvents, hG, Router.Match,
      M.andThen, spied, hgt]
    simp only [Bool.not_true, Bool.false_eq_true, if_false, List.nil_append]
    rw [hdisp]
    rcases nf u s1 with ⟨res, s2⟩
    cases res <;> simp

/-- C2 on two routes that do not match and a not-found handler that returns
`ErrRouteNotFound`. -/
theorem Router_Handle_calls_NotFoundHandler_twice_witness :
    (Router.spy ⟨[constRoute false (.ok none), constRoute false (.ok none)],
        fullConfig (.ok (some GoError.ErrRouteNotFound))⟩).Handle emptyUpdate ((), [])
      = (.ok (some GoError.ErrRouteNotFound),
          ((), [Event.globalFilter, Event.routeMatch 0, Event.routeMatch 1,
            Event.notFoundHandler, Event.notFoundHandler])) :=
  Router_Handle_calls_NotFoundHandler_twice
    ⟨[constRoute false (.ok none), constRoute false (.ok none)],
      fullConfig (.ok (some GoError.ErrRouteNotFound))⟩
    emptyUpdate () () (constHandler (.ok (some GoError.ErrRouteNotFound)))
    GoError.ErrRouteNotFound
    (fun g h => by cases h; rfl)
    (fun rt h => by
      simp at h
      subst h
      rfl)
    rfl rfl rfl


/-! ## Route groups -/

/-- C6: a route group calls the filters of its children in mount order up to
the first child `k` whose filter accepts the update, and then runs, once, the
handler of that child inside the group middlewares `m1, ..., mn`, that is
`m1 (m2 (... (mn child)))`, returning its result; without group middlewares
that is one call of the handler of child `k`, whose result is returned. If no
child accepts the update the group returns `ErrRouteNotFound` after the filter
calls only, with the state as the filters left it: no child handler and no
middleware has run. -/
theorem routeGroup_Handle_first_child {σ : Type} (g : routeGroup σ)
    (mws : List (Middleware (σ × List Event))) (u : Update) (s : σ) :
    (∀ (k : Nat) (route : Route σ), g.routes[k]? = some route →
      (∀ i rt, i < k → g.routes[i]? = some rt → rt.Match u s = (.ok false, s)) →
      route.Match u s = (.ok true, s) →
        (g.spy mws).Handle u (s, [])
          = (mws.foldr (fun m inner => m inner) (route.spy k).Handle) u
              (s, routeMatchEvents 0 (k + 1))
        ∧ (g.spy []).Handle u (s, [])
          = ((route.Handle u s).1,
              ((route.Handle u s).2, routeMatchEvents 0 (k + 1) ++ [Event.routeHandle k])))
    ∧ ((∀ rt ∈ g.routes, rt.Match u s = (.ok false, s)) →
        (g.spy mws).Handle u (s, [])
          = (.ok (some GoError.ErrRouteNotFound), (s, routeMatchEvents 0 g.routes.length))) := by
  constructor
  · intro k route hroute hbefore hmatch
    have h := matchLoop_spy_hit none u s route g.routes k hroute hbefore hmatch 0 []
    simp only [Nat.zero_add, List.nil_append] at h
    constructor
    · simp only [routeGroup.Handle, routeGroup.matchRoute, routeGroup.spy, M.andThen, h,
        routeGroup.wrap, wrapLoop_length]
    · simp only [routeGroup.Handle, routeGroup.matchRoute, routeGroup.spy, M.andThen, h,
        routeGroup.wrap, wrapLoop, List.length_nil, Route.spy, spied]
  · intro hmiss
    have h := matchLoop_spy_miss none u s g.routes hmiss 0 []
    simp only [List.nil_append] at h
    simp only [routeGroup.Handle, routeGroup.matchRoute, routeGroup.spy, M.andThen, h, M.ret]

/-- C6 on a group with the middlewares `markMiddleware 1` and `markMiddleware 2`
whose second and third children match: the marks are 1, 2 and then the 0 of
the second child, whose handler alone has run; on the same group without
middlewares; and on a group with these middlewares none of whose children
matches, where no mark is written. -/
theorem routeGroup_Handle_first_child_witness :
    (routeGroup.spy ⟨Any, [markRoute false, markRoute true, markRoute true], []⟩
        [markMiddleware 1, markMiddleware 2]).Handle emptyUpdate ([], [])
      = (.ok none, ([1, 2, 0], [Event.routeMatch 0, Event.routeMatch 1, Event.routeHandle 1]))
    ∧ (routeGroup.spy ⟨Any, [constRoute false (.ok none), constRoute true (.ok (some boom)),
        constRoute true (.ok none)], []⟩ []).Handle emptyUpdate ((), [])
      = (.ok (some boom), ((), [Event.routeMatch 0, Event.routeMatch 1, Event.routeHandle 1]))
    ∧ (routeGroup.spy ⟨Any, [markRoute false, markRoute false], []⟩
        [markMiddleware 1, markMiddleware 2]).Handle emptyUpdate ([], [])
      = (.ok (some GoError.ErrRouteNotFound), ([], [Event.routeMatch 0, Event.routeMatch 1])) :=
  ⟨((routeGroup_Handle_first_child
      ⟨Any, [markRoute false, markRoute true, markRoute true], []⟩
      [markMiddleware 1, markMiddleware 2] emptyUpdate []).1 1 (markRoute true)
      rfl
      (fun i rt hi h => by
        have hi0 : i = 0 := by omega
        subst hi0
        cases h
        rfl)
      rfl).1,
    ((routeGroup_Handle_first_child
      ⟨Any, [constRoute false (.ok none), constRoute true (.ok (some boom)),
        constRoute true (.ok none)], []⟩ [] emptyUpdate ()).1 1 (constRoute true (.ok (some boom)))
      rfl
      (fun i rt hi h => by
        have hi0 : i = 0 := by omega
        subst hi0
        cases h
        rfl)
      rfl).2,
    (routeGroup_Handle_first_child
      ⟨Any, [markRoute false, markRoute false], []⟩
      [markMiddleware 1, markMiddleware 2] emptyUpdate []).2
      (fun rt h => by
        simp at h
        subst h
        rfl)⟩


/-! ## Commands addressed to a bot -/

theorem find_short (cmd short tail : String) (hne : cmd.data ≠ [])
    (hall : ∀ c ∈ cmd.data, isWordChar c = true)
    (hlen : short.data.length < 3) (hshort : ∀ c ∈ short.data, isWordChar c = true)
    (htail : ∀ c ∈ tail.data.head?, isWordChar c = false) :
    commandRegex.FindStringSubmatch ("/" ++ cmd ++ "@" ++ short ++ tail)
      = [String.mk ('/' :: cmd.data), cmd, ""] := by
  have hrun := takeWhile_dropWhile_run isWordChar cmd.data ('@' :: (short.data ++ tail.data)) hall
    (fun c hc => by simp at hc; subst hc; decide)
  have hrun2 := takeWhile_dropWhile_run isWordChar short.data tail.data hshort htail
  have hdata : ("/" ++ cmd ++ "@" ++ short ++ tail).data
      = '/' :: (cmd.data ++ '@' :: (short.data ++ tail.data)) := by
    simp [String.data_append]
  have hemp : cmd.data.isEmpty = false := by
    cases h : cmd.data with
    | nil => exact absurd h hne
    | cons _ _ => rfl
  have hnot : ¬ (3 ≤ short.data.length) := by omega
  unfold commandRegex.FindStringSubmatch
  rw [hdata]
  simp only [hrun.1, hrun.2, hemp, hrun2.1, hnot]
  simp

/-- C11 (as amended): a command `/cmd@other`, with or without arguments, whose
`other` has at least three word characters and differs from the bot's own
username is rejected by `IsAnyCommandMessage` and by `IsCommandMessage(cmd)`;
a suffix `@short` of fewer than three word characters is not read as a bot
name, and the command is accepted. -/
theorem command_for_other_bot_rejected {σ : Type} (cmd self other args : String) (n : Nat)
    (s : σ)
    (hcmd : cmd.data ≠ [] ∧ ∀ c ∈ cmd.data, isWordChar c = true)
    (hother : 3 ≤ other.length ∧ ∀ c ∈ other.data, isWordChar c = true)
    (hdiff : other ≠ self) :
    (IsAnyCommandMessage ⟨some ⟨"/" ++ cmd ++ "@" ++ other⟩, some ⟨self⟩, n⟩ s = (.ok false, s)
      ∧ IsAnyCommandMessage ⟨some ⟨"/" ++ cmd ++ "@" ++ other ++ " " ++ args⟩, some ⟨self⟩, n⟩ s
          = (.ok false, s)
      ∧ IsCommandMessage cmd ⟨some ⟨"/" ++ cmd ++ "@" ++ other⟩, some ⟨self⟩, n⟩ s
          = (.ok false, s)
      ∧ IsCommandMessage cmd ⟨some ⟨"/" ++ cmd ++ "@" ++ other ++ " " ++ args⟩, some ⟨self⟩, n⟩ s
          = (.ok false, s))
    ∧ (∀ short : String, short.length < 3 → (∀ c ∈ short.data, isWordChar c = true) →
        IsAnyCommandMessage ⟨some ⟨"/" ++ cmd ++ "@" ++ short⟩, some ⟨self⟩, n⟩ s = (.ok true, s)
        ∧ IsCommandMessage cmd ⟨some ⟨"/" ++ cmd ++ "@" ++ short⟩, some ⟨self⟩, n⟩ s
            = (.ok true, s)) := by
  obtain ⟨hne, hall⟩ := hcmd
  obtain ⟨hlen, hoall⟩ := hother
  have hsp : ∀ c ∈ (" " ++ args).data.head?, isWordChar c = false := by
    intro c hc
    simp [String.data_append] at hc
    subst hc
    decide
  have h1 := find_bot cmd other "" hne hall hlen hoall (by simp)
  have h2 := find_bot cmd other (" " ++ args) hne hall hlen hoall hsp
  simp only [String.append_empty] at h1
  rw [← String.append_assoc] at h2
  have hat : ¬ ("@" ++ other = "@" ++ self) := by
    intro h
    have hd := congrArg String.data h
    simp [String.data_append] at hd
    exact hdiff (String.ext hd)
  have hnonempty : ¬ ("@" ++ other = "") := by
    intro h
    have hd := congrArg String.data h
    simp [String.data_append] at hd
  refine ⟨⟨?_, ?_, ?_, ?_⟩, ?_⟩
  · simp [IsAnyCommandMessage, And, IsMessage, anyCommandCheck, sliceIndex, M.andThen, M.ret, h1,
      hat, hnonempty]
  · simp [IsAnyCommandMessage, And, IsMessage, anyCommandCheck, sliceIndex, M.andThen, M.ret, h2,
      hat, hnonempty]
  · simp [IsCommandMessage, IsAnyCommandMessage, And, IsMessage, anyCommandCheck, sliceIndex,
      M.andThen, M.ret, h1, hat, hnonempty]
  · simp [IsCommandMessage, IsAnyCommandMessage, And, IsMessage, anyCommandCheck, sliceIndex,
      M.andThen, M.ret, h2, hat, hnonempty]
  · intro short hslen hsall
    have h3 := find_short cmd short "" hne hall hslen hsall (by simp)
    simp only [String.append_empty] at h3
    constructor
    · simp [IsAnyCommandMessage, And, IsMessage, anyCommandCheck, sliceIndex, M.andThen, M.ret,
        h3]
    · simp [IsCommandMessage, IsAnyCommandMessage, And, IsMessage, anyCommandCheck,
        commandNameCheck, sliceIndex, M.andThen, M.ret, h3]

/-- C11 at the command `foo`, the other bot `nope` and the bot `testbot` of the
package tests. -/
theorem command_for_other_bot_rejected_witness :
    IsAnyCommandMessage ⟨some ⟨"/" ++ "foo" ++ "@" ++ "nope"⟩, some ⟨"testbot"⟩, 0⟩ ()
      = (.ok false, ())
    ∧ IsCommandMessage "foo" ⟨some ⟨"/" ++ "foo" ++ "@" ++ "nope" ++ " " ++ "bar"⟩,
        some ⟨"testbot"⟩, 0⟩ () = (.ok false, ()) :=
  ⟨(command_for_other_bot_rejected "foo" "testbot" "nope" "bar" 0 ()
      ⟨by decide, by decide⟩ ⟨by decide, by decide⟩ (by decide)).1.1,
    (command_for_other_bot_rejected "foo" "testbot" "nope" "bar" 0 ()
      ⟨by decide, by decide⟩ ⟨by decide, by decide⟩ (by decide)).1.2.2.2⟩

/-- C11 (counterexample): with the bot `testbot`, the text `/foo@ab` names the
other user `ab` and is accepted by both filters. -/
theorem command_for_short_other_name_accepted :
    IsAnyCommandMessage ⟨some ⟨"/foo@ab"⟩, some ⟨"testbot"⟩, 0⟩ () = (.ok true, ())
    ∧ IsCommandMessage "foo" ⟨some ⟨"/foo@ab"⟩, some ⟨"testbot"⟩, 0⟩ () = (.ok true, ())
    ∧ IsCommandMessage "foo" ⟨some ⟨"/foo@ab bar"⟩, some ⟨"testbot"⟩, 0⟩ () = (.ok true, ())
    ∧ "ab" ≠ "testbot" := by
  decide

theorem FindStringSubmatch_length (text : String) :
    (commandRegex.FindStringSubmatch text).length = 0
      ∨ (commandRegex.FindStringSubmatch text).length = 3 := by
  unfold commandRegex.FindStringSubmatch
  split
  · simp only
    split
    · simp
    · split
      · split <;> simp
      · simp
  · simp

theorem anyCommandCheck_state {σ : Type} (u : Update) (s : σ) :
    (anyCommandCheck u s).2 = s := by
  unfold anyCommandCheck
  cases u.Message with
  | none => rfl
  | some msg =>
    cases hself : u.BotSelf <;>
      cases hget : (commandRegex.FindStringSubmatch msg.Text)[2]? <;>
      simp only [sliceIndex, M.andThen, M.ret, M.raise, hget] <;>
      repeat' split
    all_goals first | rfl | skip
    all_goals simp only [M.andThen, M.ret, M.raise]
    all_goals repeat' split
    all_goals rfl

theorem IsAnyCommandMessage_state {σ : Type} (u : Update) (s : σ) :
    (IsAnyCommandMessage u s).2 = s := by
  have h := anyCommandCheck_state u s
  simp only [IsAnyCommandMessage, And, IsMessage, M.andThen, M.ret]
  cases u.Message.isSome with
  | false => rfl
  | true =>
    simp only [Bool.not_true, Bool.false_eq_true, if_false]
    rcases hc : anyCommandCheck u s with ⟨res, s1⟩
    rw [hc] at h
    simp only at h
    subst h
    cases res with
    | ok b => cases b <;> simp [M.andThen, M.ret, hc]
    | panicked p => simp [M.andThen, hc]

theorem command_filters_safe_without_message_aux {σ : Type} (cmd : String) (u : Update)
    (s : σ) :
    ∀ s1, IsAnyCommandMessage u s = (.ok true, s1) →
      s1 = s ∧ (commandRegex.FindStringSubmatch ((u.Message.getD ⟨""⟩).Text)).length = 3
      ∧ ∃ b, commandNameCheck cmd u s1 = (.ok b, s1) := by
  intro s1 hany
  cases hmsg : u.Message with
  | none =>
    simp [IsAnyCommandMessage, And, IsMessage, M.andThen, M.ret, hmsg] at hany
  | some msg =>
    rcases FindStringSubmatch_length msg.Text with hlen | hlen
    · simp [IsAnyCommandMessage, And, IsMessage, anyCommandCheck, M.andThen, M.ret, hmsg,
        hlen] at hany
    · have hs : s1 = s := by
        have h := IsAnyCommandMessage_state u s
        rw [hany] at h
        exact h
      subst hs
      refine ⟨rfl, ?_, ?_⟩
      · simpa [hmsg] using hlen
      · cases hget : (commandRegex.FindStringSubmatch msg.Text)[1]? with
        | none =>
          rw [List.getElem?_eq_none_iff] at hget
          omega
        | some g1 =>
          exact ⟨g1 == cmd, by simp [commandNameCheck, sliceIndex, M.andThen, M.ret, hmsg, hget]⟩

/-- C12: on an update without message both command filters return false, the
conjunction having stopped at `IsMessage`, so that `u.Message.Text` is not read;
and whenever `IsAnyCommandMessage` has accepted the update, the second conjunct
of `IsCommandMessage(cmd)` returns a result: the regex has matched, and reading
capture group 1 does not panic. -/
theorem command_filters_safe_without_message {σ : Type} (cmd : String) (u : Update) (s : σ) :
    (u.Message = none →
      IsAnyCommandMessage u s = (.ok false, s) ∧ IsCommandMessage cmd u s = (.ok false, s))
    ∧ (∀ s1, IsAnyCommandMessage u s = (.ok true, s1) →
        s1 = s ∧ (commandRegex.FindStringSubmatch ((u.Message.getD ⟨""⟩).Text)).length = 3
        ∧ ∃ b, commandNameCheck cmd u s1 = (.ok b, s1)) := by
  constructor
  · intro hmsg
    simp [IsCommandMessage, IsAnyCommandMessage, And, IsMessage, M.andThen, M.ret, hmsg]
  · exact command_filters_safe_without_message_aux cmd u s

/-- C12 on a callback-like update without message, and on the text `/foo`. -/
theorem command_filters_safe_without_message_witness :
    (IsAnyCommandMessage emptyUpdate () = (.ok false, ())
      ∧ IsCommandMessage "foo" emptyUpdate () = (.ok false, ()))
    ∧ ∃ b, commandNameCheck "foo" ⟨some ⟨"/foo"⟩, none, 0⟩ () = (.ok b, ()) :=
  ⟨(command_filters_safe_without_message "foo" emptyUpdate ()).1 rfl,
    ((command_filters_safe_without_message "foo" ⟨some ⟨"/foo"⟩, none, 0⟩ ()).2 ()
      (by decide)).2.2⟩


/-! ## Command routes -/

theorem intercalate_go_data (acc : String) (rest : List String) :
    (String.intercalate.go acc " " rest).data
      = acc.data ++ (rest.map fun a => ' ' :: a.data).flatten := by
  induction rest generalizing acc with
  | nil => simp [String.intercalate.go]
  | cons a rest ih =>
    simp [String.intercalate.go, ih, String.data_append]

theorem intercalate_space_data (vs : List String) :
    (" ".intercalate vs).data = [' '].intercalate (vs.map String.data) := by
  cases vs with
  | nil => rfl
  | cons a rest =>
    simp only [String.intercalate, intercalate_go_data, List.intercalate, List.map_cons]
    induction rest generalizing a with
    | nil => simp
    | cons b rest ih =>
      have := ih b
      simp [List.intersperse] at this ⊢
      exact this

theorem SplitSpace_intercalate (vs : List String) (hne : vs ≠ [])
    (hsp : ∀ v ∈ vs, ' ' ∉ v.data) :
    strings.SplitSpace (" ".intercalate vs) = vs := by
  unfold strings.SplitSpace
  rw [intercalate_space_data, List.splitOn_intercalate]
  · simp [List.map_map, Function.comp_def]
  · intro l hl
    simp only [List.mem_map] at hl
    obtain ⟨v, hv, rfl⟩ := hl
    exact hsp v hv
  · simpa using hne

theorem TrimSlash_plain (c : String) (h : c.data.head? ≠ some '/') :
    strings.TrimSlash c = c := by
  unfold strings.TrimSlash
  split
  · rename_i rest heq
    simp [heq] at h
  · rfl

theorem TrimSlash_slash (c : String) : strings.TrimSlash ("/" ++ c) = c := by
  simp [strings.TrimSlash, String.data_append]

theorem variants_names (variants names : List String)
    (hvar : List.Forall₂ (fun v c => v = c ∨ v = "/" ++ c) variants names)
    (hnames : ∀ c ∈ names, ' ' ∉ c.data ∧ c.data.head? ≠ some '/') :
    variants.map strings.TrimSlash = names ∧ ∀ v ∈ variants, ' ' ∉ v.data := by
  induction hvar with
  | nil => simp
  | @cons v c vs cs hvc _ ih =>
    have hc := hnames c (by simp)
    have ih2 := ih (fun c2 h2 => hnames c2 (by simp [h2]))
    constructor
    · rcases hvc with h | h
      · subst h
        simp [TrimSlash_plain v hc.2, ih2.1]
      · subst h
        simp [TrimSlash_slash, ih2.1]
    · intro w hw
      simp only [List.mem_cons] at hw
      rcases hw with hw | hw
      · subst hw
        rcases hvc with h | h
        · subst h
          exact hc.1
        · subst h
          simp [String.data_append, hc.1]
      · exact ih2.2 w hw

theorem IsCommandMessage_cases {σ : Type} (u : Update) (s : σ) :
    (∀ c : String, ∃ b, IsCommandMessage c u s = (.ok b, s))
      ∨ ∃ p, ∀ c : String, IsCommandMessage c u s = (.panicked p, s) := by
  have hst := IsAnyCommandMessage_state u s
  rcases hany : (IsAnyCommandMessage u s : Res Bool × σ) with ⟨res, s1⟩
  rw [hany] at hst
  simp only at hst
  subst hst
  cases res with
  | ok b =>
    left
    intro c
    cases b with
    | false =>
      exact ⟨false, by simp [IsCommandMessage, And, M.andThen, M.ret, hany]⟩
    | true =>
      obtain ⟨_, _, b, hb⟩ := (command_filters_safe_without_message_aux c u s1) s1 hany
      exact ⟨b, by
        cases b <;> simp [IsCommandMessage, And, M.andThen, M.ret, hany, hb]⟩
  | panicked p =>
    right
    exact ⟨p, fun c => by simp [IsCommandMessage, And, M.andThen, hany]⟩

theorem Or_of_results {σ : Type} (u : Update) (s : σ) (f : String → FilterMatcher σ)
    (names : List String) (h : ∀ c : String, ∃ b, f c u s = (.ok b, s)) :
    ∃ b, Or (names.map f) u s = (.ok b, s)
      ∧ (b = true ↔ ∃ c ∈ names, f c u s = (.ok true, s)) := by
  induction names with
  | nil => exact ⟨false, by simp [Or, M.ret]⟩
  | cons c cs ih =>
    obtain ⟨b, hb⟩ := h c
    obtain ⟨b2, hor, hiff⟩ := ih
    cases b with
    | true =>
      exact ⟨true, by simp [Or, M.andThen, M.ret, hb]⟩
    | false =>
      refine ⟨b2, by simp [Or, M.andThen, M.ret, hb, hor], ?_⟩
      rw [hiff]
      simp [hb]

/-- C13: for a space-delimited list of command names, each optionally written
with a leading slash, the route built by `NewCommandRoute` with a nil extra
filter has the filter `And(IsMessage(), Or(IsCommandMessage(c1), ...,
IsCommandMessage(cn)))`: it matches an update exactly when the update carries
a message and `IsCommandMessage(ci)` matches it for some `i`. -/
theorem NewCommandRoute_matches_listed_commands {σ : Type} (variants names : List String)
    (handler : Handler σ) (u : Update) (s : σ)
    (hne : names ≠ [])
    (hvar : List.Forall₂ (fun v c => v = c ∨ v = "/" ++ c) variants names)
    (hnames : ∀ c ∈ names, ' ' ∉ c.data ∧ c.data.head? ≠ some '/') :
    (NewCommandRoute (" ".intercalate variants) none handler).Match u
      = And [IsMessage, Or (names.map fun c => IsCommandMessage c)] u
    ∧ ((NewCommandRoute (" ".intercalate variants) none handler).Match u s = (.ok true, s)
        ↔ u.Message.isSome = true ∧ ∃ c ∈ names, IsCommandMessage c u s = (.ok true, s)) := by
  obtain ⟨htrim, hsp⟩ := variants_names variants names hvar hnames
  have hvne : variants ≠ [] := by
    intro h
    subst h
    cases hvar
    exact hne rfl
  have hsplit := SplitSpace_intercalate variants hvne hsp
  have hfilters : (strings.SplitSpace (" ".intercalate variants)).map
      (fun variant => (IsCommandMessage (strings.TrimSlash variant) : FilterMatcher σ))
      = names.map fun c => IsCommandMessage c := by
    rw [hsplit, ← htrim, List.map_map]
    rfl
  have hmatch : (NewCommandRoute (" ".intercalate variants) none handler).Match u
      = And [IsMessage, Or (names.map fun c => IsCommandMessage c)] u := by
    simp only [NewCommandRoute, NewMessageRoute, NewRoute, routeHandler.Match, hfilters]
  refine ⟨hmatch, ?_⟩
  rw [hmatch]
  cases hmsg : u.Message.isSome with
  | false => simp [And, IsMessage, M.andThen, M.ret, hmsg]
  | true =>
    have hand : And [IsMessage, Or (names.map fun c => (IsCommandMessage c : FilterMatcher σ))] u s
        = match Or (names.map fun c => (IsCommandMessage c : FilterMatcher σ)) u s with
          | (.ok b, s1) => (.ok b, s1)
          | (.panicked p, s1) => (.panicked p, s1) := by
      simp only [And, IsMessage, M.andThen, M.ret, hmsg]
      rcases hor : Or (names.map fun c => (IsCommandMessage c : FilterMatcher σ)) u s
        with ⟨res, s1⟩
      cases res with
      | ok b => cases b <;> simp [M.andThen, M.ret, And, hor]
      | panicked p => simp [M.andThen, hor]
    rw [hand]
    rcases IsCommandMessage_cases u s with hok | ⟨p, hp⟩
    · obtain ⟨b, hor, hiff⟩ := Or_of_results u s (fun c => IsCommandMessage c) names hok
      rw [hor]
      simp only [true_and]
      rw [← hiff]
      simp
    · obtain ⟨c, cs, hcs⟩ := List.exists_cons_of_ne_nil hne
      subst hcs
      have hpanic : Or ((c :: cs).map fun c => (IsCommandMessage c : FilterMatcher σ)) u s
          = (.panicked p, s) := by
        simp [Or, M.andThen, hp c]
      rw [hpanic]
      simp [hp]

/-- C13 on the example of the package tests: `NewCommandRoute("foo bar", nil, h)`
accepts `/foo 42` and `/bar 42` and rejects `/baz 42`. -/
theorem NewCommandRoute_matches_listed_commands_witness :
    " ".intercalate ["foo", "/bar"] = "foo /bar"
    ∧ ((NewCommandRoute "foo /bar" none (constHandler (.ok none))).Match
          ⟨some ⟨"/foo 42"⟩, some ⟨"testbot"⟩, 0⟩ () = (.ok true, ())
        ↔ (some (Message.mk "/foo 42")).isSome = true
          ∧ ∃ c ∈ ["foo", "bar"],
              IsCommandMessage c ⟨some ⟨"/foo 42"⟩, some ⟨"testbot"⟩, 0⟩ () = (.ok true, ()))
    ∧ (NewCommandRoute "foo bar" none (constHandler (.ok none))).Match
        ⟨some ⟨"/foo 42"⟩, some ⟨"testbot"⟩, 0⟩ () = (.ok true, ())
    ∧ (NewCommandRoute "foo bar" none (constHandler (.ok none))).Match
        ⟨some ⟨"/bar 42"⟩, some ⟨"testbot"⟩, 0⟩ () = (.ok true, ())
    ∧ (NewCommandRoute "foo bar" none (constHandler (.ok none))).Match
        ⟨some ⟨"/baz 42"⟩, some ⟨"testbot"⟩, 0⟩ () = (.ok false, ()) :=
  ⟨by decide,
    (NewCommandRoute_matches_listed_commands ["foo", "/bar"] ["foo", "bar"]
      (constHandler (.ok none)) ⟨some ⟨"/foo 42"⟩, some ⟨"testbot"⟩, 0⟩ ()
      (by decide)
      (List.Forall₂.cons (Or.inl rfl) (List.Forall₂.cons (Or.inr (by decide)) List.Forall₂.nil))
      (by decide)).2,
    by decide, by decide, by decide⟩


/-! ## Conversation routes -/

/-- C14: without effective user or effective chat the filter of a conversation
route returns false and leaves the state as it is; otherwise, with `state` the
answer of `GetState` for the key (conversation id, user id, chat id) and `rt`
the route registered for `state`, the filter returns what `rt.Match(u)`
returns, called with `u.PersistenceContext` set for that key, and
`u.PersistenceContext` is nil afterwards; so the conversation route does not
match when `rt` does not. -/
theorem conversation_Match_is_state_route_Match {τ : Type} (m : UpdateMethods)
    (conversationID : String) (persistence : ConversationPersistence τ)
    (states : StateMap (ConvState τ)) (defaultHandler : Handler (ConvState τ)) (u : Update)
    (s : ConvState τ) :
    ((m.EffectiveUser u = none ∨ m.EffectiveChat u = none) →
      (NewConversationRoute m conversationID persistence states defaultHandler).Match u s
        = (.ok false, s))
    ∧ (∀ (user chat : Int) (state : String) (s1 : ConvState τ) (rt : Route (ConvState τ)),
        m.EffectiveUser u = some user → m.EffectiveChat u = some chat →
        persistence.GetState ⟨conversationID, user, chat⟩ s = (.ok state, s1) →
        states state = some rt →
          (NewConversationRoute m conversationID persistence states defaultHandler).Match u s
            = ((rt.Match u
                  { s1 with PersistenceContext := some ⟨⟨conversationID, user, chat⟩, none⟩ }).1,
               { (rt.Match u
                  { s1 with PersistenceContext
                      := some ⟨⟨conversationID, user, chat⟩, none⟩ }).2 with
                  PersistenceContext := none })
          ∧ ((NewConversationRoute m conversationID persistence states defaultHandler).Match
              u s).2.PersistenceContext = none
          ∧ (∀ s2, rt.Match u
                { s1 with PersistenceContext := some ⟨⟨conversationID, user, chat⟩, none⟩ }
                = (.ok false, s2) →
              ((NewConversationRoute m conversationID persistence states defaultHandler).Match
                u s).1 = .ok false)) := by
  constructor
  · intro h
    simp only [NewConversationRoute, NewRoute, routeHandler.Match, conversationFilter]
    rcases h with h | h
    · rw [h]
      rfl
    · rw [h]
      cases m.EffectiveUser u <;> rfl
  · intro user chat state s1 rt huser hchat hget hrt
    have hmatch :
        (NewConversationRoute m conversationID persistence states defaultHandler).Match u s
          = ((rt.Match u
                { s1 with PersistenceContext := some ⟨⟨conversationID, user, chat⟩, none⟩ }).1,
             { (rt.Match u
                { s1 with PersistenceContext
                    := some ⟨⟨conversationID, user, chat⟩, none⟩ }).2 with
                PersistenceContext := none }) := by
      simp only [NewConversationRoute, NewRoute, routeHandler.Match, conversationFilter, huser,
        hchat, M.andThen, hget, hrt]
    refine ⟨hmatch, ?_, ?_⟩
    · rw [hmatch]
    · intro s2 h2
      rw [hmatch, h2]

/-- C14 on the conversation of the tests in state `ask_name`: the text `/name`
matches, the text `/cancel` does not; and an update without user does not
match. -/
theorem conversation_Match_is_state_route_Match_witness :
    (testConversation "ask_name").Match (textUpdate "/cancel") ⟨none, []⟩
      = (.ok false, ⟨none, []⟩)
    ∧ (NewConversationRoute noUserMethods "test" (constPersistence "ask_name") testStates
        (logHandler "default" none)).Match (textUpdate "/name") ⟨none, []⟩
      = (.ok false, ⟨none, []⟩) :=
  ⟨((conversation_Match_is_state_route_Match testMethods "test" (constPersistence "ask_name")
      testStates (logHandler "default" none) (textUpdate "/cancel") ⟨none, []⟩).2 13 37
      "ask_name" ⟨none, []⟩
      (NewCommandRoute "name" none (logHandler "name" (some "ask_age"))).toRoute
      rfl rfl rfl rfl).1,
    (conversation_Match_is_state_route_Match noUserMethods "test" (constPersistence "ask_name")
      testStates (logHandler "default" none) (textUpdate "/name") ⟨none, []⟩).1 (Or.inl rfl)⟩

/-- C15 (the code at the failing input): the conversation is in the non-empty
state `ask_name`, whose route accepts `/name` only, and the default handler
would write `default`. For the text `/cancel` the conversation route does not
match, so a router holding it finds no route and returns `ErrRouteNotFound`:
the world is unchanged, the default handler has not run. -/
theorem conversation_default_handler_not_attempted :
    (testConversation "ask_name").Match (textUpdate "/cancel") ⟨none, []⟩
      = (.ok false, ⟨none, []⟩)
    ∧ Router.Handle ⟨[(testConversation "ask_name").toRoute], emptyConfigOf _⟩
        (textUpdate "/cancel") ⟨none, []⟩
      = (.ok (some GoError.ErrRouteNotFound), ⟨none, []⟩) := by
  decide

/-- C16: the handler of a conversation route first runs the handler of the
route `rt` registered for the current state, with `u.PersistenceContext` set.
When that handler has returned and has left a new state `newState`, and a
route `next` is registered under `newState ++ ":enter"`, then `next` handles
the update once, in the state the first handler left (the same
`PersistenceContext`), before the conversation handler returns, and its result
is what the conversation handler returns. When no new state was set, or no
such route is registered, no further handler runs. -/
theorem conversation_Handle_enter_hook {τ : Type} (m : UpdateMethods)
    (conversationID : String) (persistence : ConversationPersistence τ)
    (states : StateMap (ConvState τ)) (defaultHandler : Handler (ConvState τ)) (u : Update)
    (s s1 s2 : ConvState τ) (user chat : Int) (state : String) (rt : Route (ConvState τ))
    (err : Option GoError) (pc : PersistenceContext)
    (huser : m.EffectiveUser u = some user) (hchat : m.EffectiveChat u = some chat)
    (hget : persistence.GetState ⟨conversationID, user, chat⟩ s = (.ok state, s1))
    (hnil : s1.PersistenceContext = none)
    (hrt : states state = some rt)
    (hhandle : rt.Handle u
        { s1 with PersistenceContext := some ⟨⟨conversationID, user, chat⟩, none⟩ }
        = (.ok err, s2))
    (hpc : s2.PersistenceContext = some pc) :
    (∀ (newState : String) (next : Route (ConvState τ)),
        pc.NewState = some newState → states (newState ++ ":enter") = some next →
        (NewConversationRoute m conversationID persistence states defaultHandler).Handle u s
          = ((next.Handle u s2).1, { (next.Handle u s2).2 with PersistenceContext := none }))
    ∧ (pc.NewState = none →
        (NewConversationRoute m conversationID persistence states defaultHandler).Handle u s
          = (.ok err, { s2 with PersistenceContext := none }))
    ∧ (∀ newState : String, pc.NewState = some newState →
        states (newState ++ ":enter") = none →
        (NewConversationRoute m conversationID persistence states defaultHandler).Handle u s
          = (.ok err, { s2 with PersistenceContext := none })) := by
  have hbody : (NewConversationRoute m conversationID persistence states defaultHandler).Handle u s
      = ((enterHook states u (.ok err) s2).1,
          { (enterHook states u (.ok err) s2).2 with PersistenceContext := none }) := by
    simp only [NewConversationRoute, NewRoute, routeHandler.Handle, routeHandler.wrap, wrapLoop,
      List.length_nil, conversationHandler, huser, hchat, M.andThen, hget, hrt, hnil,
      Option.isNone_none, if_true, hhandle]
  refine ⟨?_, ?_, ?_⟩
  · intro newState next hnew hnext
    rw [hbody]
    simp only [enterHook, hpc, hnew, hnext]
    rcases next.Handle u s2 with ⟨res, s3⟩
    cases res <;> rfl
  · intro hnone
    rw [hbody]
    simp only [enterHook, hpc, hnone]
  · intro newState hnew hnext
    rw [hbody]
    simp only [enterHook, hpc, hnew, hnext]

/-- C16 on the conversation of the tests: in state `ask_name` the command `/name`
runs the state handler and then the enter route of `ask_age`, once; in state
`ask_age` the command `/age` sets no new state and runs its handler only. -/
theorem conversation_Handle_enter_hook_witness :
    (testConversation "ask_name").Handle (textUpdate "/name") ⟨none, []⟩
      = (.ok none, ⟨none, ["name", "enter"]⟩)
    ∧ (testConversation "ask_age").Handle (textUpdate "/age") ⟨none, []⟩
      = (.ok none, ⟨none, ["age"]⟩) :=
  ⟨(conversation_Handle_enter_hook testMethods "test" (constPersistence "ask_name") testStates
      (logHandler "default" none) (textUpdate "/name") ⟨none, []⟩ ⟨none, []⟩
      ⟨some ⟨⟨"test", 13, 37⟩, some "ask_age"⟩, ["name"]⟩ 13 37 "ask_name"
      (NewCommandRoute "name" none (logHandler "name" (some "ask_age"))).toRoute none
      ⟨⟨"test", 13, 37⟩, some "ask_age"⟩ rfl rfl rfl rfl rfl rfl rfl).1 "ask_age"
      (NewRoute none (logHandler "enter" none) []).toRoute rfl rfl,
    (conversation_Handle_enter_hook testMethods "test" (constPersistence "ask_age") testStates
      (logHandler "default" none) (textUpdate "/age") ⟨none, []⟩ ⟨none, []⟩
      ⟨some ⟨⟨"test", 13, 37⟩, none⟩, ["age"]⟩ 13 37 "ask_age"
      (NewCommandRoute "age" none (logHandler "age" none)).toRoute none
      ⟨⟨"test", 13, 37⟩, none⟩ rfl rfl rfl rfl rfl rfl rfl).2.1 rfl⟩

/-! ## What `Router.Handle` returns -/

/-- When the loop of `matchRoute` gives no handler, no fallback was given and
every route has rejected the update. -/
theorem matchLoop_none {σ : Type} (fallback : Option (Handler σ)) (u : Update) :
    ∀ (routes : List (Route σ)) (s s1 : σ),
      matchLoop fallback routes u s = (.ok none, s1) →
        fallback = none ∧ allReject routes u s s1 := by
  intro routes
  induction routes with
  | nil =>
    intro s s1 h
    simp only [matchLoop, M.ret, Prod.mk.injEq, Res.ok.injEq] at h
    exact ⟨h.1, h.2.symm⟩
  | cons route routes ih =>
    intro s s1 h
    rcases hm : route.Match u s with ⟨res, s0⟩
    cases res with
    | panicked p => simp [matchLoop, M.andThen, hm] at h
    | ok b =>
      cases b with
      | true => simp [matchLoop, M.andThen, M.ret, hm] at h
      | false =>
        have h2 : matchLoop fallback routes u s0 = (.ok none, s1) := by
          simpa [matchLoop, M.andThen, hm] using h
        obtain ⟨hf, hall⟩ := ih s0 s1 h2
        exact ⟨hf, s0, hm, hall⟩

/-- When every route rejects the update, the loop of `matchRoute` gives the
fallback. -/
theorem matchLoop_of_allReject {σ : Type} (fallback : Option (Handler σ)) (u : Update) :
    ∀ (routes : List (Route σ)) (s s1 : σ), allReject routes u s s1 →
      matchLoop fallback routes u s = (.ok fallback, s1) := by
  intro routes
  induction routes with
  | nil =>
    intro s s1 h
    simp only [allReject] at h
    rw [h]
    rfl
  | cons route routes ih =>
    intro s s1 h
    obtain ⟨s0, hm, hrest⟩ := h
    simp only [matchLoop, M.andThen, hm, Bool.false_eq_true, if_false]
    exact ih s0 s1 hrest

/-- C28: if `Router.Handle` returns a non-nil error `e`, the update has passed
the global filter (or none is configured) and one of two things happened.
Either no not-found handler is configured, every mounted route has rejected
the update, and `e` is `ErrRouteNotFound`. Or a not-found handler `nf` is
configured, the handler `h` that `matchRoute` selected (that of the first
matching route, or `nf` itself when none matches) returned an error for which
`errors.Is(err, ErrRouteNotFound)` holds, and `e` is what `nf`, called after
that, returned. In the other cases without panic `Handle` returns nil: when
the global filter rejects, when the selected handler returns nil, and when it
returns another error, with or without an error handler. And in the two
cases `Handle` does return these values: `ErrRouteNotFound` when every mounted
route rejects the update and no not-found handler is configured, and the
result of `nf` when the selected handler has returned such an error. -/
theorem Router_Handle_nonnil_only_for_RouteNotFound {σ : Type} (r : Router σ) (u : Update)
    (s : σ) :
    (∀ (e : GoError) (s1 : σ), r.Handle u s = (.ok (some e), s1) →
      (∃ s0, r.passesGlobalFilter u s s0 ∧ r.cfg.NotFoundHandler = none ∧
          e = GoError.ErrRouteNotFound ∧ allReject r.routes u s0 s1) ∨
      (∃ (nf h : Handler σ) (s0 s2 s3 : σ) (e0 : GoError),
          r.passesGlobalFilter u s s0 ∧ r.cfg.NotFoundHandler = some nf ∧
          r.matchRoute u s0 = (.ok (some h), s2) ∧ h u s2 = (.ok (some e0), s3) ∧
          e0.isRouteNotFound = true ∧ nf u s3 = (.ok (some e), s1))) ∧
    (∀ (g : FilterMatcher σ) (s0 : σ), r.cfg.GlobalFilter = some g →
      g u s = (.ok false, s0) → r.Handle u s = (.ok none, s0)) ∧
    (∀ (h : Handler σ) (s0 s2 s3 : σ), r.passesGlobalFilter u s s0 →
      r.matchRoute u s0 = (.ok (some h), s2) → h u s2 = (.ok none, s3) →
        r.Handle u s = (.ok none, s3)) ∧
    (∀ (h : Handler σ) (s0 s2 s3 : σ) (e0 : GoError), r.passesGlobalFilter u s s0 →
      r.matchRoute u s0 = (.ok (some h), s2) → h u s2 = (.ok (some e0), s3) →
      e0.isRouteNotFound = false →
        (r.cfg.ErrorHandler = none → r.Handle u s = (.ok none, s3)) ∧
        (∀ eh s4, r.cfg.ErrorHandler = some eh → eh u e0 s3 = (.ok (), s4) →
          r.Handle u s = (.ok none, s4))) ∧
    (∀ (s0 s1 : σ), r.passesGlobalFilter u s s0 → r.cfg.NotFoundHandler = none →
      allReject r.routes u s0 s1 →
        r.Handle u s = (.ok (some GoError.ErrRouteNotFound), s1)) ∧
    (∀ (nf h : Handler σ) (s0 s2 s3 s1 : σ) (e0 : GoError) (err : Option GoError),
      r.passesGlobalFilter u s s0 → r.cfg.NotFoundHandler = some nf →
      r.matchRoute u s0 = (.ok (some h), s2) → h u s2 = (.ok (some e0), s3) →
      e0.isRouteNotFound = true → nf u s3 = (.ok err, s1) →
        r.Handle u s = (.ok err, s1)) := by
  have hbody : ∀ s0, r.passesGlobalFilter u s s0 → r.handleBody u s = r.dispatch u s0 := by
    intro s0 hp
    unfold Router.passesGlobalFilter at hp
    unfold Router.handleBody
    cases hg : r.cfg.GlobalFilter with
    | none => rw [hg] at hp; rw [hp]
    | some g =>
      rw [hg] at hp
      simp [Router.Match, hg, M.andThen, hp]
  refine ⟨?_, ?_, ?_, ?_, ?_, ?_⟩
  · intro e s1 h
    have hb : r.handleBody u s = (.ok (some e), s1) := by
      unfold Router.Handle at h
      rcases hh : r.handleBody u s with ⟨res, t⟩
      rw [hh] at h
      cases res with
      | ok err => simpa using h
      | panicked p =>
        exfalso
        simp only [Router.tryRecover] at h
        cases hr : r.cfg.RecoverHandler with
        | none => simp [hr, M.raise] at h
        | some rh =>
          rcases hrh : rh u p.toError t with ⟨res2, t2⟩
          cases res2 <;> simp [hr, M.andThen, M.ret, hrh] at h
    have hpass : ∃ s0, r.passesGlobalFilter u s s0 ∧ r.dispatch u s0 = (.ok (some e), s1) := by
      unfold Router.handleBody at hb
      cases hg : r.cfg.GlobalFilter with
      | none =>
        rw [hg] at hb
        exact ⟨s, by simp [Router.passesGlobalFilter, hg], hb⟩
      | some g =>
        rw [hg] at hb
        rcases hgu : g u s with ⟨res, s0⟩
        cases res with
        | panicked p => simp [Router.Match, hg, M.andThen, hgu] at hb
        | ok passed =>
          cases passed with
          | false => simp [Router.Match, hg, M.andThen, M.ret, hgu] at hb
          | true =>
            refine ⟨s0, by simp [Router.passesGlobalFilter, hg, hgu], ?_⟩
            simpa [Router.Match, hg, M.andThen, hgu] using hb
    obtain ⟨s0, hp, hd⟩ := hpass
    unfold Router.dispatch at hd
    rcases hm : r.matchRoute u s0 with ⟨res, s2⟩
    cases res with
    | panicked p => simp [M.andThen, hm] at hd
    | ok route =>
      cases route with
      | none =>
        obtain ⟨hnf, hall⟩ := matchLoop_none r.cfg.NotFoundHandler u r.routes s0 s2 hm
        left
        simp only [M.andThen, hm, hnf, M.ret, Prod.mk.injEq, Res.ok.injEq,
          Option.some.injEq] at hd
        obtain ⟨he, hs⟩ := hd
        subst hs
        exact ⟨s0, hp, hnf, he.symm, hall⟩
      | some h =>
        right
        rcases hh : h u s2 with ⟨res2, s3⟩
        cases res2 with
        | panicked p => simp [M.andThen, hm, hh] at hd
        | ok err =>
          have ha : r.afterRoute u err s3 = (.ok (some e), s1) := by
            simpa [M.andThen, hm, hh] using hd
          cases err with
          | none => simp [Router.afterRoute, M.ret] at ha
          | some e0 =>
            unfold Router.afterRoute at ha
            cases hnf : r.cfg.NotFoundHandler with
            | some nf =>
              cases hrnf : e0.isRouteNotFound with
              | true =>
                simp only [hnf, hrnf] at ha
                exact ⟨nf, h, s0, s2, s3, e0, hp, rfl, hm, hh, hrnf, ha⟩
              | false =>
                exfalso
                simp only [hnf, hrnf] at ha
                cases heh : r.cfg.ErrorHandler with
                | none => simp [heh, M.ret] at ha
                | some eh =>
                  rcases he : eh u e0 s3 with ⟨res3, s4⟩
                  cases res3 <;> simp [heh, M.andThen, M.ret, he] at ha
            | none =>
              exfalso
              have ha2 : (match r.cfg.ErrorHandler with
                  | some eh => M.andThen (eh u e0) fun _ => M.ret none
                  | none => M.ret none) s3 = (.ok (some e), s1) := by
                cases hrnf : e0.isRouteNotFound <;> simpa [hnf, hrnf] using ha
              cases heh : r.cfg.ErrorHandler with
              | none => simp [heh, M.ret] at ha2
              | some eh =>
                rcases he : eh u e0 s3 with ⟨res3, s4⟩
                cases res3 <;> simp [heh, M.andThen, M.ret, he] at ha2
  · intro g s0 hg hgu
    simp [Router.Handle, Router.handleBody, Router.Match, hg, M.andThen, M.ret, hgu]
  · intro h s0 s2 s3 hp hm hh
    simp [Router.Handle, hbody s0 hp, Router.dispatch, M.andThen, hm, hh, Router.afterRoute,
      M.ret]
  · intro h s0 s2 s3 e0 hp hm hh hrnf
    constructor
    · intro heh
      cases hnf : r.cfg.NotFoundHandler <;>
        simp [Router.Handle, hbody s0 hp, Router.dispatch, M.andThen, hm, hh, Router.afterRoute,
          M.ret, hrnf, heh, hnf]
    · intro eh s4 heh he
      cases hnf : r.cfg.NotFoundHandler <;>
        simp [Router.Handle, hbody s0 hp, Router.dispatch, M.andThen, hm, hh, Router.afterRoute,
          M.ret, hrnf, heh, hnf, he]
  · intro s0 s1 hp hnf hall
    have hm : r.matchRoute u s0 = (.ok none, s1) := by
      unfold Router.matchRoute
      rw [hnf]
      exact matchLoop_of_allReject none u r.routes s0 s1 hall
    simp [Router.Handle, hbody s0 hp, Router.dispatch, M.andThen, hm, hnf, M.ret]
  · intro nf h s0 s2 s3 s1 e0 err hp hnf hm hh hrnf hnfu
    simp [Router.Handle, hbody s0 hp, Router.dispatch, M.andThen, hm, hh, Router.afterRoute,
      hrnf, hnf, hnfu]

/-- C28 at work. A router without not-found handler whose only route rejects
the update returns `ErrRouteNotFound`, which is the first of the two cases. A
router whose route returns `ErrRouteNotFound` and whose not-found handler
fails with `boom` returns `boom`. A router without error handler whose route
fails with `boom` returns nil. -/
theorem Router_Handle_nonnil_only_for_RouteNotFound_witness :
    Router.Handle ⟨[constRoute false (.ok none)], emptyConfig⟩ emptyUpdate ()
      = (.ok (some GoError.ErrRouteNotFound), ()) ∧
    ((∃ s0, Router.passesGlobalFilter ⟨[constRoute false (.ok none)], emptyConfig⟩ emptyUpdate ()
          s0 ∧
        emptyConfig.NotFoundHandler = none ∧
        GoError.ErrRouteNotFound = GoError.ErrRouteNotFound ∧
        allReject [constRoute false (.ok none)] emptyUpdate s0 ()) ∨
      (∃ (nf h : Handler Unit) (s0 s2 s3 : Unit) (e0 : GoError),
        Router.passesGlobalFilter ⟨[constRoute false (.ok none)], emptyConfig⟩ emptyUpdate ()
          s0 ∧
        emptyConfig.NotFoundHandler = some nf ∧
        Router.matchRoute ⟨[constRoute false (.ok none)], emptyConfig⟩ emptyUpdate s0
          = (.ok (some h), s2) ∧
        h emptyUpdate s2 = (.ok (some e0), s3) ∧
        e0.isRouteNotFound = true ∧
        nf emptyUpdate s3 = (.ok (some GoError.ErrRouteNotFound), ()))) ∧
    Router.Handle ⟨[constRoute true (.ok (some GoError.ErrRouteNotFound))],
        ⟨none, none, some (constHandler (.ok (some boom))), none⟩⟩ emptyUpdate ()
      = (.ok (some boom), ()) ∧
    Router.Handle ⟨[constRoute true (.ok (some boom))], emptyConfig⟩ emptyUpdate ()
      = (.ok none, ()) :=
  ⟨(Router_Handle_nonnil_only_for_RouteNotFound ⟨[constRoute false (.ok none)], emptyConfig⟩
      emptyUpdate ()).2.2.2.2.1 () () rfl rfl ⟨(), rfl, rfl⟩,
   (Router_Handle_nonnil_only_for_RouteNotFound ⟨[constRoute false (.ok none)], emptyConfig⟩
      emptyUpdate ()).1 GoError.ErrRouteNotFound () rfl,
   (Router_Handle_nonnil_only_for_RouteNotFound
      ⟨[constRoute true (.ok (some GoError.ErrRouteNotFound))],
        ⟨none, none, some (constHandler (.ok (some boom))), none⟩⟩
      emptyUpdate ()).2.2.2.2.2 (constHandler (.ok (some boom)))
      (constRoute true (.ok (some GoError.ErrRouteNotFound))).Handle () () () ()
      GoError.ErrRouteNotFound (some boom) rfl rfl rfl rfl rfl rfl,
   ((Router_Handle_nonnil_only_for_RouteNotFound ⟨[constRoute true (.ok (some boom))], emptyConfig⟩
      emptyUpdate ()).2.2.2.1 (constRoute true (.ok (some boom))).Handle () () () boom rfl rfl rfl
      rfl).1 rfl⟩

/-! ## Conversation routes: states without route, failing state handlers -/

/-- C26 (the code at the failing input): the stored state `paid` has no entry
in the state table of the conversation of the tests. The handler of the
conversation route, called directly, runs the default handler. But its filter
calls `Match` on the nil route and panics, so a router holding the route
panics with the nil dereference when it has no recover handler, and with a
recover handler returns without the default handler having run. -/
theorem conversation_Match_panics_without_state_route :
    (testConversation "paid").Match (textUpdate "hello") ⟨none, []⟩
      = (.panicked nilDereference, ⟨none, []⟩)
    ∧ Router.Handle ⟨[(testConversation "paid").toRoute], emptyConfigOf _⟩
        (textUpdate "hello") ⟨none, []⟩
      = (.panicked nilDereference, ⟨none, []⟩)
    ∧ Router.Handle ⟨[(testConversation "paid").toRoute],
          ⟨some fun _ _ s => (.ok (), { s with world := s.world ++ ["recovered"] }), none, none,
            none⟩⟩
        (textUpdate "hello") ⟨none, []⟩
      = (.ok none, ⟨none, ["recovered"]⟩)
    ∧ (testConversation "paid").Handle (textUpdate "hello") ⟨none, []⟩
      = (.ok none, ⟨none, ["default"]⟩) := by
  decide

/-- C27: let the handler of the route registered for the current state return
the error `e`, having asked for the state `newState`, and let a route `next`
be registered under `newState ++ ":enter"`. Then `next` handles the update, in
the state the first handler left, and the conversation handler returns what
`next` returns; `e` is dropped. In particular, when `next` returns nil the
conversation handler returns nil. -/
theorem conversation_enter_hook_replaces_handler_error {τ : Type} (m : UpdateMethods)
    (conversationID : String) (persistence : ConversationPersistence τ)
    (states : StateMap (ConvState τ)) (defaultHandler : Handler (ConvState τ)) (u : Update)
    (s s1 s2 : ConvState τ) (user chat : Int) (state newState : String)
    (rt next : Route (ConvState τ)) (e : GoError) (pc : PersistenceContext)
    (huser : m.EffectiveUser u = some user) (hchat : m.EffectiveChat u = some chat)
    (hget : persistence.GetState ⟨conversationID, user, chat⟩ s = (.ok state, s1))
    (hnil : s1.PersistenceContext = none)
    (hrt : states state = some rt)
    (hhandle : rt.Handle u
        { s1 with PersistenceContext := some ⟨⟨conversationID, user, chat⟩, none⟩ }
        = (.ok (some e), s2))
    (hpc : s2.PersistenceContext = some pc)
    (hnew : pc.NewState = some newState)
    (hnext : states (newState ++ ":enter") = some next) :
    (NewConversationRoute m conversationID persistence states defaultHandler).Handle u s
        = ((next.Handle u s2).1, { (next.Handle u s2).2 with PersistenceContext := none })
    ∧ (∀ s3, next.Handle u s2 = (.ok none, s3) →
        (NewConversationRoute m conversationID persistence states defaultHandler).Handle u s
          = (.ok none, { s3 with PersistenceContext := none })) := by
  have hbody : (NewConversationRoute m conversationID persistence states defaultHandler).Handle u s
      = ((next.Handle u s2).1, { (next.Handle u s2).2 with PersistenceContext := none }) := by
    simp only [NewConversationRoute, NewRoute, routeHandler.Handle, routeHandler.wrap, wrapLoop,
      List.length_nil, conversationHandler, huser, hchat, M.andThen, hget, hrt, hnil,
      Option.isNone_none, if_true, hhandle, enterHook, hpc, hnew, hnext]
    rcases next.Handle u s2 with ⟨res, s3⟩
    cases res <;> rfl
  refine ⟨hbody, ?_⟩
  intro s3 h3
  rw [hbody, h3]

/-- C27 at work: the handler of state `ask_name` asks for `ask_age` and fails
with `boom`; the enter route of `ask_age` runs after it and returns nil, and
nil is what the conversation handler returns. -/
theorem conversation_enter_hook_replaces_handler_error_witness :
    (NewConversationRoute testMethods "test" (constPersistence "ask_name") failingStates
        (logHandler "default" none)).Handle (textUpdate "hi") ⟨none, []⟩
      = (.ok none, ⟨none, ["name", "enter"]⟩) :=
  (conversation_enter_hook_replaces_handler_error testMethods "test"
    (constPersistence "ask_name") failingStates (logHandler "default" none) (textUpdate "hi")
    ⟨none, []⟩ ⟨none, []⟩ ⟨some ⟨⟨"test", 13, 37⟩, some "ask_age"⟩, ["name"]⟩ 13 37 "ask_name"
    "ask_age" (NewRoute none (failHandler "name" "ask_age" boom) []).toRoute
    (NewRoute none (logHandler "enter" none) []).toRoute boom ⟨⟨"test", 13, 37⟩, some "ask_age"⟩
    rfl rfl rfl rfl rfl rfl rfl rfl rfl).2
    ⟨some ⟨⟨"test", 13, 37⟩, some "ask_age"⟩, ["name", "enter"]⟩ rfl

end TgRouter

namespace Echotron

/-! ## network.go -/

/-- A failed `wait` leaves the global bucket, the limiter factory and the
limiters of all other chats as they were. -/
theorem wait_failure_frame (c c1 : client) (chatID err : String) (chatOutcome globalOutcome : WaitOutcome)
    (h : c.wait chatID chatOutcome globalOutcome = (some err, c1)) :
    c1.gl = c.gl ∧ c1.climiter = c.climiter ∧
      ∀ other, other ≠ chatID → c1.cl other = c.cl other := by
  unfold client.wait at h
  by_cases hid : chatID = ""
  · simp only [hid, ne_eq, not_true_eq_false, if_false] at h
    cases globalOutcome with
    | granted => simp [Limiter.Wait] at h
    | failed e =>
      simp only [Limiter.Wait, Prod.mk.injEq] at h
      obtain ⟨_, rfl⟩ := h
      exact ⟨rfl, rfl, fun _ _ => rfl⟩
  · simp only [ne_eq, hid, not_false_eq_true, if_true] at h
    cases chatOutcome with
    | failed e =>
      simp only [Limiter.Wait, Prod.mk.injEq] at h
      obtain ⟨_, rfl⟩ := h
      exact ⟨rfl, rfl, fun other ho => by simp [client.setLimiter, ho]⟩
    | granted =>
      cases globalOutcome with
      | granted => simp [Limiter.Wait] at h
      | failed e =>
        simp only [Limiter.Wait, Prod.mk.injEq] at h
        obtain ⟨_, rfl⟩ := h
        exact ⟨rfl, rfl, fun other ho => by simp [client.setLimiter, ho]⟩

/-- C17, the claim as written fails: for a chat id, when the per-chat limiter
grants its token and the context ends during the wait on the global limiter,
`wait` fails and the per-chat bucket has lost a token. -/
theorem wait_failure_consumes_chat_token :
    (newClient.wait "42" .granted (.failed "context canceled")).1 = some "context canceled" ∧
    (newClient.chatBucket "42").taken = 0 ∧
    ((newClient.wait "42" .granted (.failed "context canceled")).2.chatBucket "42").taken = 1 := by
  decide

/-- C17, amended: when `wait` fails, the global bucket and the buckets of the
other chats keep their tokens; the bucket of the chat keeps its tokens when
the failure is the one of the per-chat limiter (or there is no chat id), and
has lost exactly one token when the failure is the one of the global
limiter. -/
theorem wait_failure_token_use (c c1 : client) (chatID err : String)
    (chatOutcome globalOutcome : WaitOutcome)
    (h : c.wait chatID chatOutcome globalOutcome = (some err, c1)) :
    c1.gl.taken = c.gl.taken ∧
    (∀ other, other ≠ chatID → c1.chatBucket other = c.chatBucket other) ∧
    (chatID = "" ∨ chatOutcome = .failed err →
      (c1.chatBucket chatID).taken = (c.chatBucket chatID).taken) ∧
    (chatID ≠ "" → chatOutcome = .granted →
      globalOutcome = .failed err ∧
      (c1.chatBucket chatID).taken = (c.chatBucket chatID).taken + 1) := by
  have hframe := wait_failure_frame c c1 chatID err chatOutcome globalOutcome h
  have hcl : c1.climiter = c.climiter := hframe.2.1
  refine ⟨by rw [hframe.1], ?_, ?_, ?_⟩
  · intro other ho
    simp only [client.chatBucket, hframe.2.2 other ho, hcl]
  · intro hcase
    unfold client.wait at h
    by_cases hid : chatID = ""
    · simp only [hid, ne_eq, not_true_eq_false, if_false] at h
      cases globalOutcome with
      | granted => simp [Limiter.Wait] at h
      | failed e =>
        simp only [Limiter.Wait, Prod.mk.injEq] at h
        obtain ⟨_, rfl⟩ := h
        rfl
    · rcases hcase with hcase | hcase
      · exact absurd hcase hid
      · subst hcase
        simp only [ne_eq, hid, not_false_eq_true, if_true, Limiter.Wait, Prod.mk.injEq,
          true_and] at h
        subst h
        cases hc : c.cl chatID <;> simp [client.chatBucket, client.setLimiter, hc]
  · intro hid hgranted
    subst hgranted
    unfold client.wait at h
    simp only [ne_eq, hid, not_false_eq_true, if_true] at h
    cases globalOutcome with
    | granted => simp [Limiter.Wait] at h
    | failed e =>
      simp only [Limiter.Wait, Prod.mk.injEq, Option.some.injEq] at h
      obtain ⟨rfl, rfl⟩ := h
      refine ⟨rfl, ?_⟩
      cases hc : c.cl chatID <;> simp [client.chatBucket, client.setLimiter, hc]

/-- The amended C17 at work: the global limiter refuses after the per-chat
limiter has granted. -/
theorem wait_failure_token_use_witness :
    (newClient.wait "42" .granted (.failed "context canceled")).2.gl.taken = newClient.gl.taken ∧
    (∀ other, other ≠ "42" →
      (newClient.wait "42" .granted (.failed "context canceled")).2.chatBucket other =
        newClient.chatBucket other) ∧
    (("42" : String) = "" ∨ WaitOutcome.granted = .failed "context canceled" →
      ((newClient.wait "42" .granted (.failed "context canceled")).2.chatBucket "42").taken =
        (newClient.chatBucket "42").taken) ∧
    (("42" : String) ≠ "" → WaitOutcome.granted = .granted →
      WaitOutcome.failed "context canceled" = .failed "context canceled" ∧
      ((newClient.wait "42" .granted (.failed "context canceled")).2.chatBucket "42").taken =
        (newClient.chatBucket "42").taken + 1) :=
  wait_failure_token_use newClient _ "42" "context canceled" .granted (.failed "context canceled") rfl


/-! ## dispatcher.go: sessions -/

/-- A lookup of a bound key returns the bound handler and changes nothing. -/
theorem sessionInstance_bound {H σ : Type} (d : Dispatcher H σ) (k : Int) (h : H)
    (hbound : d.sessionMap k = some h) : d.sessionInstance k = (h, d) := by
  simp [Dispatcher.sessionInstance, hbound]

/-- `AddSession` of a bound key changes nothing. -/
theorem AddSession_bound {H σ : Type} (d : Dispatcher H σ) (k : Int) (h : H)
    (hbound : d.sessionMap k = some h) : d.AddSession k = d := by
  simp [Dispatcher.AddSession, hbound]

/-- A lookup of another key keeps the binding of `k`, the factory, and the
number of factory calls for `k`. -/
theorem sessionInstance_other {H σ : Type} (f : NewSessionFactory H σ)
    (d : Dispatcher H (σ × List Int)) (hf : d.newSession = spyFactory f) (j k : Int)
    (hjk : j ≠ k) :
    (d.sessionInstance j).2.sessionMap k = d.sessionMap k ∧
    (d.sessionInstance j).2.newSession = spyFactory f ∧
    (d.sessionInstance j).2.env.2.count k = d.env.2.count k := by
  unfold Dispatcher.sessionInstance
  cases hj : d.sessionMap j with
  | some b => exact ⟨rfl, hf, rfl⟩
  | none =>
    have hkj : ¬ k = j := fun e => hjk e.symm
    simp [Dispatcher.store, hf, spyFactory, hkj, List.count_append, List.count_singleton, hjk]

/-- `AddSession` of another key keeps the binding of `k`, the factory, and the
number of factory calls for `k`. -/
theorem AddSession_other {H σ : Type} (f : NewSessionFactory H σ)
    (d : Dispatcher H (σ × List Int)) (hf : d.newSession = spyFactory f) (j k : Int)
    (hjk : j ≠ k) :
    (d.AddSession j).sessionMap k = d.sessionMap k ∧
    (d.AddSession j).newSession = spyFactory f ∧
    (d.AddSession j).env.2.count k = d.env.2.count k := by
  unfold Dispatcher.AddSession
  cases hj : d.sessionMap j with
  | some b => exact ⟨rfl, hf, rfl⟩
  | none =>
    have hkj : ¬ k = j := fun e => hjk e.symm
    simp [Dispatcher.store, hf, spyFactory, hkj, List.count_append, List.count_singleton, hjk]

/-- Calls other than `DeleteSession(k)` keep the handler bound to `k`, return
it at every lookup of `k`, and do not call the factory for `k`. -/
theorem run_keeps_handler {H σ : Type} (f : NewSessionFactory H σ) (k : Int) (h : H)
    (ops : List SessionOp) (hnodelete : SessionOp.delete k ∉ ops) :
    ∀ d : Dispatcher H (σ × List Int), d.newSession = spyFactory f → d.sessionMap k = some h →
      (d.run ops).2.sessionMap k = some h ∧
      (∀ p ∈ (d.run ops).1, p.1 = k → p.2 = h) ∧
      (d.run ops).2.env.2.count k = d.env.2.count k := by
  induction ops with
  | nil => intro d _ hb; exact ⟨hb, ⟨fun p hp => by simp [Dispatcher.run] at hp, rfl⟩⟩
  | cons op ops ih =>
    have hrest : SessionOp.delete k ∉ ops := fun hm => hnodelete (List.mem_cons_of_mem _ hm)
    intro d hf hb
    cases op with
    | lookup j =>
      by_cases hjk : j = k
      · subst hjk
        have hi := sessionInstance_bound d j h hb
        obtain ⟨h1, h2, h3⟩ := ih hrest d hf hb
        simp only [Dispatcher.run, hi]
        refine ⟨h1, ?_, h3⟩
        intro p hp hpk
        rcases List.mem_cons.1 hp with rfl | hp
        · rfl
        · exact h2 p hp hpk
      · obtain ⟨g1, g2, g3⟩ := sessionInstance_other f d hf j k hjk
        obtain ⟨h1, h2, h3⟩ := ih hrest (d.sessionInstance j).2 g2 (g1.trans hb)
        simp only [Dispatcher.run]
        refine ⟨h1, ?_, h3.trans g3⟩
        intro p hp hpk
        rcases List.mem_cons.1 hp with rfl | hp
        · exact absurd hpk hjk
        · exact h2 p hp hpk
    | add j =>
      by_cases hjk : j = k
      · subst hjk
        simp only [Dispatcher.run, AddSession_bound d j h hb]
        exact ih hrest d hf hb
      · obtain ⟨g1, g2, g3⟩ := AddSession_other f d hf j k hjk
        obtain ⟨h1, h2, h3⟩ := ih hrest (d.AddSession j) g2 (g1.trans hb)
        simp only [Dispatcher.run]
        exact ⟨h1, h2, h3.trans g3⟩
    | delete j =>
      have hjk : j ≠ k := fun e => hnodelete (by rw [e]; exact List.mem_cons_self _ _)
      have hkj : ¬ k = j := fun e => hjk e.symm
      have g1 : (d.DeleteSession j).sessionMap k = some h := by
        simp [Dispatcher.DeleteSession, hkj, hb]
      obtain ⟨h1, h2, h3⟩ := ih hrest (d.DeleteSession j) hf g1
      simp only [Dispatcher.run]
      exact ⟨h1, h2, h3⟩

/-- After a lookup the key is bound to the handler the lookup returned. -/
theorem sessionInstance_binds {H σ : Type} (d : Dispatcher H σ) (k : Int) :
    (d.sessionInstance k).2.sessionMap k = some (d.sessionInstance k).1 ∧
    (d.sessionInstance k).2.newSession = d.newSession := by
  unfold Dispatcher.sessionInstance
  cases hk : d.sessionMap k with
  | some b => exact ⟨hk, rfl⟩
  | none => simp [Dispatcher.store]

/-- After `AddSession` the key is bound. -/
theorem AddSession_binds {H σ : Type} (d : Dispatcher H σ) (k : Int) :
    (∃ h, (d.AddSession k).sessionMap k = some h) ∧
    (d.AddSession k).newSession = d.newSession := by
  unfold Dispatcher.AddSession
  cases hk : d.sessionMap k with
  | some b => exact ⟨⟨b, hk⟩, rfl⟩
  | none => simp [Dispatcher.store]

/-- C18: let the handler of key `k` be created by a first call, a lookup
`instance(k)` or `AddSession(k)`, and let any calls other than
`DeleteSession(k)` follow. Then one handler `h` stays bound to `k`, every
lookup of `k` (the first one included) returns `h`, and the session factory
is not called for `k` after the first call. A `DeleteSession(k)` after that
leaves `k` absent and the other keys as they were. -/
theorem sessions_keep_handler_until_deleted {H σ : Type} (f : NewSessionFactory H σ)
    (d : Dispatcher H (σ × List Int)) (hf : d.newSession = spyFactory f) (k : Int)
    (first : SessionOp) (hfirst : first = .lookup k ∨ first = .add k)
    (ops : List SessionOp) (hnodelete : SessionOp.delete k ∉ ops) :
    ∃ h : H,
      (d.run [first]).2.sessionMap k = some h ∧
      (d.run (first :: ops)).2.sessionMap k = some h ∧
      (∀ p ∈ (d.run (first :: ops)).1, p.1 = k → p.2 = h) ∧
      (d.run (first :: ops)).2.env.2.count k = (d.run [first]).2.env.2.count k ∧
      ((d.run (first :: ops)).2.DeleteSession k).sessionMap k = none ∧
      ∀ j, j ≠ k →
        ((d.run (first :: ops)).2.DeleteSession k).sessionMap j =
          (d.run (first :: ops)).2.sessionMap j := by
  have hdelete : ∀ e : Dispatcher H (σ × List Int),
      (e.DeleteSession k).sessionMap k = none ∧
      ∀ j, j ≠ k → (e.DeleteSession k).sessionMap j = e.sessionMap j :=
    fun e => ⟨by simp [Dispatcher.DeleteSession],
      fun j hj => by simp [Dispatcher.DeleteSession, hj]⟩
  rcases hfirst with rfl | rfl
  · obtain ⟨hbind, hfac⟩ := sessionInstance_binds d k
    obtain ⟨h1, h2, h3⟩ := run_keeps_handler f k (d.sessionInstance k).1 ops hnodelete
      (d.sessionInstance k).2 (hfac.trans hf) hbind
    refine ⟨(d.sessionInstance k).1, ?_, ?_, ?_, ?_, hdelete _⟩
    · simpa [Dispatcher.run] using hbind
    · simpa [Dispatcher.run] using h1
    · intro p hp hpk
      simp only [Dispatcher.run] at hp
      rcases List.mem_cons.1 hp with rfl | hp
      · rfl
      · exact h2 p hp hpk
    · simpa [Dispatcher.run] using h3
  · obtain ⟨⟨h, hbind⟩, hfac⟩ := AddSession_binds d k
    obtain ⟨h1, h2, h3⟩ := run_keeps_handler f k h ops hnodelete
      (d.AddSession k) (hfac.trans hf) hbind
    refine ⟨h, ?_, ?_, ?_, ?_, hdelete _⟩
    · simpa [Dispatcher.run] using hbind
    · simpa [Dispatcher.run] using h1
    · simpa [Dispatcher.run] using h2
    · simpa [Dispatcher.run] using h3

/-- C18 at work: chat 7 gets its handler by a lookup; lookups and additions
for chats 7 and 8 and a deletion of chat 8 follow. -/
theorem sessions_keep_handler_until_deleted_witness :
    ∃ h : Nat,
      (emptyDispatcher.run [.lookup 7]).2.sessionMap 7 = some h ∧
      (emptyDispatcher.run
        [.lookup 7, .lookup 8, .add 7, .lookup 7, .delete 8, .lookup 8]).2.sessionMap 7 = some h ∧
      (∀ p ∈ (emptyDispatcher.run
        [.lookup 7, .lookup 8, .add 7, .lookup 7, .delete 8, .lookup 8]).1, p.1 = 7 → p.2 = h) ∧
      (emptyDispatcher.run
        [.lookup 7, .lookup 8, .add 7, .lookup 7, .delete 8, .lookup 8]).2.env.2.count 7 =
        (emptyDispatcher.run [.lookup 7]).2.env.2.count 7 ∧
      ((emptyDispatcher.run
        [.lookup 7, .lookup 8, .add 7, .lookup 7, .delete 8, .lookup 8]).2.DeleteSession
          7).sessionMap 7 = none ∧
      ∀ j, j ≠ 7 →
        ((emptyDispatcher.run
          [.lookup 7, .lookup 8, .add 7, .lookup 7, .delete 8, .lookup 8]).2.DeleteSession
            7).sessionMap j =
          (emptyDispatcher.run
            [.lookup 7, .lookup 8, .add 7, .lookup 7, .delete 8, .lookup 8]).2.sessionMap j :=
  sessions_keep_handler_until_deleted freshFactory emptyDispatcher rfl 7 (.lookup 7) (Or.inl rfl)
    [.lookup 8, .add 7, .lookup 7, .delete 8, .lookup 8] (by decide)


/-- The three steps of a lookup, taken without interruption, are the source
function `instance`. -/
theorem instanceStep_uninterrupted {H σ : Type} (d : Dispatcher H σ) (k : Int) :
    Dispatcher.instanceStep k (Dispatcher.instanceStep k (Dispatcher.instanceStep k (.start, d))) =
      (.returned (d.sessionInstance k).1, (d.sessionInstance k).2) := by
  unfold Dispatcher.sessionInstance
  cases hk : d.sessionMap k with
  | some b => simp [Dispatcher.instanceStep, hk]
  | none => simp [Dispatcher.instanceStep, hk]

/-- C19, the code against the claim: `instance` does not look at the session
map again under the exclusive lock. When two lookups of the unseen chat 7
both miss before either stores, the factory is called twice, its result is
stored twice, and the two callers get different handlers. When
`AddSession(7)` runs between the miss and the store of a lookup, the handler
that `AddSession` stored is overwritten and the lookup returns another one. -/
theorem instance_race_stores_twice :
    ((Race.run 7 [.first, .second, .first, .second, .first, .second]
        ⟨.start, .start, emptyDispatcher⟩).first = .returned 0 ∧
      (Race.run 7 [.first, .second, .first, .second, .first, .second]
        ⟨.start, .start, emptyDispatcher⟩).second = .returned 1 ∧
      (Race.run 7 [.first, .second, .first, .second, .first]
        ⟨.start, .start, emptyDispatcher⟩).d.sessionMap 7 = some 0 ∧
      (Race.run 7 [.first, .second, .first, .second, .first, .second]
        ⟨.start, .start, emptyDispatcher⟩).d.sessionMap 7 = some 1 ∧
      (Race.run 7 [.first, .second, .first, .second, .first, .second]
        ⟨.start, .start, emptyDispatcher⟩).d.env.2 = [7, 7]) ∧
    ((Race.run 7 [.first, .add] ⟨.start, .start, emptyDispatcher⟩).d.sessionMap 7 = some 0 ∧
      (Race.run 7 [.first, .add, .first, .first]
        ⟨.start, .start, emptyDispatcher⟩).first = .returned 1 ∧
      (Race.run 7 [.first, .add, .first, .first]
        ⟨.start, .start, emptyDispatcher⟩).d.sessionMap 7 = some 1 ∧
      (Race.run 7 [.first, .add, .first, .first]
        ⟨.start, .start, emptyDispatcher⟩).d.env.2 = [7, 7]) := by
  decide

/-! ## dispatcher.go: the polling loop -/

/-- After the first pass every fetched batch is pushed, and every fetch uses
the timeout the loop variable holds. -/
theorem pollLoop_later (timeout : Int) (dropPendingUpdates : Bool) (batches : List (List Update)) :
    ∀ opts : UpdateOptions,
      (pollLoop timeout dropPendingUpdates (fetched batches) opts false).pushed = batches.flatten ∧
      (pollLoop timeout dropPendingUpdates (fetched batches) opts false).fetches.map
          UpdateOptions.Timeout = List.replicate batches.length opts.Timeout ∧
      (pollLoop timeout dropPendingUpdates (fetched batches) opts false).returned = none := by
  induction batches with
  | nil => intro opts; exact ⟨rfl, rfl, rfl⟩
  | cons b bs ih =>
    intro opts
    cases hlast : b.getLast? with
    | none =>
      obtain ⟨h1, h2, h3⟩ := ih opts
      simp only [fetched, List.map_cons] at h1 h2 h3 ⊢
      simp [pollLoop, hlast, h1, h2, h3, List.replicate_succ]
    | some u =>
      obtain ⟨h1, h2, h3⟩ := ih { opts with Offset := wrapInt (u.ID + 1) }
      simp only [fetched, List.map_cons] at h1 h2 h3 ⊢
      simp [pollLoop, hlast, h1, h2, h3, List.replicate_succ]

/-- C20: when the webhook is deleted, the context is not done and every fetch
succeeds, the updates `PollOptions` pushes are, in order, those of the fetched
batches, without those of the first batch when `dropPendingUpdates` is set;
the first fetch has timeout 0 and every later fetch the timeout of the
caller; and `PollOptions` has not returned. -/
theorem PollOptions_pushes_fetched_batches (batches : List (List Update))
    (dropPendingUpdates : Bool) (opts : UpdateOptions) :
    (Dispatcher.PollOptions none (fetched batches) dropPendingUpdates opts).pushed =
      (if dropPendingUpdates then batches.tail else batches).flatten ∧
    (Dispatcher.PollOptions none (fetched batches) dropPendingUpdates opts).fetches.map
      UpdateOptions.Timeout = pollTimeouts opts.Timeout batches.length ∧
    (Dispatcher.PollOptions none (fetched batches) dropPendingUpdates opts).fetches.length =
      batches.length ∧
    (Dispatcher.PollOptions none (fetched batches) dropPendingUpdates opts).returned = none := by
  cases batches with
  | nil => cases dropPendingUpdates <;> exact ⟨rfl, rfl, rfl, rfl⟩
  | cons b bs =>
    have hlen : ∀ o : UpdateOptions,
        (pollLoop opts.Timeout dropPendingUpdates (fetched bs) o false).fetches.length =
          bs.length := by
      intro o
      have h := congrArg List.length (pollLoop_later opts.Timeout dropPendingUpdates bs o).2.1
      simpa using h
    cases hlast : b.getLast? with
    | none =>
      obtain ⟨h1, h2, h3⟩ := pollLoop_later opts.Timeout dropPendingUpdates bs
        { opts with Timeout := opts.Timeout }
      have h4 := hlen { opts with Timeout := opts.Timeout }
      simp only [fetched, List.map_cons] at h1 h2 h3 h4 ⊢
      cases dropPendingUpdates <;>
        simp [Dispatcher.PollOptions, pollLoop, hlast, h1, h2, h3, h4, pollTimeouts]
    | some u =>
      obtain ⟨h1, h2, h3⟩ := pollLoop_later opts.Timeout dropPendingUpdates bs
        { opts with Timeout := opts.Timeout, Offset := wrapInt (u.ID + 1) }
      have h4 := hlen { opts with Timeout := opts.Timeout, Offset := wrapInt (u.ID + 1) }
      simp only [fetched, List.map_cons] at h1 h2 h3 h4 ⊢
      cases dropPendingUpdates <;>
        simp [Dispatcher.PollOptions, pollLoop, hlast, h1, h2, h3, h4, pollTimeouts]


/-- Adding one to an id below the largest `int` does not wrap. -/
theorem wrapInt_succ (u : Update) (h : u.idBelowMax) : wrapInt (u.ID + 1) = u.ID + 1 := by
  unfold Update.idBelowMax at h
  unfold wrapInt
  have h1 : (0 : Int) ≤ u.ID + 1 + 2 ^ 63 := by omega
  have h2 : u.ID + 1 + 2 ^ 63 < 2 ^ 64 := by omega
  rw [Int.emod_eq_of_lt h1 h2]
  omega

/-- The offsets of the fetches of the loop, from any pass on: the cursor at
the start and after each fetched batch, for as long as fetches are made. -/
theorem pollLoop_offsets (timeout : Int) (dropPendingUpdates : Bool) (next : Round)
    (hnext : next.ctxErr = none) (batches : List (List Update))
    (hfit : ∀ b ∈ batches, ∀ u ∈ b, u.idBelowMax) :
    ∀ (opts : UpdateOptions) (isFirstRun : Bool),
      (pollLoop timeout dropPendingUpdates (fetched batches ++ [next]) opts isFirstRun).fetches.map
        UpdateOptions.Offset = pollOffsets opts.Offset batches := by
  induction batches with
  | nil =>
    intro opts isFirstRun
    rcases next with ⟨ctxErr, response⟩
    simp only at hnext
    subst hnext
    cases response <;> cases isFirstRun <;>
      simp [fetched, pollLoop, pollOffsets]
  | cons b bs ih =>
    intro opts isFirstRun
    have hbs : ∀ b1 ∈ bs, ∀ u ∈ b1, u.idBelowMax :=
      fun b1 hb1 => hfit b1 (List.mem_cons_of_mem _ hb1)
    cases hlast : b.getLast? with
    | none =>
      have h1 := ih hbs opts false
      have h2 := ih hbs { opts with Timeout := timeout } false
      simp only [fetched, List.map_cons, List.cons_append, pollOffsets] at h1 h2 ⊢
      cases isFirstRun <;>
        simp [pollLoop, hlast, h1, h2, List.scanl_cons, nextOffset]
    | some u =>
      have hu : u ∈ b := List.mem_of_getLast?_eq_some hlast
      have hw := wrapInt_succ u (hfit b (List.mem_cons_self _ _) u hu)
      have h1 := ih hbs { opts with Offset := u.ID + 1 } false
      have h2 := ih hbs { opts with Timeout := timeout, Offset := u.ID + 1 } false
      simp only [fetched, List.map_cons, List.cons_append, pollOffsets] at h1 h2 ⊢
      cases isFirstRun <;>
        simp [pollLoop, hlast, hw, h1, h2, List.scanl_cons, nextOffset]

/-- When ids increase and none lies below the cursor, the cursor never
decreases. -/
theorem pollOffsets_chain (batches : List (List Update))
    (hinc : List.Pairwise (· < ·) (batches.flatten.map Update.ID)) :
    ∀ offset : Int, (∀ u ∈ batches.flatten, offset ≤ u.ID + 1) →
      List.Chain' (· ≤ ·) (pollOffsets offset batches) := by
  induction batches with
  | nil => intro offset _; simp [pollOffsets]
  | cons b bs ih =>
    intro offset hstart
    simp only [List.flatten_cons, List.map_append, List.pairwise_append, List.mem_map,
      forall_exists_index, and_imp, forall_apply_eq_imp_iff₂] at hinc
    obtain ⟨_, hbs, hcross⟩ := hinc
    have hle : offset ≤ nextOffset offset b := by
      unfold nextOffset
      cases hlast : b.getLast? with
      | none => exact le_refl _
      | some u =>
        exact hstart u (List.mem_append_left _ (List.mem_of_getLast?_eq_some hlast))
    have hrest : ∀ u ∈ bs.flatten, nextOffset offset b ≤ u.ID + 1 := by
      intro v hv
      unfold nextOffset
      cases hlast : b.getLast? with
      | none => exact hstart v (List.mem_append_right _ hv)
      | some u =>
        have := hcross u (List.mem_of_getLast?_eq_some hlast) v hv
        simp only
        omega
    have hchain := ih hbs (nextOffset offset b) hrest
    simp only [pollOffsets, List.scanl_cons, List.singleton_append] at hchain ⊢
    cases hs : List.scanl nextOffset (nextOffset offset b) bs with
    | nil => exact List.chain'_singleton _
    | cons x xs =>
      rw [hs] at hchain
      refine List.Chain'.cons ?_ hchain
      have hx : x = nextOffset offset b := by
        cases bs with
        | nil => simp [List.scanl_nil] at hs; exact hs.1.symm
        | cons c cs => simp [List.scanl_cons] at hs; exact hs.1.symm
      rw [hx]
      exact hle

/-- C21, amended: let the webhook be deleted, every fetch of `batches` succeed
with ids below the largest `int`, and one more pass start with the context not
done. Then the offsets of the fetches are the caller's offset and, after each
batch, the id of its last update plus one, or the offset before it when the
batch is empty, whether or not the first batch is dropped. When moreover the
ids increase and the caller's offset is at most every id plus one, the offsets
never decrease. -/
theorem PollOptions_offset_follows_last_id (batches : List (List Update))
    (dropPendingUpdates : Bool) (opts : UpdateOptions) (next : Round)
    (hnext : next.ctxErr = none)
    (hfit : ∀ b ∈ batches, ∀ u ∈ b, u.idBelowMax) :
    (Dispatcher.PollOptions none (fetched batches ++ [next]) dropPendingUpdates opts).fetches.map
      UpdateOptions.Offset = pollOffsets opts.Offset batches ∧
    (List.Pairwise (· < ·) (batches.flatten.map Update.ID) →
      (∀ u ∈ batches.flatten, opts.Offset ≤ u.ID + 1) →
      List.Chain' (· ≤ ·)
        ((Dispatcher.PollOptions none (fetched batches ++ [next]) dropPendingUpdates
          opts).fetches.map UpdateOptions.Offset)) := by
  have h := pollLoop_offsets opts.Timeout dropPendingUpdates next hnext batches hfit opts true
  refine ⟨h, ?_⟩
  intro hinc hstart
  simp only [Dispatcher.PollOptions]
  rw [h]
  exact pollOffsets_chain batches hinc opts.Offset hstart

/-- C21, amended, at work: the batches (1, 2), (), (5) are fetched, the first
one is dropped, and the fourth fetch fails: the offsets are 0, 3, 3, 6. -/
theorem PollOptions_offset_follows_last_id_witness :
    (Dispatcher.PollOptions none
        (fetched [[⟨1, 0⟩, ⟨2, 0⟩], [], [⟨5, 0⟩]] ++ [⟨none, .error "net"⟩]) true
        ⟨120, 0, 0⟩).fetches.map UpdateOptions.Offset
      = pollOffsets 0 [[⟨1, 0⟩, ⟨2, 0⟩], [], [⟨5, 0⟩]] ∧
    (List.Pairwise (· < ·)
        (([[⟨1, 0⟩, ⟨2, 0⟩], [], [⟨5, 0⟩]] : List (List Update)).flatten.map Update.ID) →
      (∀ u ∈ ([[⟨1, 0⟩, ⟨2, 0⟩], [], [⟨5, 0⟩]] : List (List Update)).flatten,
        (0 : Int) ≤ u.ID + 1) →
      List.Chain' (· ≤ ·)
        ((Dispatcher.PollOptions none
          (fetched [[⟨1, 0⟩, ⟨2, 0⟩], [], [⟨5, 0⟩]] ++ [⟨none, .error "net"⟩]) true
          ⟨120, 0, 0⟩).fetches.map UpdateOptions.Offset)) :=
  PollOptions_offset_follows_last_id [[⟨1, 0⟩, ⟨2, 0⟩], [], [⟨5, 0⟩]] true ⟨120, 0, 0⟩
    ⟨none, .error "net"⟩ rfl (by decide)

/-- C21, the claim as written fails. With the caller's offset 100 and one
fetched batch of the ids 1 and 2, which increase, the offsets of the two
fetches are 100 and then 3: the cursor decreases. And after a batch whose last
id is the largest `int`, the offset of the next fetch is the smallest `int`,
which is not that id plus one and is below the offset before it. -/
theorem PollOptions_offset_can_decrease :
    List.Pairwise (· < ·)
      (([[⟨1, 0⟩, ⟨2, 0⟩]] : List (List Update)).flatten.map Update.ID) ∧
    (Dispatcher.PollOptions none (fetched [[⟨1, 0⟩, ⟨2, 0⟩]] ++ [⟨none, .error "net"⟩]) false
        ⟨120, 100, 0⟩).fetches.map UpdateOptions.Offset = [100, 3] ∧
    ¬ List.Chain' (· ≤ ·)
      ((Dispatcher.PollOptions none (fetched [[⟨1, 0⟩, ⟨2, 0⟩]] ++ [⟨none, .error "net"⟩]) false
        ⟨120, 100, 0⟩).fetches.map UpdateOptions.Offset) ∧
    (Dispatcher.PollOptions none (fetched [[⟨2 ^ 63 - 1, 0⟩]] ++ [⟨none, .error "net"⟩]) false
        ⟨120, 0, 0⟩).fetches.map UpdateOptions.Offset = [0, -2 ^ 63] ∧
    ¬ List.Chain' (· ≤ ·)
      ((Dispatcher.PollOptions none (fetched [[⟨2 ^ 63 - 1, 0⟩]] ++ [⟨none, .error "net"⟩]) false
        ⟨120, 0, 0⟩).fetches.map UpdateOptions.Offset) := by
  have h1 : (Dispatcher.PollOptions none
      (fetched [[⟨1, 0⟩, ⟨2, 0⟩]] ++ [⟨none, .error "net"⟩]) false
      ⟨120, 100, 0⟩).fetches.map UpdateOptions.Offset = [100, 3] := by decide
  have h2 : (Dispatcher.PollOptions none
      (fetched [[⟨2 ^ 63 - 1, 0⟩]] ++ [⟨none, .error "net"⟩]) false
      ⟨120, 0, 0⟩).fetches.map UpdateOptions.Offset = [0, -2 ^ 63] := by decide
  refine ⟨by decide, h1, ?_, h2, ?_⟩
  · rw [h1]
    simp [List.chain'_cons]
  · rw [h2]
    simp [List.chain'_cons]

/-- One fetch is made for every fetched batch. -/
theorem pollLoop_fetches_length (timeout : Int) (dropPendingUpdates : Bool)
    (batches : List (List Update)) :
    ∀ (opts : UpdateOptions) (isFirstRun : Bool),
      (pollLoop timeout dropPendingUpdates (fetched batches) opts isFirstRun).fetches.length =
        batches.length := by
  induction batches with
  | nil => intro opts isFirstRun; rfl
  | cons b bs ih =>
    intro opts isFirstRun
    simp only [fetched, List.map_cons] at ih ⊢
    simp only [pollLoop, List.length_cons, ih]

/-- A pass that ends the loop, after fetched batches: nothing is pushed and no
fetch is made beyond what the batches gave, apart from the fetch `last` of
the ending pass itself. -/
theorem pollLoop_stops (timeout : Int) (dropPendingUpdates : Bool) (stop : Round)
    (rest : List Round) (err : String) (batches : List (List Update)) :
    ∀ (opts : UpdateOptions) (isFirstRun : Bool),
      (stop.ctxErr = none → stop.response = .error err →
        (pollLoop timeout dropPendingUpdates (fetched batches ++ stop :: rest) opts
            isFirstRun).returned = some err ∧
        (pollLoop timeout dropPendingUpdates (fetched batches ++ stop :: rest) opts
            isFirstRun).pushed =
          (pollLoop timeout dropPendingUpdates (fetched batches) opts isFirstRun).pushed ∧
        ∃ last : UpdateOptions,
          (pollLoop timeout dropPendingUpdates (fetched batches ++ stop :: rest) opts
              isFirstRun).fetches =
            (pollLoop timeout dropPendingUpdates (fetched batches) opts isFirstRun).fetches ++
              [last]) ∧
      (stop.ctxErr = some err →
        (pollLoop timeout dropPendingUpdates (fetched batches ++ stop :: rest) opts
            isFirstRun).returned = some err ∧
        (pollLoop timeout dropPendingUpdates (fetched batches ++ stop :: rest) opts
            isFirstRun).pushed =
          (pollLoop timeout dropPendingUpdates (fetched batches) opts isFirstRun).pushed ∧
        (pollLoop timeout dropPendingUpdates (fetched batches ++ stop :: rest) opts
            isFirstRun).fetches =
          (pollLoop timeout dropPendingUpdates (fetched batches) opts isFirstRun).fetches) := by
  induction batches with
  | nil =>
    intro opts isFirstRun
    constructor
    · intro hctx hresp
      simp [fetched, pollLoop, hctx, hresp]
    · intro hctx
      simp [fetched, pollLoop, hctx]
  | cons b bs ih =>
    intro opts isFirstRun
    simp only [fetched, List.map_cons, List.cons_append] at ih ⊢
    constructor
    · intro hctx hresp
      simp only [pollLoop]
      obtain ⟨h1, h2, last, h3⟩ := (ih _ false).1 hctx hresp
      exact ⟨h1, by rw [h2], last, by rw [h3]; rfl⟩
    · intro hctx
      simp only [pollLoop]
      obtain ⟨h1, h2, h3⟩ := (ih _ false).2 hctx
      exact ⟨h1, by rw [h2], by rw [h3]⟩

/-- C22: let the webhook be deleted and the fetches of `batches` succeed. If
the next fetch fails with `err`, `PollOptions` returns `err`; it has pushed
what it pushed for `batches` and nothing more, and has made the fetches for
`batches` and the failed one, and none of the passes `rest` that could follow.
If instead the context is done when the next pass starts, `PollOptions`
returns the error of the context and has made no fetch beyond those for
`batches`. -/
theorem PollOptions_stops_at_first_failure (batches : List (List Update))
    (dropPendingUpdates : Bool) (opts : UpdateOptions) (err : String) (rest : List Round)
    (response : Except String (List Update)) :
    ((Dispatcher.PollOptions none (fetched batches ++ ⟨none, .error err⟩ :: rest)
        dropPendingUpdates opts).returned = some err ∧
      (Dispatcher.PollOptions none (fetched batches ++ ⟨none, .error err⟩ :: rest)
        dropPendingUpdates opts).pushed =
        (Dispatcher.PollOptions none (fetched batches) dropPendingUpdates opts).pushed ∧
      (Dispatcher.PollOptions none (fetched batches ++ ⟨none, .error err⟩ :: rest)
        dropPendingUpdates opts).fetches.length = batches.length + 1 ∧
      (Dispatcher.PollOptions none (fetched batches ++ ⟨none, .error err⟩ :: rest)
        dropPendingUpdates opts).fetches.take batches.length =
        (Dispatcher.PollOptions none (fetched batches) dropPendingUpdates opts).fetches) ∧
    ((Dispatcher.PollOptions none (fetched batches ++ ⟨some err, response⟩ :: rest)
        dropPendingUpdates opts).returned = some err ∧
      (Dispatcher.PollOptions none (fetched batches ++ ⟨some err, response⟩ :: rest)
        dropPendingUpdates opts).pushed =
        (Dispatcher.PollOptions none (fetched batches) dropPendingUpdates opts).pushed ∧
      (Dispatcher.PollOptions none (fetched batches ++ ⟨some err, response⟩ :: rest)
        dropPendingUpdates opts).fetches =
        (Dispatcher.PollOptions none (fetched batches) dropPendingUpdates opts).fetches) := by
  have hlen := pollLoop_fetches_length opts.Timeout dropPendingUpdates batches opts true
  simp only [Dispatcher.PollOptions]
  constructor
  · obtain ⟨h1, h2, last, h3⟩ :=
      (pollLoop_stops opts.Timeout dropPendingUpdates ⟨none, .error err⟩ rest err batches opts
        true).1 rfl rfl
    refine ⟨h1, h2, ?_, ?_⟩
    · rw [h3, List.length_append, hlen]; rfl
    · rw [h3, ← hlen, List.take_left]
  · exact (pollLoop_stops opts.Timeout dropPendingUpdates ⟨some err, response⟩ rest err batches
      opts true).2 rfl

end Echotron

namespace App

open TgRouter (Res GoError PanicValue)

/-- Callback data made of a UUID text without colon and one character other
than the colon splits into these two. -/
theorem splitColon_callback (uuid : String) (c : Char) (huuid : ':' ∉ uuid.data)
    (hc : c ≠ ':') : splitColon (uuid ++ ":" ++ String.mk [c]) = [uuid, String.mk [c]] := by
  unfold splitColon
  have h : (uuid ++ ":" ++ String.mk [c]).data = [':'].intercalate [uuid.data, [c]] := by
    simp [String.data_append, List.intercalate]
  rw [h, List.splitOn_intercalate]
  · rfl
  · intro l hl
    simp only [List.mem_cons, List.mem_singleton, List.not_mem_nil, or_false] at hl
    rcases hl with rfl | rfl
    · exact huuid
    · simpa using hc.symm
  · simp

/-- What `parseCallbackData` does with the data made for the stored token and
a status that starts with `c`. -/
theorem parseCallbackData_stored {U : Type} [DecidableEq U] (lib : UUIDLib U)
    (hparse : ∀ id, lib.MustParse (lib.UUIDString id) = .ok id)
    (hcolon : ∀ id, ':' ∉ (lib.UUIDString id).data)
    (ts : InMemoryTokenStorage U) (id : U) (t : Token) (c : Char) (hc : c ≠ ':') :
    Service.parseCallbackData lib (ts.Store id t).2
        (lib.UUIDString (ts.Store id t).1 ++ ":" ++ String.mk [c])
      = (if String.mk [c] = "a" then .ok (t, RequestStatusApproved, none)
          else if String.mk [c] = "r" then .ok (t, RequestStatusRejected, none)
          else .ok ([], RequestStatusRejected,
            some (.errorString ("unknown callback data " ++ String.mk [c]))),
         ((ts.Store id t).2.Pop id).2) := by
  unfold Service.parseCallbackData
  simp only [InMemoryTokenStorage.Store]
  rw [splitColon_callback _ c (hcolon id) hc]
  simp only [hparse, InMemoryTokenStorage.Pop, if_true]
  split <;> rename_i h1
  · rfl
  · split <;> rfl

/-- C29: let the library `uuid` parse the text of every UUID back to that UUID,
a text which holds no colon, and let the token `t` be stored under `id`. For
the statuses approved and rejected `makeCallbackData` returns data from which
`parseCallbackData` returns `t`, the status and a nil error, and the token is
taken out of the storage. For the statuses pending and canceled it returns
data for which `parseCallbackData` returns a non-nil error. -/
theorem callback_data_round_trip {U : Type} [DecidableEq U] (lib : UUIDLib U)
    (hparse : ∀ id, lib.MustParse (lib.UUIDString id) = .ok id)
    (hcolon : ∀ id, ':' ∉ (lib.UUIDString id).data)
    (ts : InMemoryTokenStorage U) (id : U) (t : Token) :
    (∀ s : RequestStatus, s = RequestStatusApproved ∨ s = RequestStatusRejected →
      ∃ data, makeCallbackData lib (ts.Store id t).1 s = .ok data ∧
        (Service.parseCallbackData lib (ts.Store id t).2 data).1 = .ok (t, s, none) ∧
        (Service.parseCallbackData lib (ts.Store id t).2 data).2.tokens id = none) ∧
    (∀ s : RequestStatus, s = RequestStatusPending ∨ s = RequestStatusCanceled →
      ∃ data err, makeCallbackData lib (ts.Store id t).1 s = .ok data ∧
        (Service.parseCallbackData lib (ts.Store id t).2 data).1
          = .ok ([], RequestStatusRejected, some err)) := by
  have hpop : ((ts.Store id t).2.Pop id).2.tokens id = none := by
    simp [InMemoryTokenStorage.Store, InMemoryTokenStorage.Pop]
  constructor
  · intro s hs
    rcases hs with rfl | rfl
    · refine ⟨lib.UUIDString (ts.Store id t).1 ++ ":" ++ String.mk ['a'], rfl, ?_⟩
      rw [parseCallbackData_stored lib hparse hcolon ts id t 'a' (by decide)]
      exact ⟨rfl, hpop⟩
    · refine ⟨lib.UUIDString (ts.Store id t).1 ++ ":" ++ String.mk ['r'], rfl, ?_⟩
      rw [parseCallbackData_stored lib hparse hcolon ts id t 'r' (by decide)]
      exact ⟨rfl, hpop⟩
  · intro s hs
    rcases hs with rfl | rfl
    · refine ⟨lib.UUIDString (ts.Store id t).1 ++ ":" ++ String.mk ['p'],
        .errorString ("unknown callback data " ++ String.mk ['p']), rfl, ?_⟩
      rw [parseCallbackData_stored lib hparse hcolon ts id t 'p' (by decide)]
      rfl
    · refine ⟨lib.UUIDString (ts.Store id t).1 ++ ":" ++ String.mk ['c'],
        .errorString ("unknown callback data " ++ String.mk ['c']), rfl, ?_⟩
      rw [parseCallbackData_stored lib hparse hcolon ts id t 'c' (by decide)]
      rfl

/-- C29 at work: the token (1, 2, 3) is stored under the nil UUID in an empty
storage. -/
theorem callback_data_round_trip_witness :
    (∀ s : RequestStatus, s = RequestStatusApproved ∨ s = RequestStatusRejected →
      ∃ data, makeCallbackData testUUIDLib
          ((NewInMemoryTokenStorage.Store TestUUID.zero [1, 2, 3]).1) s = .ok data ∧
        (Service.parseCallbackData testUUIDLib
          (NewInMemoryTokenStorage.Store TestUUID.zero [1, 2, 3]).2 data).1
          = .ok ([1, 2, 3], s, none) ∧
        (Service.parseCallbackData testUUIDLib
          (NewInMemoryTokenStorage.Store TestUUID.zero [1, 2, 3]).2 data).2.tokens TestUUID.zero
          = none) ∧
    (∀ s : RequestStatus, s = RequestStatusPending ∨ s = RequestStatusCanceled →
      ∃ data err, makeCallbackData testUUIDLib
          ((NewInMemoryTokenStorage.Store TestUUID.zero [1, 2, 3]).1) s = .ok data ∧
        (Service.parseCallbackData testUUIDLib
          (NewInMemoryTokenStorage.Store TestUUID.zero [1, 2, 3]).2 data).1
          = .ok ([], RequestStatusRejected, some err)) :=
  callback_data_round_trip testUUIDLib (fun id => by cases id <;> rfl)
    (fun id => by cases id <;> decide) NewInMemoryTokenStorage TestUUID.zero [1, 2, 3]

end App

namespace Ports

open Echotron (SessionHandler NoopSessionHandler Dispatcher SessionOp)

/-- The map built from the list holds exactly the ids of the list. -/
theorem allowedChatsMap_eq (allowedChatIDs : List Int) (k : Int) :
    allowedChatsMap allowedChatIDs k = decide (k ∈ allowedChatIDs) := by
  unfold allowedChatsMap
  have h : ∀ (l : List Int) (init : Int → Bool),
      l.foldl (fun allowedChats chat => fun j => if j = chat then true else allowedChats j)
        init k = (decide (k ∈ l) || init k) := by
    intro l
    induction l with
    | nil => intro init; simp
    | cons a l ih =>
      intro init
      rw [List.foldl_cons, ih]
      by_cases hka : k = a
      · simp [hka]
      · simp [hka]
  rw [h]
  simp

/-- A dispatcher whose sessions all come from the factory `f`, and whose
factory is `f`, returns `f k` at every lookup of a chat `k`. -/
theorem run_returns_factory_handlers {H : Type} (f : Int → H) (ops : List SessionOp) :
    ∀ d : Dispatcher H Unit, d.newSession = (fun chatID env => (f chatID, env)) →
      (∀ k h, d.sessionMap k = some h → h = f k) →
      ∀ p ∈ (d.run ops).1, p.2 = f p.1 := by
  induction ops with
  | nil => intro d _ _ p hp; simp [Dispatcher.run] at hp
  | cons op ops ih =>
    intro d hf hmap p hp
    cases op with
    | lookup j =>
      have hres : (d.sessionInstance j).1 = f j ∧
          (d.sessionInstance j).2.newSession = (fun chatID env => (f chatID, env)) ∧
          ∀ k h, (d.sessionInstance j).2.sessionMap k = some h → h = f k := by
        unfold Dispatcher.sessionInstance
        cases hj : d.sessionMap j with
        | some b => exact ⟨hmap j b hj, hf, hmap⟩
        | none =>
          simp only [hf, Dispatcher.store]
          refine ⟨trivial, trivial, ?_⟩
          intro k h hk
          by_cases hkj : k = j
          · simp only [hkj, if_true, Option.some.injEq] at hk
            rw [← hk, hkj]
          · simp only [hkj, if_false] at hk
            exact hmap k h hk
      simp only [Dispatcher.run] at hp
      rcases List.mem_cons.1 hp with rfl | hp
      · exact hres.1
      · exact ih _ hres.2.1 hres.2.2 p hp
    | add j =>
      have hres : (d.AddSession j).newSession = (fun chatID env => (f chatID, env)) ∧
          ∀ k h, (d.AddSession j).sessionMap k = some h → h = f k := by
        unfold Dispatcher.AddSession
        cases hj : d.sessionMap j with
        | some b => exact ⟨hf, hmap⟩
        | none =>
          simp only [hf, Dispatcher.store]
          refine ⟨trivial, ?_⟩
          intro k h hk
          by_cases hkj : k = j
          · simp only [hkj, if_true, Option.some.injEq] at hk
            rw [← hk, hkj]
          · simp only [hkj, if_false] at hk
            exact hmap k h hk
      simp only [Dispatcher.run] at hp
      exact ih _ hres.1 hres.2 p hp
    | delete j =>
      have hres : ∀ k h, (d.DeleteSession j).sessionMap k = some h → h = f k := by
        intro k h hk
        simp only [Dispatcher.DeleteSession] at hk
        by_cases hkj : k = j
        · simp [hkj] at hk
        · simp only [hkj, if_false] at hk
          exact hmap k h hk
      simp only [Dispatcher.run] at hp
      exact ih (d.DeleteSession j) hf hres p hp

/-- C30: for a chat id that is not in the list of allowed chats the factory
`newBotSession` gives `NoopSessionHandler`, whose `HandleUpdate` returns and
leaves the state of the program as it is, so that nothing of the router has
run; for a chat id in the list it gives the router. In the dispatcher of
`NewBotServer`, whatever sessions are looked up, added and deleted, every
lookup of a chat that is not allowed returns `NoopSessionHandler` and every
lookup of an allowed chat returns the router. -/
theorem newBotSession_noop_unless_allowed {σ : Type} (router : SessionHandler σ)
    (allowedChats : List Int) (chatID : Int) :
    (chatID ∉ allowedChats →
      BotServer.newBotSession router allowedChats chatID = NoopSessionHandler ∧
      ∀ upd s, BotServer.newBotSession router allowedChats chatID upd s = (.ok (), s)) ∧
    (chatID ∈ allowedChats → BotServer.newBotSession router allowedChats chatID = router) ∧
    (∀ ops : List SessionOp, ∀ p ∈ ((NewBotServer router allowedChats).run ops).1,
      (p.1 ∉ allowedChats → p.2 = NoopSessionHandler) ∧ (p.1 ∈ allowedChats → p.2 = router)) := by
  have hno : ∀ k, k ∉ allowedChats →
      BotServer.newBotSession router allowedChats k = NoopSessionHandler := by
    intro k hk
    simp [BotServer.newBotSession, allowedChatsMap_eq, hk]
  have hyes : ∀ k, k ∈ allowedChats → BotServer.newBotSession router allowedChats k = router := by
    intro k hk
    simp [BotServer.newBotSession, allowedChatsMap_eq, hk]
  refine ⟨?_, hyes chatID, ?_⟩
  · intro h
    refine ⟨hno chatID h, ?_⟩
    intro upd s
    rw [hno chatID h]
    rfl
  · intro ops p hp
    have h := run_returns_factory_handlers (BotServer.newBotSession router allowedChats) ops
      (NewBotServer router allowedChats) rfl (fun k h hk => by simp [NewBotServer] at hk) p hp
    exact ⟨fun hk => h.trans (hno p.1 hk), fun hk => h.trans (hyes p.1 hk)⟩

/-- C30 at work: with chats 7 and 9 allowed, the handler for chat 8 leaves the
trace of the router empty and the handler for chat 7 is the router. -/
theorem newBotSession_noop_unless_allowed_witness :
    BotServer.newBotSession tracingRouter [7, 9] 8 ⟨1, 0⟩ [] = (.ok (), []) ∧
    BotServer.newBotSession tracingRouter [7, 9] 7 = tracingRouter :=
  ⟨((newBotSession_noop_unless_allowed tracingRouter [7, 9] 8).1 (by decide)).2 ⟨1, 0⟩ [],
   (newBotSession_noop_unless_allowed tracingRouter [7, 9] 7).2.1 (by decide)⟩

end Ports

namespace Workflows

open TgRouter (Res PanicValue)

/-! ## Tags without a name -/

/-- C23 (the code at the failing inputs): for the texts `<>`, `< >` and `</>`
the tag between the angle brackets has no field, `strings.Fields(...)[0]` is
an index out of range, and `splitMaxLimitMessages` panics instead of
returning parts; so it does for a text that holds such a pair anywhere. -/
theorem splitMaxLimitMessages_panics_on_empty_tag :
    splitMaxLimitMessages "<>" = .panicked TgRouter.indexOutOfRange ∧
    splitMaxLimitMessages "< >" = .panicked TgRouter.indexOutOfRange ∧
    splitMaxLimitMessages "</>" = .panicked TgRouter.indexOutOfRange ∧
    splitMaxLimitMessages "if a <> b then\nstop" = .panicked TgRouter.indexOutOfRange := by
  decide

/-! ## The pieces of `splitMaxLimitMessages` -/

/-- One turn of the loop on a `PieceState` is the turn of the source loop. -/
theorem splitLine_toSplitState (ps : PieceState) (line : List Char) :
    splitLine ps.toSplitState line =
      match pieceLine ps line with
      | .ok ps1 => .ok ps1.toSplitState
      | .panicked p => .panicked p := by
  unfold splitLine pieceLine
  simp only [PieceState.toSplitState]
  by_cases hcut : byteLen (reopenTags ps.reopened ++ ps.body) + byteLen line >
      MaxTelegramMessageSize
  · simp only [hcut, decide_True, if_true]
    cases scanTags (TrimSpace line).length (TrimSpace line) ps.openTagStack with
    | panicked p => rfl
    | ok stack =>
      simp [PieceState.toSplitState, Piece.render, closeOpenTags]
  · simp only [hcut, decide_False, Bool.false_eq_true, if_false]
    cases scanTags line.length line ps.openTagStack with
    | panicked p => rfl
    | ok stack =>
      simp [PieceState.toSplitState]

/-- The loop on a `PieceState` is the source loop. -/
theorem splitLines_toSplitState (lines : List (List Char)) :
    ∀ ps : PieceState,
      splitLines lines ps.toSplitState =
        match pieceLines lines ps with
        | .ok ps1 => .ok ps1.toSplitState
        | .panicked p => .panicked p := by
  induction lines with
  | nil => intro ps; rfl
  | cons line lines ih =>
    intro ps
    simp only [splitLines, pieceLines, splitLine_toSplitState]
    cases pieceLine ps line with
    | panicked p => rfl
    | ok ps1 => exact ih ps1

/-- The parts `splitMaxLimitMessages` returns are the texts of the pieces. -/
theorem splitMaxLimitMessages_eq_pieces (text : String) :
    splitMaxLimitMessages text =
      match splitPieces text with
      | .ok pieces => .ok (pieces.map fun p => String.mk p.render)
      | .panicked p => .panicked p := by
  unfold splitMaxLimitMessages splitPieces
  have h := splitLines_toSplitState (text.data.splitOn '\n') ⟨[], [], [], []⟩
  have h0 : (⟨[], [], [], []⟩ : PieceState).toSplitState = ⟨[], [], []⟩ := rfl
  rw [h0] at h
  rw [h]
  cases pieceLines (text.data.splitOn '\n') ⟨[], [], [], []⟩ with
  | panicked p => rfl
  | ok ps =>
    simp only [lastPart, PieceState.toSplitState]
    split <;> simp [Piece.render, closeOpenTags]


/-! ## Lengths -/

theorem byteLen_nil : byteLen [] = 0 := rfl

theorem byteLen_append (a b : List Char) : byteLen (a ++ b) = byteLen a + byteLen b := by
  simp [byteLen]

theorem byteLen_newline : byteLen ['\n'] = 1 := by decide

/-- Every character takes at least one byte. -/
theorem byteLen_pos (s : List Char) (h : s ≠ []) : 0 < byteLen s := by
  cases s with
  | nil => exact absurd rfl h
  | cons c cs =>
    have hc : 0 < c.utf8Size := Char.utf8Size_pos c
    simp only [byteLen, List.map_cons, List.sum_cons]
    omega

/-- A string is its leading white space, its trimmed form and its trailing
white space. -/
theorem TrimSpace_decomposition (s : List Char) :
    ∃ leading trailing : List Char, s = leading ++ TrimSpace s ++ trailing ∧
      (∀ c ∈ leading, isSpace c = true) ∧ (∀ c ∈ trailing, isSpace c = true) := by
  refine ⟨s.takeWhile isSpace,
    (((s.dropWhile isSpace).reverse).takeWhile isSpace).reverse, ?_, ?_, ?_⟩
  · have h1 : s = s.takeWhile isSpace ++ s.dropWhile isSpace :=
      (List.takeWhile_append_dropWhile isSpace s).symm
    have h2 := List.takeWhile_append_dropWhile isSpace (s.dropWhile isSpace).reverse
    have h3 : s.dropWhile isSpace =
        ((s.dropWhile isSpace).reverse.dropWhile isSpace).reverse ++
          ((s.dropWhile isSpace).reverse.takeWhile isSpace).reverse := by
      rw [← List.reverse_append, h2, List.reverse_reverse]
    unfold TrimSpace
    rw [List.append_assoc, ← h3]
    exact h1
  · intro c hc
    exact List.mem_takeWhile_imp hc
  · intro c hc
    exact List.mem_takeWhile_imp (List.mem_reverse.1 hc)

theorem byteLen_TrimSpace_le (s : List Char) : byteLen (TrimSpace s) ≤ byteLen s := by
  obtain ⟨leading, trailing, hs, _, _⟩ := TrimSpace_decomposition s
  have h := congrArg byteLen hs
  rw [byteLen_append, byteLen_append] at h
  omega

/-! ## The size of the parts -/

theorem pieceLine_sizeInvariant (ps ps1 : PieceState) (line : List Char)
    (hinv : sizeInvariant ps) (hline : byteLen line ≤ MaxTelegramMessageSize)
    (hstep : pieceLine ps line = .ok ps1) : sizeInvariant ps1 ∧ ps1.body ≠ [] := by
  obtain ⟨hpieces, hbody, hempty⟩ := hinv
  unfold pieceLine at hstep
  by_cases hcut : byteLen (reopenTags ps.reopened ++ ps.body) + byteLen line >
      MaxTelegramMessageSize
  · simp only [hcut, decide_True, if_true] at hstep
    cases hscan : scanTags (TrimSpace line).length (TrimSpace line) ps.openTagStack with
    | panicked p => simp [hscan] at hstep
    | ok stack =>
      simp only [hscan, Res.ok.injEq] at hstep
      subst hstep
      have hne : ps.body ≠ [] := by
        intro hb
        have hr := hempty hb
        rw [hb, hr] at hcut
        simp [reopenTags, byteLen] at hcut
        simp [byteLen] at hline
        omega
      have htrim := byteLen_TrimSpace_le line
      refine ⟨⟨?_, ?_, ?_⟩, ?_⟩
      · intro p hp
        rcases List.mem_append.1 hp with hp | hp
        · exact hpieces p hp
        · simp only [List.mem_singleton] at hp
          subst hp
          exact ⟨hne, hbody⟩
      · simp only [List.nil_append, byteLen_append, byteLen_newline]
        omega
      · intro hb
        simp at hb
      · simp
  · simp only [hcut, decide_False, Bool.false_eq_true, if_false] at hstep
    cases hscan : scanTags line.length line ps.openTagStack with
    | panicked p => simp [hscan] at hstep
    | ok stack =>
      simp only [hscan, Res.ok.injEq] at hstep
      subst hstep
      refine ⟨⟨hpieces, ?_, ?_⟩, ?_⟩
      · simp only [byteLen_append, byteLen_newline] at hcut ⊢
        omega
      · intro hb
        simp at hb
      · simp

theorem pieceLines_sizeInvariant (lines : List (List Char))
    (hlines : ∀ line ∈ lines, byteLen line ≤ MaxTelegramMessageSize) :
    ∀ ps ps1 : PieceState, sizeInvariant ps → pieceLines lines ps = .ok ps1 →
      sizeInvariant ps1 ∧ (lines ≠ [] → ps1.body ≠ []) := by
  induction lines with
  | nil =>
    intro ps ps1 hinv h
    simp only [pieceLines, Res.ok.injEq] at h
    subst h
    exact ⟨hinv, fun h => absurd rfl h⟩
  | cons line lines ih =>
    intro ps ps1 hinv h
    simp only [pieceLines] at h
    cases hstep : pieceLine ps line with
    | panicked p => simp [hstep] at h
    | ok ps2 =>
      simp only [hstep] at h
      obtain ⟨hinv2, hne2⟩ := pieceLine_sizeInvariant ps ps2 line hinv
        (hlines line (List.mem_cons_self _ _)) hstep
      obtain ⟨hinv1, hne1⟩ := ih (fun l hl => hlines l (List.mem_cons_of_mem _ hl)) ps2 ps1 hinv2 h
      refine ⟨hinv1, fun _ => ?_⟩
      cases lines with
      | nil =>
        simp only [pieceLines, Res.ok.injEq] at h
        subst h
        exact hne2
      | cons l ls => exact hne1 (List.cons_ne_nil _ _)


/-! ## Evaluating the loop on long lines -/

theorem byteLen_replicate (n : Nat) (c : Char) :
    byteLen (List.replicate n c) = n * c.utf8Size := by
  simp [byteLen]

theorem dropWhile_of_all_false (p : Char → Bool) (s : List Char)
    (h : ∀ c ∈ s, p c = false) : s.dropWhile p = s := by
  cases s with
  | nil => rfl
  | cons c cs => simp [List.dropWhile_cons, h c (List.mem_cons_self _ _)]

/-- A string without white space is its own trimmed form. -/
theorem TrimSpace_of_no_space (s : List Char) (h : ∀ c ∈ s, isSpace c = false) :
    TrimSpace s = s := by
  unfold TrimSpace
  rw [dropWhile_of_all_false isSpace s h,
    dropWhile_of_all_false isSpace s.reverse (fun c hc => h c (List.mem_reverse.1 hc)),
    List.reverse_reverse]

/-- A line without `<` holds no tag. -/
theorem scanTags_of_no_open (fuel : Nat) (line : List Char) (stack : List (List Char))
    (h : '<' ∉ line) : scanTags fuel line stack = .ok stack := by
  cases fuel with
  | zero => rfl
  | succ fuel =>
    have hdrop : line.dropWhile (· ≠ '<') = [] := by
      rw [List.dropWhile_eq_nil_iff]
      intro c hc
      simp only [ne_eq, decide_not, Bool.not_eq_true', decide_eq_false_iff_not]
      intro hcl
      exact h (hcl ▸ hc)
    simp only [scanTags, hdrop]

theorem splitOn_of_no_newline (s : List Char) (h : '\n' ∉ s) : s.splitOn '\n' = [s] := by
  unfold List.splitOn
  apply List.splitOnP_eq_single
  intro c hc hcn
  simp only [beq_iff_eq] at hcn
  exact h (hcn ▸ hc)

theorem splitOn_two_lines (a b : List Char) (ha : '\n' ∉ a) (hb : '\n' ∉ b) :
    (a ++ '\n' :: b).splitOn '\n' = [a, b] := by
  have h : a ++ '\n' :: b = ['\n'].intercalate [a, b] := by
    simp [List.intercalate]
  rw [h, List.splitOn_intercalate]
  · intro l hl
    simp only [List.mem_cons, List.mem_singleton, List.not_mem_nil, or_false] at hl
    rcases hl with rfl | rfl
    · exact ha
    · exact hb
  · simp


theorem mem_replicate_letter (n : Nat) (c d : Char) (h : c ≠ d) : c ∉ List.replicate n d := by
  intro hc
  exact h (List.eq_of_mem_replicate hc)

/-- The parts for a text of one line that is longer than
`MaxTelegramMessageSize`. -/
theorem splitMaxLimitMessages_one_long_line (line : List Char) (hnl : '\n' ∉ line)
    (hopen : '<' ∉ line) (hspace : ∀ c ∈ line, isSpace c = false)
    (hlong : byteLen line > MaxTelegramMessageSize) :
    splitMaxLimitMessages (String.mk line) = .ok ["", String.mk (line ++ ['\n'])] := by
  have hpos : 0 < byteLen (line ++ ['\n']) := by
    rw [byteLen_append, byteLen_newline]
    omega
  unfold splitMaxLimitMessages
  simp only [splitOn_of_no_newline _ hnl, splitLines, splitLine, byteLen_nil, Nat.zero_add,
    hlong, decide_True, if_true, TrimSpace_of_no_space _ hspace,
    scanTags_of_no_open _ _ _ hopen, lastPart, reopenTags, List.map_nil, List.flatten_nil,
    List.nil_append, hpos, gt_iff_lt, closeOpenTags, closingTags, List.reverse_nil,
    List.append_nil, List.map_cons]
  rfl

/-- The parts for a text of two lines, the first one with tags and the second
one without, that do not go into one part. -/
theorem splitMaxLimitMessages_two_lines (first second : List Char) (stack : List (List Char))
    (hnl1 : '\n' ∉ first) (hnl2 : '\n' ∉ second)
    (hscan : scanTags first.length first [] = .ok stack)
    (hfirst : byteLen first ≤ MaxTelegramMessageSize)
    (hcut : byteLen first + 1 + byteLen second > MaxTelegramMessageSize)
    (hopen : '<' ∉ second) (hspace : ∀ c ∈ second, isSpace c = false) :
    splitMaxLimitMessages (String.mk (first ++ '\n' :: second))
      = .ok [String.mk (closeOpenTags (first ++ ['\n']) stack),
          String.mk (closeOpenTags (reopenTags stack ++ second ++ ['\n']) stack)] := by
  have hno : ¬ (byteLen first > MaxTelegramMessageSize) := by omega
  have hcut2 : byteLen (first ++ ['\n']) + byteLen second > MaxTelegramMessageSize := by
    rw [byteLen_append, byteLen_newline]
    exact hcut
  have hpos : 0 < byteLen (reopenTags stack ++ second ++ ['\n']) := by
    rw [byteLen_append, byteLen_newline]
    omega
  unfold splitMaxLimitMessages
  simp only [splitOn_two_lines _ _ hnl1 hnl2, splitLines, splitLine, byteLen_nil, Nat.zero_add,
    hno, decide_False, Bool.false_eq_true, if_false, hscan, List.nil_append, hcut2, decide_True,
    if_true, TrimSpace_of_no_space _ hspace, scanTags_of_no_open _ _ _ hopen, lastPart, hpos,
    gt_iff_lt, List.map_cons, List.map_nil, List.map_append]
  rfl

theorem byteLen_longTag : byteLen longTag = 132 := by
  simp [longTag, byteLen, Char.utf8Size]

set_option maxRecDepth 20000 in
theorem scanTags_longTag :
    scanTags longTag.length longTag [] = .ok [List.replicate 130 'b'] := by
  decide

/-- C24, the claim as written fails. A text of one line of 4097 letters gives
an empty first part and a second part of 4098 bytes. A text whose lines are
no longer than `MaxTelegramMessageSize`, a tag with a name of 130 letters and a
line of 3900 letters, gives a second part of 4166 bytes, the line between the
re-opened tag and its closing tag. -/
theorem parts_empty_or_too_long :
    (splitMaxLimitMessages (String.mk longLine)
        = .ok ["", String.mk (longLine ++ ['\n'])] ∧
      byteLen (longLine ++ ['\n']) = 4098) ∧
    (splitMaxLimitMessages (String.mk taggedText)
        = .ok [String.mk (closeOpenTags (longTag ++ ['\n']) [List.replicate 130 'b']),
            String.mk (closeOpenTags (longTag ++ List.replicate 3900 'a' ++ ['\n'])
              [List.replicate 130 'b'])] ∧
      (∀ line ∈ taggedText.splitOn '\n', byteLen line ≤ MaxTelegramMessageSize) ∧
      byteLen (closeOpenTags (longTag ++ List.replicate 3900 'a' ++ ['\n'])
        [List.replicate 130 'b']) = 4166) := by
  have hsize : Char.utf8Size 'a' = 1 := by decide
  have hnl : ∀ n, '\n' ∉ List.replicate n 'a' := fun n => mem_replicate_letter n _ _ (by decide)
  have hlt : ∀ n, '<' ∉ List.replicate n 'a' := fun n => mem_replicate_letter n _ _ (by decide)
  have hsp : ∀ n, ∀ c ∈ List.replicate n 'a', isSpace c = false := by
    intro n c hc
    rw [List.eq_of_mem_replicate hc]
    decide
  have hlen : ∀ n, byteLen (List.replicate n 'a') = n := by
    intro n
    rw [byteLen_replicate, hsize, Nat.mul_one]
  have hmax : MaxTelegramMessageSize = 3968 := by decide
  refine ⟨⟨?_, ?_⟩, ?_⟩
  · refine splitMaxLimitMessages_one_long_line longLine (hnl 4097) (hlt 4097) (hsp 4097) ?_
    rw [longLine, hlen, hmax]
    omega
  · rw [byteLen_append, longLine, hlen, byteLen_newline]
  · have hnltag : '\n' ∉ longTag := by
      simp [longTag]
    have hclose : byteLen (closingTags [List.replicate 130 'b']) = 133 := by
      simp [closingTags, byteLen, Char.utf8Size]
    have hreopen : reopenTags [List.replicate 130 'b'] = longTag := by
      simp [reopenTags, longTag]
    have hsplit : taggedText.splitOn '\n' = [longTag, List.replicate 3900 'a'] :=
      splitOn_two_lines longTag _ hnltag (hnl 3900)
    refine ⟨?_, ?_, ?_⟩
    · have h := splitMaxLimitMessages_two_lines longTag (List.replicate 3900 'a')
        [List.replicate 130 'b'] hnltag (hnl 3900) scanTags_longTag
        (by rw [byteLen_longTag, hmax]; omega)
        (by rw [byteLen_longTag, hlen, hmax]; omega) (hlt 3900) (hsp 3900)
      rw [hreopen] at h
      exact h
    · intro line hline
      rw [hsplit] at hline
      simp only [List.mem_cons, List.mem_singleton, List.not_mem_nil, or_false] at hline
      rcases hline with rfl | rfl
      · rw [byteLen_longTag, hmax]; omega
      · rw [hlen, hmax]; omega
    · simp only [closeOpenTags, byteLen_append, byteLen_longTag, hlen, byteLen_newline, hclose]


/-- C24, amended: let no line of the text be longer than
`MaxTelegramMessageSize`, and let `splitMaxLimitMessages` return. Then every
part is non-empty and is made of the tags re-opened at its start, lines of at
most `MaxTelegramMessageSize + 1` bytes together, and the closing tags at its
end; so a part is at most 4096 bytes long when its re-opened and closing tags
take at most 127 bytes. -/
theorem parts_size_with_short_lines (text : String) (parts : List String)
    (hret : splitMaxLimitMessages text = .ok parts)
    (hlines : ∀ line ∈ text.data.splitOn '\n', byteLen line ≤ MaxTelegramMessageSize) :
    (∀ part ∈ parts, part ≠ "") ∧
    ∃ pieces : List Piece, splitPieces text = .ok pieces ∧
      parts = pieces.map (fun p => String.mk p.render) ∧
      ∀ p ∈ pieces, p.body ≠ [] ∧ byteLen p.body ≤ MaxTelegramMessageSize + 1 ∧
        byteLen p.render =
          byteLen (reopenTags p.reopened) + byteLen p.body + byteLen (closingTags p.closed) ∧
        (byteLen (reopenTags p.reopened) + byteLen (closingTags p.closed) ≤ 127 →
          byteLen p.render ≤ 4096) := by
  have href := splitMaxLimitMessages_eq_pieces text
  rw [hret] at href
  cases hpieces : splitPieces text with
  | panicked q => simp [hpieces] at href
  | ok pieces =>
    simp only [hpieces, Res.ok.injEq] at href
    have hall : ∀ p ∈ pieces, p.body ≠ [] ∧ byteLen p.body ≤ MaxTelegramMessageSize + 1 := by
      unfold splitPieces at hpieces
      cases hloop : pieceLines (text.data.splitOn '\n') ⟨[], [], [], []⟩ with
      | panicked q => simp [hloop] at hpieces
      | ok ps =>
        simp only [hloop, Res.ok.injEq] at hpieces
        have hinit : sizeInvariant ⟨[], [], [], []⟩ :=
          ⟨fun p hp => by simp at hp, by simp [byteLen], fun _ => rfl⟩
        obtain ⟨⟨hp1, hp2, _⟩, hne⟩ := pieceLines_sizeInvariant _ hlines _ ps hinit hloop
        have hbody : ps.body ≠ [] := hne (List.splitOnP_ne_nil _ _)
        intro p hp
        rw [← hpieces] at hp
        split at hp
        · rcases List.mem_append.1 hp with hp | hp
          · exact hp1 p hp
          · simp only [List.mem_singleton] at hp
            subst hp
            exact ⟨hbody, hp2⟩
        · exact hp1 p hp
    have hmax : MaxTelegramMessageSize = 3968 := by decide
    constructor
    · intro part hpart
      rw [href] at hpart
      obtain ⟨p, hp, rfl⟩ := List.mem_map.1 hpart
      intro hempty
      have hdata := congrArg String.data hempty
      simp only [Piece.render] at hdata
      have hb : p.body = [] := by
        have h2 : reopenTags p.reopened ++ p.body ++ closingTags p.closed = [] := hdata
        simp only [List.append_eq_nil] at h2
        exact h2.1.2
      exact (hall p hp).1 hb
    · refine ⟨pieces, rfl, href, ?_⟩
      intro p hp
      obtain ⟨h1, h2⟩ := hall p hp
      have hlen : byteLen p.render =
          byteLen (reopenTags p.reopened) + byteLen p.body + byteLen (closingTags p.closed) := by
        simp only [Piece.render, byteLen_append]
      refine ⟨h1, h2, hlen, ?_⟩
      intro htags
      rw [hlen]
      omega

/-- The amended C24 at work, on a text of two lines with tags. -/
theorem parts_size_with_short_lines_witness :
    (∀ part ∈ ["<b>hi</b>\n<i>x\n</i>"], part ≠ "") ∧
    ∃ pieces : List Piece, splitPieces "<b>hi</b>\n<i>x" = .ok pieces ∧
      ["<b>hi</b>\n<i>x\n</i>"] = pieces.map (fun p => String.mk p.render) ∧
      ∀ p ∈ pieces, p.body ≠ [] ∧ byteLen p.body ≤ MaxTelegramMessageSize + 1 ∧
        byteLen p.render =
          byteLen (reopenTags p.reopened) + byteLen p.body + byteLen (closingTags p.closed) ∧
        (byteLen (reopenTags p.reopened) + byteLen (closingTags p.closed) ≤ 127 →
          byteLen p.render ≤ 4096) :=
  parts_size_with_short_lines "<b>hi</b>\n<i>x" ["<b>hi</b>\n<i>x\n</i>"] (by decide) (by decide)


/-! ## The tags of a line -/

/-- The tag loop handles the tags of the line in order. -/
theorem scanTags_eq_runTags (fuel : Nat) :
    ∀ (rest : List Char) (stack : List (List Char)),
      scanTags fuel rest stack = runTags (lineTags fuel rest) stack := by
  induction fuel with
  | zero => intro rest stack; rfl
  | succ fuel ih =>
    intro rest stack
    simp only [scanTags, lineTags]
    cases hdrop : rest.dropWhile (· ≠ '<') with
    | nil => rfl
    | cons c afterOpen =>
      simp only
      by_cases hclose : '>' ∈ afterOpen
      · simp only [hclose, if_true, runTags]
        cases tagStep (afterOpen.takeWhile (· ≠ '>')) stack with
        | panicked p => rfl
        | ok stack1 => exact ih _ stack1
      · simp only [hclose, if_false, runTags]

/-- More fuel than the rest has characters finds the same tags. -/
theorem lineTags_fuel (n : Nat) :
    ∀ (fuel1 fuel2 : Nat) (rest : List Char), rest.length ≤ n → rest.length ≤ fuel1 →
      rest.length ≤ fuel2 → lineTags fuel1 rest = lineTags fuel2 rest := by
  induction n with
  | zero =>
    intro fuel1 fuel2 rest h _ _
    have hnil : rest = [] := List.length_eq_zero.1 (Nat.le_zero.1 h)
    subst hnil
    cases fuel1 <;> cases fuel2 <;> rfl
  | succ n ih =>
    intro fuel1 fuel2 rest h h1 h2
    cases fuel1 with
    | zero =>
      have hnil : rest = [] := List.length_eq_zero.1 (Nat.le_zero.1 h1)
      subst hnil
      cases fuel2 <;> rfl
    | succ fuel1 =>
      cases fuel2 with
      | zero =>
        have hnil : rest = [] := List.length_eq_zero.1 (Nat.le_zero.1 h2)
        subst hnil
        rfl
      | succ fuel2 =>
        simp only [lineTags]
        cases hdrop : rest.dropWhile (· ≠ '<') with
        | nil => rfl
        | cons c afterOpen =>
          simp only
          by_cases hclose : '>' ∈ afterOpen
          · simp only [hclose, if_true]
            have hlen1 : afterOpen.length < rest.length := by
              have hs := (List.dropWhile_sublist (· ≠ '<') (l := rest)).length_le
              rw [hdrop, List.length_cons] at hs
              omega
            have hlen2 : ((afterOpen.dropWhile (· ≠ '>')).drop 1).length ≤ afterOpen.length := by
              have hs := (List.dropWhile_sublist (· ≠ '>') (l := afterOpen)).length_le
              rw [List.length_drop]
              omega
            rw [ih fuel1 fuel2 _ (by omega) (by omega) (by omega)]
          · simp only [hclose, if_false]

/-- The tags of a line: those behind the first tag follow it. -/
theorem tagsOfLine_eq (rest : List Char) :
    tagsOfLine rest =
      match rest.dropWhile (· ≠ '<') with
      | [] => []
      | _ :: afterOpen =>
        if '>' ∈ afterOpen then
          afterOpen.takeWhile (· ≠ '>') :: tagsOfLine ((afterOpen.dropWhile (· ≠ '>')).drop 1)
        else [] := by
  unfold tagsOfLine
  cases hlen : rest.length with
  | zero =>
    have hnil : rest = [] := List.length_eq_zero.1 hlen
    subst hnil
    rfl
  | succ n =>
    simp only [lineTags]
    cases hdrop : rest.dropWhile (· ≠ '<') with
    | nil => rfl
    | cons c afterOpen =>
      simp only
      by_cases hclose : '>' ∈ afterOpen
      · simp only [hclose, if_true]
        have hlen1 : afterOpen.length < rest.length := by
          have hs := (List.dropWhile_sublist (· ≠ '<') (l := rest)).length_le
          rw [hdrop, List.length_cons] at hs
          omega
        have hlen2 : ((afterOpen.dropWhile (· ≠ '>')).drop 1).length ≤ afterOpen.length := by
          have hs := (List.dropWhile_sublist (· ≠ '>') (l := afterOpen)).length_le
          rw [List.length_drop]
          omega
        rw [lineTags_fuel n n _ _ (by omega) (by omega) (le_refl _)]
      · simp only [hclose, if_false]

/-- Text without `<` before a line adds no tag. -/
theorem tagsOfLine_append_left (before line : List Char) (h : '<' ∉ before) :
    tagsOfLine (before ++ line) = tagsOfLine line := by
  have hdrop : (before ++ line).dropWhile (· ≠ '<') = line.dropWhile (· ≠ '<') := by
    apply List.dropWhile_append_of_pos
    intro c hc
    simp only [ne_eq, decide_not, Bool.not_eq_true', decide_eq_false_iff_not]
    intro hcl
    exact h (hcl ▸ hc)
  rw [tagsOfLine_eq (before ++ line), tagsOfLine_eq line, hdrop]

/-- A tag at the start of a line is the first tag of the line. -/
theorem tagsOfLine_tag (content rest : List Char) (h : '>' ∉ content) :
    tagsOfLine ('<' :: content ++ '>' :: rest) = content :: tagsOfLine rest := by
  have hall : ∀ c ∈ content, (decide (c ≠ '>')) = true := by
    intro c hc
    simp only [ne_eq, decide_not, Bool.not_eq_true', decide_eq_false_iff_not]
    intro hcl
    exact h (hcl ▸ hc)
  rw [tagsOfLine_eq]
  have hdrop : ('<' :: content ++ '>' :: rest).dropWhile (· ≠ '<')
      = '<' :: (content ++ '>' :: rest) := by
    simp [List.dropWhile_cons]
  rw [hdrop]
  simp only [List.mem_append, List.mem_cons, true_or, or_true, if_true]
  rw [List.takeWhile_append_of_pos hall, List.dropWhile_append_of_pos hall]
  simp [List.takeWhile_cons, List.dropWhile_cons]


theorem dropWhile_append_of_mem (p : Char → Bool) (a b : List Char)
    (h : ∃ c ∈ a, p c = false) : (a ++ b).dropWhile p = a.dropWhile p ++ b := by
  induction a with
  | nil => simp at h
  | cons x xs ih =>
    cases hx : p x with
    | false => simp [List.dropWhile_cons, hx]
    | true =>
      obtain ⟨c, hc, hpc⟩ := h
      rcases List.mem_cons.1 hc with rfl | hc
      · rw [hx] at hpc
        cases hpc
      · simp only [List.cons_append, List.dropWhile_cons, hx, if_true]
        exact ih ⟨c, hc, hpc⟩

theorem takeWhile_append_of_mem (p : Char → Bool) (a b : List Char)
    (h : ∃ c ∈ a, p c = false) : (a ++ b).takeWhile p = a.takeWhile p := by
  induction a with
  | nil => simp at h
  | cons x xs ih =>
    cases hx : p x with
    | false => simp [List.takeWhile_cons, hx]
    | true =>
      obtain ⟨c, hc, hpc⟩ := h
      rcases List.mem_cons.1 hc with rfl | hc
      · rw [hx] at hpc
        cases hpc
      · simp only [List.cons_append, List.takeWhile_cons, hx, if_true]
        rw [ih ⟨c, hc, hpc⟩]

theorem dropWhile_ne_nil_of_mem (p : Char → Bool) (a : List Char)
    (h : ∃ c ∈ a, p c = false) : a.dropWhile p ≠ [] := by
  intro hnil
  rw [List.dropWhile_eq_nil_iff] at hnil
  obtain ⟨c, hc, hpc⟩ := h
  rw [hnil c hc] at hpc
  cases hpc

/-- Text without `<` and `>` behind a line adds no tag. -/
theorem tagsOfLine_append_right (after : List Char) (hopen : '<' ∉ after)
    (hclose : '>' ∉ after) (n : Nat) :
    ∀ line : List Char, line.length ≤ n → tagsOfLine (line ++ after) = tagsOfLine line := by
  induction n with
  | zero =>
    intro line h
    have hnil : line = [] := List.length_eq_zero.1 (Nat.le_zero.1 h)
    subst hnil
    have := tagsOfLine_append_left after [] hopen
    simpa using this
  | succ n ih =>
    intro line h
    rw [tagsOfLine_eq (line ++ after), tagsOfLine_eq line]
    cases hdrop : line.dropWhile (· ≠ '<') with
    | nil =>
      have hall : ∀ c ∈ line, (decide (c ≠ '<')) = true :=
        List.dropWhile_eq_nil_iff.1 hdrop
      have hafter : after.dropWhile (· ≠ '<') = [] := by
        rw [List.dropWhile_eq_nil_iff]
        intro c hc
        simp only [ne_eq, decide_not, Bool.not_eq_true', decide_eq_false_iff_not]
        intro hcl
        exact hopen (hcl ▸ hc)
      rw [List.dropWhile_append_of_pos hall, hafter]
    | cons c afterOpen =>
      have hmem : ∃ x ∈ line, (decide (x ≠ '<')) = false := by
        by_contra hcon
        have hall : ∀ x ∈ line, (decide (x ≠ '<')) = true := by
          intro x hx
          by_contra hx2
          exact hcon ⟨x, hx, by simpa using hx2⟩
        rw [List.dropWhile_eq_nil_iff.2 hall] at hdrop
        cases hdrop
      rw [dropWhile_append_of_mem _ line after hmem, hdrop]
      simp only [List.cons_append]
      have hlen1 : afterOpen.length < line.length := by
        have hs := (List.dropWhile_sublist (· ≠ '<') (l := line)).length_le
        rw [hdrop, List.length_cons] at hs
        omega
      by_cases hc : '>' ∈ afterOpen
      · have hmem2 : ∃ x ∈ afterOpen, (decide (x ≠ '>')) = false :=
          ⟨'>', hc, by decide⟩
        have hne := dropWhile_ne_nil_of_mem _ afterOpen hmem2
        have hc2 : '>' ∈ afterOpen ++ after := List.mem_append_left _ hc
        simp only [hc, hc2, if_true]
        rw [takeWhile_append_of_mem _ afterOpen after hmem2,
          dropWhile_append_of_mem _ afterOpen after hmem2]
        cases hd : afterOpen.dropWhile (· ≠ '>') with
        | nil => exact absurd hd hne
        | cons y ys =>
          simp only [List.cons_append, List.drop_succ_cons, List.drop_zero]
          have hlen2 : ys.length ≤ n := by
            have hs := (List.dropWhile_sublist (· ≠ '>') (l := afterOpen)).length_le
            rw [hd, List.length_cons] at hs
            omega
          rw [ih ys hlen2]
      · have hc2 : '>' ∉ afterOpen ++ after := by
          intro hm
          rcases List.mem_append.1 hm with hm | hm
          · exact hc hm
          · exact hclose hm
        simp only [hc, hc2, if_false]

/-- Trimming a line leaves its tags as they are. -/
theorem tagsOfLine_TrimSpace (line : List Char) : tagsOfLine (TrimSpace line) = tagsOfLine line := by
  obtain ⟨leading, trailing, hs, hl, ht⟩ := TrimSpace_decomposition line
  have hopen1 : '<' ∉ leading := fun h => by
    have := hl _ h
    revert this
    decide
  have hopen2 : '<' ∉ trailing := fun h => by
    have := ht _ h
    revert this
    decide
  have hclose2 : '>' ∉ trailing := fun h => by
    have := ht _ h
    revert this
    decide
  have h1 : tagsOfLine line = tagsOfLine (TrimSpace line ++ trailing) := by
    conv_lhs => rw [hs, List.append_assoc]
    exact tagsOfLine_append_left leading _ hopen1
  rw [h1, tagsOfLine_append_right trailing hopen2 hclose2 _ _ (le_refl _)]

/-- A tag content holds no `>`. -/
theorem not_mem_of_mem_tagsOfLine (n : Nat) :
    ∀ line : List Char, line.length ≤ n → ∀ content ∈ tagsOfLine line, '>' ∉ content := by
  induction n with
  | zero =>
    intro line h content hc
    have hnil : line = [] := List.length_eq_zero.1 (Nat.le_zero.1 h)
    subst hnil
    simp [tagsOfLine, lineTags] at hc
  | succ n ih =>
    intro line h content hc
    rw [tagsOfLine_eq] at hc
    cases hdrop : line.dropWhile (· ≠ '<') with
    | nil =>
      rw [hdrop] at hc
      simp at hc
    | cons c afterOpen =>
      rw [hdrop] at hc
      simp only at hc
      by_cases hcl : '>' ∈ afterOpen
      · simp only [hcl, if_true, List.mem_cons] at hc
        rcases hc with rfl | hc
        · intro hmem
          have := List.mem_takeWhile_imp hmem
          simp at this
        · have hlen1 : afterOpen.length < line.length := by
            have hs := (List.dropWhile_sublist (· ≠ '<') (l := line)).length_le
            rw [hdrop, List.length_cons] at hs
            omega
          have hlen2 : ((afterOpen.dropWhile (· ≠ '>')).drop 1).length ≤ n := by
            have hs := (List.dropWhile_sublist (· ≠ '>') (l := afterOpen)).length_le
            rw [List.length_drop]
            omega
          exact ih _ hlen2 content hc
      · simp [hcl] at hc


/-! ## Fields and names -/

/-- The pieces of a split hold none of the separators, and nothing that is
not in the list. -/
theorem mem_of_mem_splitOnP (p : Char → Bool) :
    ∀ (s : List Char), ∀ piece ∈ s.splitOnP p, ∀ c ∈ piece, p c = false ∧ c ∈ s := by
  intro s
  induction s with
  | nil =>
    intro piece hp c hc
    simp only [List.splitOnP_nil, List.mem_singleton] at hp
    subst hp
    cases hc
  | cons x xs ih =>
    intro piece hp c hc
    rw [List.splitOnP_cons] at hp
    by_cases hx : p x = true
    · simp only [hx, if_true, List.mem_cons] at hp
      rcases hp with rfl | hp
      · cases hc
      · exact ⟨(ih piece hp c hc).1, List.mem_cons_of_mem _ (ih piece hp c hc).2⟩
    · simp only [hx, Bool.false_eq_true, if_false] at hp
      cases hsplit : xs.splitOnP p with
      | nil => exact absurd hsplit (List.splitOnP_ne_nil p xs)
      | cons first others =>
        rw [hsplit] at hp ih
        simp only [List.modifyHead_cons, List.mem_cons] at hp
        rcases hp with rfl | hp
        · rcases List.mem_cons.1 hc with rfl | hc
          · exact ⟨by simpa using hx, List.mem_cons_self _ _⟩
          · have := ih first (List.mem_cons_self _ _) c hc
            exact ⟨this.1, List.mem_cons_of_mem _ this.2⟩
        · have := ih piece (List.mem_cons_of_mem _ hp) c hc
          exact ⟨this.1, List.mem_cons_of_mem _ this.2⟩

/-- A field is not empty, holds no white space, and is made of characters of
the string. -/
theorem mem_Fields (s field : List Char) (h : field ∈ Fields s) :
    field ≠ [] ∧ ∀ c ∈ field, isSpace c = false ∧ c ∈ s := by
  unfold Fields at h
  rw [List.mem_filter] at h
  obtain ⟨hmem, hne⟩ := h
  refine ⟨?_, mem_of_mem_splitOnP isSpace s field hmem⟩
  intro hnil
  subst hnil
  simp at hne

/-- A trimmed string is made of characters of the string. -/
theorem mem_of_mem_TrimSpace (s : List Char) (c : Char) (h : c ∈ TrimSpace s) : c ∈ s := by
  obtain ⟨leading, trailing, hs, _, _⟩ := TrimSpace_decomposition s
  rw [hs]
  exact List.mem_append_left _ (List.mem_append_right _ h)

/-- A name without white space is the only field of itself. -/
theorem Fields_TrimSpace_name (name : List Char) (hne : name ≠ [])
    (hspace : ∀ c ∈ name, isSpace c = false) : Fields (TrimSpace name) = [name] := by
  rw [TrimSpace_of_no_space name hspace]
  unfold Fields
  rw [List.splitOnP_eq_single isSpace name (fun c hc => by simp [hspace c hc])]
  cases name with
  | nil => exact absurd rfl hne
  | cons c cs => simp

/-! ## Properly nested tags -/

/-- The tag `<name>` of a good name opens `name`. -/
theorem nestStep_reopen (name : List Char) (stack : List (List Char)) (h : goodName name) :
    nestStep name stack = some (stack ++ [name]) := by
  obtain ⟨hne, hchars, hreg⟩ := h
  have hfields := Fields_TrimSpace_name name hne (fun c hc => (hchars c hc).1)
  have hreg2 := hreg
  simp only [regularName, Bool.and_eq_true, Bool.not_eq_true'] at hreg2
  obtain ⟨⟨⟨h1, h2⟩, h3⟩, h4⟩ := hreg2
  simp [nestStep, h1, h2, h3, h4, hfields, hreg]

/-- The tag `</name>` closes the name opened last. -/
theorem nestStep_close (name : List Char) (stack : List (List Char)) (h : goodName name) :
    nestStep ('/' :: name) (stack ++ [name]) = some stack := by
  obtain ⟨hne, hchars, _⟩ := h
  have hfields := Fields_TrimSpace_name name hne (fun c hc => (hchars c hc).1)
  simp [nestStep, HasPrefix, hfields]

/-- On a properly nested tag the loop does what `nestStep` says. -/
theorem tagStep_of_nestStep (content : List Char) (stack stack1 : List (List Char))
    (h : nestStep content stack = some stack1) : tagStep content stack = .ok stack1 := by
  unfold nestStep at h
  unfold tagStep
  by_cases hclosing : HasPrefix content ['/'] = true
  · simp only [hclosing, if_true] at h ⊢
    cases hf : Fields (TrimSpace (content.drop 1)) with
    | nil =>
      rw [hf] at h
      cases h
    | cons name others =>
      simp only [hf] at h ⊢
      by_cases hlast : stack.getLast? = some name
      · simp only [hlast, if_true, Option.some.injEq] at h
        have hlen : stack.length > 0 := by
          cases stack with
          | nil => simp at hlast
          | cons a b => simp
        simp [hlast, hlen, h]
      · simp [hlast] at h
  · simp only [hclosing, Bool.false_eq_true, if_false] at h ⊢
    cases hf : Fields (TrimSpace content) with
    | nil =>
      rw [hf] at h
      cases h
    | cons name others =>
      simp only [hf] at h ⊢
      split at h
      · rename_i hpush
        simp only [hpush, if_true]
        split at h
        · simp only [Option.some.injEq] at h
          rw [h]
        · cases h
      · rename_i hpush
        simp only [hpush, Bool.false_eq_true, if_false]
        simp only [Option.some.injEq] at h
        rw [h]

/-- A properly nested tag keeps the names on the stack good. -/
theorem nestStep_goodName (content : List Char) (stack stack1 : List (List Char))
    (hcontent : '>' ∉ content) (hgood : ∀ name ∈ stack, goodName name)
    (h : nestStep content stack = some stack1) : ∀ name ∈ stack1, goodName name := by
  unfold nestStep at h
  by_cases hclosing : HasPrefix content ['/'] = true
  · simp only [hclosing, if_true] at h
    cases hf : Fields (TrimSpace (content.drop 1)) with
    | nil =>
      rw [hf] at h
      cases h
    | cons name others =>
      simp only [hf] at h
      split at h
      · simp only [Option.some.injEq] at h
        subst h
        intro n hn
        exact hgood n (List.mem_of_mem_dropLast hn)
      · cases h
  · simp only [hclosing, Bool.false_eq_true, if_false] at h
    cases hf : Fields (TrimSpace content) with
    | nil =>
      rw [hf] at h
      cases h
    | cons name others =>
      simp only [hf] at h
      split at h
      · split at h
        · rename_i hreg
          simp only [Option.some.injEq] at h
          subst h
          intro n hn
          rcases List.mem_append.1 hn with hn | hn
          · exact hgood n hn
          · simp only [List.mem_singleton] at hn
            subst hn
            have hmem : n ∈ Fields (TrimSpace content) := by
              rw [hf]
              exact List.mem_cons_self _ _
            obtain ⟨hne, hchars⟩ := mem_Fields _ _ hmem
            refine ⟨hne, ?_, hreg⟩
            intro c hc
            refine ⟨(hchars c hc).1, ?_⟩
            intro hcl
            exact hcontent (hcl ▸ mem_of_mem_TrimSpace _ _ (hchars c hc).2)
        · cases h
      · simp only [Option.some.injEq] at h
        subst h
        exact hgood


theorem nestTags_append (a b : List (List Char)) :
    ∀ stack : List (List Char),
      nestTags (a ++ b) stack =
        match nestTags a stack with
        | none => none
        | some stack1 => nestTags b stack1 := by
  induction a with
  | nil => intro stack; rfl
  | cons content a ih =>
    intro stack
    simp only [List.cons_append, nestTags]
    cases nestStep content stack with
    | none => rfl
    | some stack1 => exact ih stack1

/-- On properly nested tags the loop does what `nestTags` says. -/
theorem runTags_of_nestTags (tags : List (List Char)) :
    ∀ stack stack1 : List (List Char), nestTags tags stack = some stack1 →
      runTags tags stack = .ok stack1 := by
  induction tags with
  | nil =>
    intro stack stack1 h
    simp only [nestTags, Option.some.injEq] at h
    simp [runTags, h]
  | cons content tags ih =>
    intro stack stack1 h
    simp only [nestTags] at h
    cases hstep : nestStep content stack with
    | none =>
      rw [hstep] at h
      cases h
    | some stack2 =>
      rw [hstep] at h
      simp only [runTags, tagStep_of_nestStep content stack stack2 hstep]
      exact ih stack2 stack1 h

/-- Properly nested tags keep the names on the stack good. -/
theorem nestTags_goodName (tags : List (List Char)) (hcontent : ∀ content ∈ tags, '>' ∉ content) :
    ∀ stack stack1 : List (List Char), (∀ name ∈ stack, goodName name) →
      nestTags tags stack = some stack1 → ∀ name ∈ stack1, goodName name := by
  induction tags with
  | nil =>
    intro stack stack1 hgood h
    simp only [nestTags, Option.some.injEq] at h
    subst h
    exact hgood
  | cons content tags ih =>
    intro stack stack1 hgood h
    simp only [nestTags] at h
    cases hstep : nestStep content stack with
    | none =>
      rw [hstep] at h
      cases h
    | some stack2 =>
      rw [hstep] at h
      exact ih (fun c hc => hcontent c (List.mem_cons_of_mem _ hc)) stack2 stack1
        (nestStep_goodName content stack stack2 (hcontent content (List.mem_cons_self _ _))
          hgood hstep) h

/-- Re-opened tags open their names, in order. -/
theorem nestTags_reopen (names : List (List Char)) (hgood : ∀ name ∈ names, goodName name) :
    ∀ stack : List (List Char), nestTags names stack = some (stack ++ names) := by
  induction names with
  | nil => intro stack; simp [nestTags]
  | cons name names ih =>
    intro stack
    simp only [nestTags, nestStep_reopen name stack (hgood name (List.mem_cons_self _ _))]
    rw [ih (fun n hn => hgood n (List.mem_cons_of_mem _ hn))]
    simp

/-- Closing tags, last name first, close the names on top of the stack. -/
theorem nestTags_close (names : List (List Char)) (hgood : ∀ name ∈ names, goodName name) :
    ∀ stack : List (List Char),
      nestTags (names.map fun name => '/' :: name) (stack ++ names.reverse) = some stack := by
  induction names with
  | nil => intro stack; simp [nestTags]
  | cons name names ih =>
    intro stack
    have hstack : stack ++ (name :: names).reverse = (stack ++ names.reverse) ++ [name] := by
      simp
    rw [hstack]
    simp only [List.map_cons, nestTags,
      nestStep_close name _ (hgood name (List.mem_cons_self _ _))]
    exact ih (fun n hn => hgood n (List.mem_cons_of_mem _ hn)) stack

/-- The tags of re-opened tags before a line. -/
theorem tagsOfLine_reopenTags (names : List (List Char)) (line : List Char)
    (h : ∀ name ∈ names, '>' ∉ name) :
    tagsOfLine (reopenTags names ++ line) = names ++ tagsOfLine line := by
  induction names with
  | nil => simp [reopenTags]
  | cons name names ih =>
    have hform : reopenTags (name :: names) ++ line
        = '<' :: name ++ '>' :: (reopenTags names ++ line) := by
      simp [reopenTags]
    rw [hform, tagsOfLine_tag name _ (h name (List.mem_cons_self _ _)),
      ih (fun n hn => h n (List.mem_cons_of_mem _ hn))]
    rfl

/-- The tags of closing tags. -/
theorem tagsOfLine_closingTags (names : List (List Char)) (h : ∀ name ∈ names, '>' ∉ name) :
    tagsOfLine (closingTags names) = names.reverse.map fun name => '/' :: name := by
  unfold closingTags
  have hrev : ∀ name ∈ names.reverse, '>' ∉ name := fun n hn => h n (List.mem_reverse.1 hn)
  generalize names.reverse = t at hrev
  induction t with
  | nil => simp [tagsOfLine, lineTags]
  | cons name t ih =>
    have hform : ((name :: t).map fun tag => '<' :: '/' :: tag ++ ['>']).flatten
        = '<' :: ('/' :: name) ++ '>' :: (t.map fun tag => '<' :: '/' :: tag ++ ['>']).flatten := by
      simp
    have hname : '>' ∉ '/' :: name := by
      intro hm
      rcases List.mem_cons.1 hm with hm | hm
      · revert hm
        decide
      · exact hrev name (List.mem_cons_self _ _) hm
    rw [hform, tagsOfLine_tag _ _ hname, ih (fun n hn => hrev n (List.mem_cons_of_mem _ hn))]
    rfl

/-- Re-opened and closing tags of good names hold no newline. -/
theorem newline_not_mem_tags (names : List (List Char)) (hgood : ∀ name ∈ names, goodName name) :
    '\n' ∉ reopenTags names ∧ '\n' ∉ closingTags names := by
  have hname : ∀ name ∈ names, '\n' ∉ name := by
    intro name hn hm
    have := ((hgood name hn).2.1 _ hm).1
    revert this
    decide
  constructor
  · intro hm
    simp only [reopenTags, List.mem_flatten, List.mem_map] at hm
    obtain ⟨l, ⟨name, hn, rfl⟩, hl⟩ := hm
    simp only [List.mem_cons, List.mem_append, List.mem_singleton, List.not_mem_nil,
      or_false] at hl
    rcases hl with (hl | hl) | hl
    · exact absurd hl (by decide)
    · exact hname name hn hl
    · exact absurd hl (by decide)
  · intro hm
    simp only [closingTags, List.mem_flatten, List.mem_map, List.mem_reverse] at hm
    obtain ⟨l, ⟨name, hn, rfl⟩, hl⟩ := hm
    simp only [List.mem_cons, List.mem_append, List.mem_singleton, List.not_mem_nil,
      or_false] at hl
    rcases hl with (hl | hl | hl) | hl
    · exact absurd hl (by decide)
    · exact absurd hl (by decide)
    · exact hname name hn hl
    · exact absurd hl (by decide)

/-- The lines of a text hold no newline. -/
theorem newline_not_mem_line (s line : List Char) (h : line ∈ s.splitOn '\n') : '\n' ∉ line := by
  intro hm
  have := (mem_of_mem_splitOnP (· == '\n') s line h '\n' hm).1
  simp at this


/-! ## Every piece is properly nested -/

theorem intercalate_newline_cons (first : List Char) (others : List (List Char)) :
    ['\n'].intercalate (first :: others)
      = first ++ (others.map fun line => '\n' :: line).flatten := by
  induction others generalizing first with
  | nil => simp [List.intercalate]
  | cons second others ih =>
    have h := ih second
    simp only [List.intercalate, List.intersperse_cons₂, List.flatten_cons, List.map_cons] at h ⊢
    rw [h]
    simp

/-- Lines with their newlines, followed by a last line, are these lines
joined by newlines. -/
theorem withNewlines_append (lines : List (List Char)) (last : List Char) :
    withNewlines lines ++ last = ['\n'].intercalate (lines ++ [last]) := by
  induction lines with
  | nil => simp [withNewlines, List.intercalate]
  | cons line lines ih =>
    have hcons : withNewlines (line :: lines) = line ++ '\n' :: withNewlines lines := by
      simp [withNewlines]
    rw [hcons, List.cons_append, intercalate_newline_cons]
    cases hrest : lines ++ [last] with
    | nil => simp at hrest
    | cons x xs =>
      rw [hrest, intercalate_newline_cons] at ih
      simp only [List.append_assoc, List.cons_append, ih, List.map_cons, List.flatten_cons]

/-- A piece whose lines lead from the names re-opened to the names closed is
properly nested. -/
theorem tagsNest_piece (reopened closed : List (List Char)) (lines : List (List Char))
    (hreopened : ∀ name ∈ reopened, goodName name) (hclosed : ∀ name ∈ closed, goodName name)
    (hlines : ∀ line ∈ lines, '\n' ∉ line)
    (hnest : nestTags (lines.map tagsOfLine).flatten reopened = some closed) :
    tagsNest (reopenTags reopened ++ withNewlines lines ++ closingTags closed) = some [] := by
  have hgt1 : ∀ name ∈ reopened, '>' ∉ name :=
    fun n hn hm => ((hreopened n hn).2.1 _ hm).2 rfl
  have hgt2 : ∀ name ∈ closed, '>' ∉ name :=
    fun n hn hm => ((hclosed n hn).2.1 _ hm).2 rfl
  have hnl1 := (newline_not_mem_tags reopened hreopened).1
  have hnl2 := (newline_not_mem_tags closed hclosed).2
  cases hall : lines ++ [closingTags closed] with
  | nil => simp at hall
  | cons first others =>
    have hmem : ∀ line ∈ first :: others, '\n' ∉ line := by
      intro line hl
      rw [← hall] at hl
      rcases List.mem_append.1 hl with hl | hl
      · exact hlines line hl
      · simp only [List.mem_singleton] at hl
        subst hl
        exact hnl2
    have htext : reopenTags reopened ++ withNewlines lines ++ closingTags closed
        = ['\n'].intercalate ((reopenTags reopened ++ first) :: others) := by
      rw [List.append_assoc, withNewlines_append, hall, intercalate_newline_cons,
        intercalate_newline_cons, List.append_assoc]
    have hsplit : (reopenTags reopened ++ withNewlines lines ++ closingTags closed).splitOn '\n'
        = (reopenTags reopened ++ first) :: others := by
      rw [htext, List.splitOn_intercalate]
      · intro line hl
        rcases List.mem_cons.1 hl with rfl | hl
        · intro hm
          rcases List.mem_append.1 hm with hm | hm
          · exact hnl1 hm
          · exact hmem first (List.mem_cons_self _ _) hm
        · exact hmem line (List.mem_cons_of_mem _ hl)
      · simp
    have htags : textTags (reopenTags reopened ++ withNewlines lines ++ closingTags closed)
        = reopened ++ ((lines.map tagsOfLine).flatten ++
            (closed.reverse.map fun name => '/' :: name)) := by
      unfold textTags
      rw [hsplit, List.map_cons, List.flatten_cons, tagsOfLine_reopenTags _ _ hgt1,
        List.append_assoc]
      have h2 : tagsOfLine first ++ (others.map tagsOfLine).flatten
          = ((first :: others).map tagsOfLine).flatten := by simp
      rw [h2, ← hall, List.map_append, List.flatten_append]
      simp [tagsOfLine_closingTags closed hgt2]
    unfold tagsNest
    rw [htags, nestTags_append, nestTags_reopen reopened hreopened []]
    simp only [List.nil_append]
    rw [nestTags_append, hnest]
    simp only
    have hclose := nestTags_close closed.reverse
      (fun n hn => hclosed n (List.mem_reverse.1 hn)) []
    simpa using hclose


/-- One turn of the loop on a line of a properly nested text: the turn does
not panic and keeps the invariant. -/
theorem pieceLine_nestInvariant (ps : PieceState) (line : List Char)
    (rest : List (List Char)) (final : List (List Char)) (hinv : nestInvariant ps)
    (hline : '\n' ∉ line)
    (hnest : nestTags (tagsOfLine line ++ rest) ps.openTagStack = some final) :
    ∃ ps1, pieceLine ps line = .ok ps1 ∧ nestInvariant ps1 ∧
      nestTags rest ps1.openTagStack = some final ∧ ps1.body ≠ [] := by
  obtain ⟨hreopened, hstack, ⟨lines, hbody, hlines, hpath⟩, hpieces, hchain, hhead⟩ := hinv
  rw [nestTags_append] at hnest
  cases hs : nestTags (tagsOfLine line) ps.openTagStack with
  | none =>
    rw [hs] at hnest
    cases hnest
  | some stack1 =>
    rw [hs] at hnest
    simp only at hnest
    have hscan : ∀ line1 : List Char, tagsOfLine line1 = tagsOfLine line →
        scanTags line1.length line1 ps.openTagStack = .ok stack1 := by
      intro line1 h1
      rw [scanTags_eq_runTags]
      have h2 : lineTags line1.length line1 = tagsOfLine line := h1
      rw [h2]
      exact runTags_of_nestTags _ _ _ hs
    have hgood1 : ∀ name ∈ stack1, goodName name :=
      nestTags_goodName (tagsOfLine line)
        (not_mem_of_mem_tagsOfLine line.length line (le_refl _)) _ _ hstack hs
    unfold pieceLine
    by_cases hcut : byteLen (reopenTags ps.reopened ++ ps.body) + byteLen line >
        MaxTelegramMessageSize
    · simp only [hcut, decide_True, if_true, hscan (TrimSpace line) (tagsOfLine_TrimSpace line)]
      refine ⟨_, rfl, ⟨hstack, hgood1, ⟨[TrimSpace line], ?_, ?_, ?_⟩, ?_, ?_, ?_⟩, hnest, ?_⟩
      · simp [withNewlines]
      · intro l hl
        simp only [List.mem_singleton] at hl
        subst hl
        exact fun hm => hline (mem_of_mem_TrimSpace _ _ hm)
      · simp only [List.map_cons, List.map_nil, List.flatten_cons, List.flatten_nil,
          List.append_nil, tagsOfLine_TrimSpace]
        exact hs
      · intro p hp
        rcases List.mem_append.1 hp with hp | hp
        · exact hpieces p hp
        · simp only [List.mem_singleton] at hp
          subst hp
          simp only [Piece.render, hbody]
          exact tagsNest_piece _ _ lines hreopened hstack hlines hpath
      · refine List.Chain'.append hchain (List.chain'_singleton _) ?_
        intro x hx y hy
        have hlast : (ps.pieces ++ [ps.current]).getLast? = some ps.current := by
          rw [List.getLast?_append_of_ne_nil _ (List.cons_ne_nil _ _)]
          rfl
        have hx2 : (ps.pieces ++ [ps.current]).getLast? = some x := hx
        rw [hlast, Option.some.injEq] at hx2
        have hy2 : y.reopened = ps.openTagStack := by
          have h : some _ = some y := hy
          rw [Option.some.injEq] at h
          rw [← h]
          rfl
        rw [hy2, ← hx2]
        rfl
      · intro p hp
        apply hhead p
        cases hps : ps.pieces with
        | nil =>
          rw [hps] at hp
          simpa [PieceState.current] using hp
        | cons q qs =>
          rw [hps] at hp
          simpa using hp
      · simp
    · simp only [hcut, decide_False, Bool.false_eq_true, if_false, hscan line rfl]
      refine ⟨_, rfl, ⟨hreopened, hgood1, ⟨lines ++ [line], ?_, ?_, ?_⟩, hpieces, ?_, ?_⟩,
        hnest, ?_⟩
      · simp [withNewlines, hbody]
      · intro l hl
        rcases List.mem_append.1 hl with hl | hl
        · exact hlines l hl
        · simp only [List.mem_singleton] at hl
          subst hl
          exact hline
      · simp only [List.map_append, List.map_cons, List.map_nil, List.flatten_append,
          List.flatten_cons, List.flatten_nil, List.append_nil]
        rw [nestTags_append, hpath]
        exact hs
      · rw [List.chain'_append] at hchain ⊢
        refine ⟨hchain.1, List.chain'_singleton _, ?_⟩
        intro x hx y hy
        simp only [PieceState.current, List.head?_cons, Option.mem_def,
          Option.some.injEq] at hy
        subst hy
        exact hchain.2.2 x hx ps.current rfl
      · intro p hp
        cases hps : ps.pieces with
        | nil =>
          rw [hps] at hp
          simp only [PieceState.current, List.nil_append, List.head?_cons,
            Option.some.injEq] at hp
          subst hp
          exact hhead ps.current (by simp [hps])
        | cons q qs =>
          rw [hps] at hp
          exact hhead p (by simpa [hps] using hp)
      · simp

/-- The loop on the lines of a properly nested text: it does not panic, keeps
the invariant, and ends with the names the text leaves open. -/
theorem pieceLines_nestInvariant (lines : List (List Char)) :
    ∀ (ps : PieceState) (final : List (List Char)), nestInvariant ps →
      (∀ line ∈ lines, '\n' ∉ line) →
      nestTags (lines.map tagsOfLine).flatten ps.openTagStack = some final →
      ∃ ps1, pieceLines lines ps = .ok ps1 ∧ nestInvariant ps1 ∧ ps1.openTagStack = final ∧
        (lines ≠ [] → ps1.body ≠ []) := by
  induction lines with
  | nil =>
    intro ps final hinv _ hnest
    simp only [List.map_nil, List.flatten_nil, nestTags, Option.some.injEq] at hnest
    exact ⟨ps, rfl, hinv, hnest, fun h => absurd rfl h⟩
  | cons line lines ih =>
    intro ps final hinv hlines hnest
    simp only [List.map_cons, List.flatten_cons] at hnest
    obtain ⟨ps1, hstep, hinv1, hnest1, hbody1⟩ :=
      pieceLine_nestInvariant ps line _ final hinv (hlines line (List.mem_cons_self _ _)) hnest
    obtain ⟨ps2, hloop, hinv2, hfinal, hbody2⟩ :=
      ih ps1 final hinv1 (fun l hl => hlines l (List.mem_cons_of_mem _ hl)) hnest1
    refine ⟨ps2, ?_, hinv2, hfinal, fun _ => ?_⟩
    · simp only [pieceLines, hstep]
      exact hloop
    · cases lines with
      | nil =>
        simp only [pieceLines, Res.ok.injEq] at hloop
        subst hloop
        exact hbody1
      | cons l ls => exact hbody2 (List.cons_ne_nil _ _)


/-- Properly nested tags match. -/
theorem matchStep_of_nestStep (content : List Char) (stack stack1 : List (List Char))
    (h : nestStep content stack = some stack1) : matchStep content stack = some stack1 := by
  unfold nestStep at h
  unfold matchStep
  by_cases hclosing : HasPrefix content ['/'] = true
  · simp only [hclosing, if_true] at h ⊢
    exact h
  · simp only [hclosing, Bool.false_eq_true, if_false] at h ⊢
    cases hf : Fields (TrimSpace content) with
    | nil =>
      rw [hf] at h
      cases h
    | cons name others =>
      simp only [hf] at h ⊢
      split at h
      · rename_i hpush
        simp only [hpush, if_true]
        split at h
        · exact h
        · cases h
      · rename_i hpush
        simp only [hpush, Bool.false_eq_true, if_false]
        exact h

theorem matchTags_of_nestTags (tags : List (List Char)) :
    ∀ stack stack1 : List (List Char), nestTags tags stack = some stack1 →
      matchTags tags stack = some stack1 := by
  induction tags with
  | nil => intro stack stack1 h; exact h
  | cons content tags ih =>
    intro stack stack1 h
    simp only [nestTags] at h
    cases hstep : nestStep content stack with
    | none =>
      rw [hstep] at h
      cases h
    | some stack2 =>
      rw [hstep] at h
      simp only [matchTags, matchStep_of_nestStep content stack stack2 hstep]
      exact ih stack2 stack1 h

theorem tagsMatch_of_tagsNest (text : List Char) (stack : List (List Char))
    (h : tagsNest text = some stack) : tagsMatch text = some stack :=
  matchTags_of_nestTags _ _ _ h

/-- C25, amended: let the tags of the text, as the tag loop finds them line by
line, be properly nested, every closing tag `</name>` closing the tag opened
last, and let every opening tag `<name ...>` have a regular name, one that
opens a tag again when written as `<name>`; `final` are the names the text
leaves open. Then `splitMaxLimitMessages` returns, and of the pieces its parts
are the texts of: every one is properly nested with no tag left open; the
first one re-opens nothing; every other one re-opens, by name and in the order
of opening, the names that the piece before it has closed, last opened first,
at its end; and the last one closes the names in `final`. -/
theorem parts_properly_nested (text : String) (final : List (List Char))
    (hnest : tagsNest text.data = some final) :
    ∃ pieces : List Piece, splitPieces text = .ok pieces ∧
      splitMaxLimitMessages text = .ok (pieces.map fun p => String.mk p.render) ∧
      (∀ p ∈ pieces, tagsNest p.render = some [] ∧ tagsMatch p.render = some []) ∧
      List.Chain' (fun p q : Piece => q.reopened = p.closed) pieces ∧
      (∀ p, pieces.head? = some p → p.reopened = []) ∧
      (∀ p, pieces.getLast? = some p → p.closed = final) := by
  have hinit : nestInvariant ⟨[], [], [], []⟩ := by
    refine ⟨fun n hn => absurd hn (List.not_mem_nil n), fun n hn => absurd hn (List.not_mem_nil n),
      ⟨[], rfl, fun l hl => absurd hl (List.not_mem_nil l), rfl⟩,
      fun p hp => absurd hp (List.not_mem_nil p), List.chain'_singleton _, ?_⟩
    intro p hp
    simp only [PieceState.current, List.nil_append, List.head?_cons, Option.some.injEq] at hp
    rw [← hp]
  obtain ⟨ps, hloop, hinv, hfinal, hbody⟩ :=
    pieceLines_nestInvariant (text.data.splitOn '\n') ⟨[], [], [], []⟩ final hinit
      (fun line hl => newline_not_mem_line text.data line hl) hnest
  have hne : ps.body ≠ [] := hbody (List.splitOnP_ne_nil _ _)
  have hpos : byteLen (reopenTags ps.reopened ++ ps.body) > 0 := by
    rw [byteLen_append]
    have := byteLen_pos ps.body hne
    omega
  have hpieces : splitPieces text = .ok (ps.pieces ++ [ps.current]) := by
    unfold splitPieces
    simp only [hloop, hpos, if_true]
    rfl
  obtain ⟨hreopened, hstack, ⟨lines, hb, hlines, hpath⟩, hcut, hchain, hhead⟩ := hinv
  refine ⟨ps.pieces ++ [ps.current], hpieces, ?_, ?_, hchain, hhead, ?_⟩
  · rw [splitMaxLimitMessages_eq_pieces, hpieces]
  · intro p hp
    have hp2 : tagsNest p.render = some [] := by
      rcases List.mem_append.1 hp with hp | hp
      · exact hcut p hp
      · simp only [List.mem_singleton] at hp
        subst hp
        simp only [Piece.render, PieceState.current, hb]
        exact tagsNest_piece _ _ lines hreopened hstack hlines hpath
    exact ⟨hp2, tagsMatch_of_tagsNest _ _ hp2⟩
  · intro p hp
    rw [List.getLast?_append_of_ne_nil _ (List.cons_ne_nil _ _)] at hp
    simp only [List.getLast?_singleton, Option.some.injEq] at hp
    rw [← hp]
    exact hfinal

/-- The amended C25 at work, on a text of three lines with nested tags. -/
theorem parts_properly_nested_witness :
    ∃ pieces : List Piece, splitPieces "<b>bold <i>both\nstill</i> bold</b>\n<br/>" = .ok pieces ∧
      splitMaxLimitMessages "<b>bold <i>both\nstill</i> bold</b>\n<br/>"
        = .ok (pieces.map fun p => String.mk p.render) ∧
      (∀ p ∈ pieces, tagsNest p.render = some [] ∧ tagsMatch p.render = some []) ∧
      List.Chain' (fun p q : Piece => q.reopened = p.closed) pieces ∧
      (∀ p, pieces.head? = some p → p.reopened = []) ∧
      (∀ p, pieces.getLast? = some p → p.closed = []) :=
  parts_properly_nested "<b>bold <i>both\nstill</i> bold</b>\n<br/>" [] (by decide)

/-! ## Names that do not open a tag -/

/-- The parts for a text of two lines with tags that do not go into one
part. -/
theorem splitMaxLimitMessages_two_tagged_lines (first second : List Char)
    (stack stack2 : List (List Char)) (hnl1 : '\n' ∉ first) (hnl2 : '\n' ∉ second)
    (hscan : scanTags first.length first [] = .ok stack)
    (hfirst : byteLen first ≤ MaxTelegramMessageSize)
    (hcut : byteLen first + 1 + byteLen second > MaxTelegramMessageSize)
    (htrim : TrimSpace second = second)
    (hscan2 : scanTags second.length second stack = .ok stack2) :
    splitMaxLimitMessages (String.mk (first ++ '\n' :: second))
      = .ok [String.mk (closeOpenTags (first ++ ['\n']) stack),
          String.mk (closeOpenTags (reopenTags stack ++ second ++ ['\n']) stack2)] := by
  have hno : ¬ (byteLen first > MaxTelegramMessageSize) := by omega
  have hcut2 : byteLen (first ++ ['\n']) + byteLen second > MaxTelegramMessageSize := by
    rw [byteLen_append, byteLen_newline]
    exact hcut
  have hpos : 0 < byteLen (reopenTags stack ++ second ++ ['\n']) := by
    rw [byteLen_append, byteLen_newline]
    omega
  unfold splitMaxLimitMessages
  simp only [splitOn_two_lines _ _ hnl1 hnl2, splitLines, splitLine, byteLen_nil, Nat.zero_add,
    hno, decide_False, Bool.false_eq_true, if_false, hscan, List.nil_append, hcut2, decide_True,
    if_true, htrim, hscan2, lastPart, hpos, gt_iff_lt, List.map_cons, List.map_nil,
    List.map_append]
  rfl

/-- The tags of `oddLine`. -/
theorem tagsOfLine_oddLine : tagsOfLine oddLine = [['/', '/', 'a']] := by
  unfold oddLine
  rw [tagsOfLine_append_left _ _ (mem_replicate_letter 3970 _ _ (by decide))]
  decide

/-- C25, the claim as written fails. In the text `oddText` the tag `< /a>` is
read as opening the name `/a` and the tag `<//a>` as closing it, so the tags
match. The second line does not go into the first part; the second part
starts with the name re-opened as `</a>`, which is read as a closing tag and
closes nothing: the tags of the second part do not match. -/
theorem part_reopens_with_closing_tag :
    tagsMatch oddText = some [] ∧
    splitMaxLimitMessages (String.mk oddText)
      = .ok [String.mk (['<', ' ', '/', 'a', '>', '\n'] ++ ['<', '/', '/', 'a', '>']),
          String.mk (['<', '/', 'a', '>'] ++ oddLine ++ ['\n'])] ∧
    tagsMatch (['<', '/', 'a', '>'] ++ oddLine ++ ['\n']) = none := by
  have hsize : Char.utf8Size 'a' = 1 := by decide
  have hmax : MaxTelegramMessageSize = 3968 := by decide
  have hnl : '\n' ∉ oddLine := by
    unfold oddLine
    intro hm
    rcases List.mem_append.1 hm with hm | hm
    · exact mem_replicate_letter 3970 _ _ (by decide) hm
    · revert hm
      decide
  have hspace : ∀ c ∈ oddLine, isSpace c = false := by
    unfold oddLine
    intro c hc
    rcases List.mem_append.1 hc with hc | hc
    · rw [List.eq_of_mem_replicate hc]
      decide
    · simp only [List.mem_cons, List.mem_singleton, List.not_mem_nil, or_false] at hc
      rcases hc with rfl | rfl | rfl | rfl | rfl <;> decide
  have hlen : byteLen oddLine = 3975 := by
    unfold oddLine
    rw [byteLen_append, byteLen_replicate, hsize]
    decide
  have hscan2 : scanTags oddLine.length oddLine [['/', 'a']] = .ok [] := by
    rw [scanTags_eq_runTags]
    have h : lineTags oddLine.length oddLine = tagsOfLine oddLine := rfl
    rw [h, tagsOfLine_oddLine]
    decide
  refine ⟨?_, ?_, ?_⟩
  · unfold tagsMatch textTags oddText
    rw [splitOn_two_lines _ _ (by decide) hnl]
    simp only [List.map_cons, List.map_nil, List.flatten_cons, List.flatten_nil,
      tagsOfLine_oddLine]
    decide
  · have hfirst : byteLen ['<', ' ', '/', 'a', '>'] = 5 := by decide
    have hnl1 : '\n' ∉ ['<', ' ', '/', 'a', '>'] := by decide
    have hscan1 : scanTags (['<', ' ', '/', 'a', '>'] : List Char).length
        ['<', ' ', '/', 'a', '>'] [] = .ok [['/', 'a']] := by decide
    have h := splitMaxLimitMessages_two_tagged_lines ['<', ' ', '/', 'a', '>'] oddLine
      [['/', 'a']] [] hnl1 hnl hscan1 (by rw [hfirst, hmax]; omega)
      (by rw [hfirst, hlen, hmax]; omega) (TrimSpace_of_no_space _ hspace) hscan2
    have h1 : closeOpenTags (['<', ' ', '/', 'a', '>'] ++ ['\n']) [['/', 'a']]
        = ['<', ' ', '/', 'a', '>', '\n'] ++ ['<', '/', '/', 'a', '>'] := by decide
    have h2 : closeOpenTags (reopenTags [['/', 'a']] ++ oddLine ++ ['\n']) []
        = ['<', '/', 'a', '>'] ++ oddLine ++ ['\n'] := by
      simp [closeOpenTags, closingTags, reopenTags]
    rw [h1, h2] at h
    unfold oddText
    exact h
  · have hline : '\n' ∉ ['<', '/', 'a', '>'] ++ oddLine := by
      intro hm
      rcases List.mem_append.1 hm with hm | hm
      · revert hm
        decide
      · exact hnl hm
    have hform : ['<', '/', 'a', '>'] ++ oddLine ++ ['\n']
        = (['<', '/', 'a', '>'] ++ oddLine) ++ '\n' :: [] := by simp
    have htag : tagsOfLine (['<', '/', 'a', '>'] ++ oddLine)
        = ['/', 'a'] :: tagsOfLine oddLine :=
      tagsOfLine_tag ['/', 'a'] oddLine (by decide)
    unfold tagsMatch textTags
    rw [hform, splitOn_two_lines _ _ hline (by decide)]
    simp only [List.map_cons, List.map_nil, List.flatten_cons, List.flatten_nil, htag,
      tagsOfLine_oddLine]
    decide


end Workflows
